import Mathlib

/-!
Verification development for the grid-based navigation subsystem of the
reachy-mini-simulator repository: the office grid map (`office_map.py`),
the A* path finder and navigator (`navigation.py`), the mock obstacle
detector (`obstacle_detector.py`) and the point-to-point kinematics of the
mock robot (`mock_robot.py`).

Modelling conventions:
* Python `dict` objects are modelled as association lists whose update
  operation overwrites the first matching key in place, which is
  value-faithful to the insertion-ordered Python dict.
* Python floats are modelled as exact numbers: as rationals where the code
  performs only field operations and comparisons (navigator positions,
  patrol times), and as real numbers where square roots or trigonometric
  functions occur (A* edge costs and heuristic, robot kinematics,
  raycasting).
* Python `while` loops are modelled with an explicit fuel parameter that is
  provably large enough on every execution analysed here; exhausted fuel
  yields `none`, matching the partiality of the source loop.
-/

namespace ReachySim

open scoped Classical

/-- First-match association-list lookup: the observable content of a Python
dict. -/
def look {α β : Type} [DecidableEq α] : List (α × β) → α → Option β
  | [], _ => none
  | (k, v) :: t, a => if a = k then some v else look t a

/-- Python dict assignment `d[k] = v`: overwrite the first entry holding `k`
keeping its position, or append a fresh entry at the end. -/
def dinsert {α β : Type} [DecidableEq α] : List (α × β) → α → β → List (α × β)
  | [], k, v => [(k, v)]
  | (k', v') :: t, k, v => if k' = k then (k, v) :: t else (k', v') :: dinsert t k v

/-- The keys of an association list, in order. -/
def keysOf {α β : Type} (l : List (α × β)) : List α := l.map Prod.fst

/-- `office_map.py::NamedLocation`: a named point of interest.  `cell_type`
is the category string ("room", "entrance", "area", "charger"). -/
structure NamedLocation where
  name : String
  position : ℤ × ℤ
  cell_type : String
  deriving DecidableEq, Repr

/-- `office_map.py::OfficeMap`: width/height in cells, the grid as a
row-major list of rows of integer cell-type codes (`grid[y][x]`, exactly the
layout of the numpy array and of its JSON serialisation), and the named
locations as an insertion-ordered dict. -/
structure OfficeMap where
  width : ℕ
  height : ℕ
  grid : List (List ℤ)
  named_locations : List (String × NamedLocation)
  deriving DecidableEq, Repr

/-- The walkable cell-type codes: EMPTY = 0, DOOR = 2, CHARGER = 5
(`office_map.py::_WALKABLE`). -/
def walkCode (c : ℤ) : Bool := c == 0 || c == 2 || c == 5

/-- `OfficeMap._in_bounds`. -/
def in_bounds (m : OfficeMap) (x y : ℤ) : Bool :=
  decide (0 ≤ x ∧ x < (m.width : ℤ) ∧ 0 ≤ y ∧ y < (m.height : ℤ))

/-- `OfficeMap.is_walkable`: bounds-checked walkability query.  A grid
lookup that falls outside the stored rows (impossible for maps whose grid
matches the declared shape, the invariant maintained by every constructor
in the source) is modelled as not walkable. -/
def is_walkable (m : OfficeMap) (x y : ℤ) : Bool :=
  if in_bounds m x y then
    match (m.grid.get? y.toNat).bind (fun row => row.get? x.toNat) with
    | some c => walkCode c
    | none => false
  else false

/-- `office_map.py::_DIRECTIONS_8`, in source order: the four orthogonal
offsets then the four diagonal offsets, as `(dx, dy)` pairs. -/
def directions8 : List (ℤ × ℤ) :=
  [(-1, 0), (1, 0), (0, -1), (0, 1), (-1, -1), (-1, 1), (1, -1), (1, 1)]

/-- `OfficeMap.get_neighbors`: the 8-adjacent walkable cells, where a
diagonal neighbour is dropped unless both orthogonal cells next to the step
are walkable (no corner cutting). -/
def get_neighbors (m : OfficeMap) (x y : ℤ) : List (ℤ × ℤ) :=
  directions8.filterMap fun d =>
    let nx := x + d.1
    let ny := y + d.2
    if !(is_walkable m nx ny) then none
    else if d.1 != 0 && d.2 != 0 && (!(is_walkable m nx y) || !(is_walkable m x ny)) then none
    else some (nx, ny)

/-- `OfficeMap.get_location`: name lookup; the raised `KeyError` is
modelled as `none`. -/
def get_location (m : OfficeMap) (name : String) : Option NamedLocation :=
  look m.named_locations name

/-- `OfficeMap.add_named_location`: registers the location under `name`
with no validation whatsoever; a duplicate name overwrites the existing
dict entry in place. -/
def add_named_location (m : OfficeMap) (name : String) (x y : ℤ) (ct : String) : OfficeMap :=
  { m with named_locations := dinsert m.named_locations name ⟨name, (x, y), ct⟩ }

/-- The dictionary produced by `NamedLocation.to_dict`: the (redundant)
name, the position as a two-element JSON list, and the category string. -/
structure LocDoc where
  name : String
  position : List ℤ
  cell_type : String
  deriving DecidableEq, Repr

/-- The JSON document written by `OfficeMap.save_to_json`: fields `width`,
`height`, `grid` (row-major 2D int array) and `named_locations` (object
mapping name to the location dict, in dict order).  The bijection between
this structure and its JSON text (exact for ints and strings) is taken as
given; the round-trip claim is about the structural content. -/
structure MapDoc where
  width : ℕ
  height : ℕ
  grid : List (List ℤ)
  named_locations : List (String × LocDoc)
  deriving DecidableEq, Repr

/-- `NamedLocation.to_dict`. -/
def NamedLocation.to_dict (v : NamedLocation) : LocDoc :=
  ⟨v.name, [v.position.1, v.position.2], v.cell_type⟩

/-- `NamedLocation.from_dict`: `tuple(data["position"])` on the two-element
position list (missing components, which `to_dict` never produces, default
to 0). -/
def NamedLocation.from_dict (d : LocDoc) : NamedLocation :=
  ⟨d.name, (d.position.getD 0 0, d.position.getD 1 0), d.cell_type⟩

/-- `OfficeMap.save_to_json` (the document it writes). -/
def save_to_json (m : OfficeMap) : MapDoc :=
  ⟨m.width, m.height, m.grid, m.named_locations.map (fun kv => (kv.1, kv.2.to_dict))⟩

/-- `OfficeMap.load_from_json`: builds the empty map of the declared size,
overwrites the grid with the stored array, then inserts every stored named
location in document order. -/
def load_from_json (d : MapDoc) : OfficeMap :=
  { width := d.width
    height := d.height
    grid := d.grid
    named_locations :=
      d.named_locations.foldl (fun acc kv => dinsert acc kv.1 (NamedLocation.from_dict kv.2)) [] }

/-!  A* path finder (`navigation.py::a_star`).  Float arithmetic on costs
and priorities is modelled exactly over ℝ (√2 edge costs, Euclidean
heuristic); the `heapq` priority queue is modelled as the multiset of its
entries together with a minimum-extraction operation under the tuple order
`(f, (x, y))` that Python uses to compare heap entries. -/

/-- The Euclidean heuristic of `a_star`: distance from `n` to `goal`. -/
noncomputable def heurist (goal n : ℤ × ℤ) : ℝ :=
  Real.sqrt (((n.1 - goal.1 : ℤ) : ℝ) ^ 2 + ((n.2 - goal.2 : ℤ) : ℝ) ^ 2)

/-- The move cost of `a_star`: √2 when both coordinates change (diagonal
step), 1 otherwise. -/
noncomputable def moveCost (cur nb : ℤ × ℤ) : ℝ :=
  if cur.1 ≠ nb.1 ∧ cur.2 ≠ nb.2 then Real.sqrt 2 else 1

/-- One heap entry `(f, node)` as pushed by `a_star`. -/
abbrev AEntry : Type := ℝ × (ℤ × ℤ)

/-- The Python tuple order on heap entries: compare the float priority
first, then the coordinate pair lexicographically. -/
def entryLE (a b : AEntry) : Prop :=
  a.1 < b.1 ∨ (a.1 = b.1 ∧ (a.2.1 < b.2.1 ∨ (a.2.1 = b.2.1 ∧ a.2.2 ≤ b.2.2)))

/-- Extract a minimal entry (under `entryLE`) from the heap and return it
with the remaining entries: the observable behaviour of `heapq.heappop`,
whose result is determined by the multiset of entries because entries that
compare equal are equal as values. -/
noncomputable def popMin : List AEntry → Option (AEntry × List AEntry)
  | [] => none
  | e :: rest =>
    match popMin rest with
    | none => some (e, [])
    | some (m, rest') => if entryLE e m then some (e, rest) else some (m, e :: rest')

/-- The mutable state of the `a_star` main loop: the open heap, the
`g_score` dict and the `came_from` dict. -/
structure AState where
  open_set : List AEntry
  g_score : List ((ℤ × ℤ) × ℝ)
  came_from : List ((ℤ × ℤ) × (ℤ × ℤ))

/-- One relaxation of the inner `for neighbor in ...` loop body of
`a_star`: compute the tentative g-score and, when it beats the recorded
one (`float("inf")` when absent), record parent and score and push the
entry `(tentative + h, neighbor)`.  `g_score[current]` is always present
when this runs (every popped node was scored before being pushed); the
`getD 0` default is never exercised. -/
noncomputable def relaxOne (goal current : ℤ × ℤ) (st : AState) (nb : ℤ × ℤ) : AState :=
  let tentative := (look st.g_score current).getD 0 + moveCost current nb
  if (match look st.g_score nb with
      | none => True
      | some gv => tentative < gv) then
    { open_set := (tentative + heurist goal nb, nb) :: st.open_set
      g_score := (nb, tentative) :: st.g_score
      came_from := (nb, current) :: st.came_from }
  else st

/-- The whole inner loop: relax every neighbour of `current` in the order
produced by `get_neighbors`. -/
noncomputable def relaxAll (m : OfficeMap) (goal current : ℤ × ℤ) (st : AState) : AState :=
  (get_neighbors m current.1 current.2).foldl (relaxOne goal current) st

/-- Path reconstruction (`while current in came_from`), accumulating the
cells so that the final list is already in start-to-goal order (the source
appends and then reverses; the resulting value is the same).  The fuel
`came_from.length + 1` passed by `loopAStar` is exhausted exactly when the
source loop would revisit a key and hence diverge. -/
def walkBack (came : List ((ℤ × ℤ) × (ℤ × ℤ))) :
    ℕ → (ℤ × ℤ) → List (ℤ × ℤ) → Option (List (ℤ × ℤ))
  | 0, _, _ => none
  | fuel + 1, cur, acc =>
    match look came cur with
    | none => some (cur :: acc)
    | some p => walkBack came fuel p (cur :: acc)

/-- The `while open_set` main loop of `a_star`. -/
noncomputable def loopAStar (m : OfficeMap) (goal : ℤ × ℤ) :
    ℕ → AState → Option (List (ℤ × ℤ))
  | 0, _ => none
  | fuel + 1, st =>
    match popMin st.open_set with
    | none => none
    | some ((_, current), rest) =>
      if current = goal then walkBack st.came_from (st.came_from.length + 1) current []
      else loopAStar m goal fuel (relaxAll m goal current { st with open_set := rest })

/-- Fuel for the main loop; large enough for every execution analysed in
this development (the source loop always terminates, each iteration popping
one entry). -/
def astarFuel (m : OfficeMap) : ℕ := 8 * (m.width * m.height + 1) ^ 3

/-- `navigation.py::a_star`: `None` when either endpoint is not walkable,
otherwise run the search from the initial heap `[(0.0, start)]` and score
`{start: 0.0}`. -/
noncomputable def a_star (m : OfficeMap) (start goal : ℤ × ℤ) : Option (List (ℤ × ℤ)) :=
  if is_walkable m start.1 start.2 && is_walkable m goal.1 goal.2 then
    loopAStar m goal (astarFuel m) ⟨[((0 : ℝ), start)], [(start, 0)], []⟩
  else none

/-!  Navigator (`navigation.py::Navigator`).  Positions and times are
Python floats on which the navigator performs only comparisons and
rounding; they are modelled as exact rationals. -/

/-- Python `round` on an exact value: round half to even (banker's
rounding), then `int()` of the result. -/
def pyRoundQ (q : ℚ) : ℤ :=
  let f := ⌊q⌋
  let r := q - f
  if r < 1 / 2 then f
  else if 1 / 2 < r then f + 1
  else if Even f then f else f + 1

/-- `navigation.py::PatrolSchedule`. -/
structure PatrolSchedule where
  time_minutes : ℚ
  location_name : String
  action : String
  deriving DecidableEq, Repr

instance : IsTotal PatrolSchedule (fun a b => a.time_minutes ≤ b.time_minutes) :=
  ⟨fun _ _ => le_total _ _⟩

instance : IsTrans PatrolSchedule (fun a b => a.time_minutes ≤ b.time_minutes) :=
  ⟨fun _ _ _ h1 h2 => le_trans h1 h2⟩

/-- The mutable fields of `navigation.py::Navigator` touched by the
operations modelled here (`navigate_to`, `set_patrol_schedule`,
`check_patrol`); `α` is the opaque type of arrival callbacks. -/
structure Navigator (α : Type) where
  office_map : OfficeMap
  path : List (ℤ × ℤ)
  path_index : ℕ
  current_target : Option String
  on_arrival : Option α
  replan_cooldown : ℚ
  patrol_schedule : List PatrolSchedule
  patrol_index : ℕ
  deriving DecidableEq

/-- `Navigator.is_navigating`. -/
def is_navigating {α : Type} (nav : Navigator α) : Bool :=
  decide (nav.path_index < nav.path.length) || nav.current_target.isSome

/-- The start cell chosen by `navigate_to`: the rounded `from_pos` when
the caller passed one, the fixed cell `(0, 0)` otherwise (a `None`/absent
argument is falsy; a two-element tuple is always truthy). -/
def startCell (from_pos : Option (ℚ × ℚ)) : ℤ × ℤ :=
  match from_pos with
  | some p => (pyRoundQ p.1, pyRoundQ p.2)
  | none => (0, 0)

/-- `Navigator.navigate_to`: resolve the name (returning `false` on the
caught `KeyError`), then run `a_star` from `startCell from_pos` to the
resolved cell, returning `false` with no state change on planning failure
and installing path, cursor, target and callback on success. -/
noncomputable def navigate_to {α : Type} (nav : Navigator α) (location_name : String)
    (from_pos : Option (ℚ × ℚ)) (on_arrival : Option α) : Bool × Navigator α :=
  match get_location nav.office_map location_name with
  | none => (false, nav)
  | some loc =>
    match a_star nav.office_map (startCell from_pos) loc.position with
    | none => (false, nav)
    | some path =>
      (true, { nav with
                path := path
                path_index := 0
                current_target := some location_name
                on_arrival := on_arrival })

/-- `Navigator.set_patrol_schedule`: store the schedule sorted by trigger
time (Python's `sorted` is stable; so is insertion sort, hence the stored
list is value-identical) and reset the patrol cursor. -/
def set_patrol_schedule {α : Type} (nav : Navigator α) (schedule : List PatrolSchedule) :
    Navigator α :=
  { nav with
    patrol_schedule :=
      schedule.insertionSort (fun a b => a.time_minutes ≤ b.time_minutes)
    patrol_index := 0 }

/-- `Navigator.check_patrol`: when the entry at the patrol cursor is due
(`current_minutes >= entry.time_minutes`), advance the cursor, issue the
navigation request from the robot's position, and return the entry;
otherwise (cursor past the end, or entry not yet due) do nothing. -/
noncomputable def check_patrol {α : Type} (nav : Navigator α) (current_minutes : ℚ)
    (robot_pos : ℚ × ℚ) : Option PatrolSchedule × Navigator α :=
  match nav.patrol_schedule.get? nav.patrol_index with
  | none => (none, nav)
  | some sched =>
    if sched.time_minutes ≤ current_minutes then
      let nav' := { nav with patrol_index := nav.patrol_index + 1 }
      (some sched, (navigate_to nav' sched.location_name (some robot_pos) none).2)
    else (none, nav)

/-- Iterate `check_patrol` over a sequence of (time, robot position)
samples, collecting the triggered entries in order. -/
noncomputable def runPatrol {α : Type} :
    Navigator α → List (ℚ × (ℚ × ℚ)) → List PatrolSchedule × Navigator α
  | nav, [] => ([], nav)
  | nav, (t, pos) :: rest =>
    let r := check_patrol nav t pos
    let rr := runPatrol r.2 rest
    (r.1.toList ++ rr.1, rr.2)

/-!  Point-to-point kinematics of `mock_robot.py::MockReachyMini`
(`move_to` / `update_position`).  Positions, heading and speed are floats
carrying square roots and `atan2`; they are modelled over ℝ. -/

/-- `math.atan2 y x`, as the argument of the complex number `x + y·i`
(both range over `[-π, π]` and agree wherever ℝ distinguishes values). -/
noncomputable def atan2 (y x : ℝ) : ℝ := Complex.arg ⟨x, y⟩

/-- `math.degrees`. -/
noncomputable def pyDegrees (r : ℝ) : ℝ := r * 180 / Real.pi

/-- `math.radians`. -/
noncomputable def pyRadians (d : ℝ) : ℝ := d * Real.pi / 180

/-- The fields of `MockReachyMini` that the point-to-point drive mode
reads and writes. -/
structure RobotState where
  position : ℝ × ℝ
  heading : ℝ
  speed : ℝ
  move_target : Option (ℝ × ℝ)

/-- `MockReachyMini.move_to`: set the target and face it (heading is left
alone when the displacement is within the 1e-6 tolerance). -/
noncomputable def move_to (r : RobotState) (x y : ℝ) : RobotState :=
  let dx := x - r.position.1
  let dy := y - r.position.2
  { r with
    move_target := some (x, y)
    heading :=
      if 1 / 1000000 < |dx| ∨ 1 / 1000000 < |dy| then pyDegrees (atan2 dy dx)
      else r.heading }

/-- `MockReachyMini.update_position`: with no target, report not moving;
otherwise take a straight-line step of length `speed·dt` toward the target,
snapping exactly onto the target (and clearing it) when the remaining
distance is within the step.  Returns whether motion is still in
progress, paired with the new state. -/
noncomputable def update_position (r : RobotState) (dt : ℝ) : Bool × RobotState :=
  match r.move_target with
  | none => (false, r)
  | some t =>
    let dx := t.1 - r.position.1
    let dy := t.2 - r.position.2
    let distance := Real.sqrt (dx * dx + dy * dy)
    let step := r.speed * dt
    if distance ≤ step then
      (false, { r with position := (t.1, t.2), move_target := none })
    else
      let frac := step / distance
      (true, { r with
                position := (r.position.1 + dx * frac, r.position.2 + dy * frac)
                heading := pyDegrees (atan2 dy dx) })

/-!  Obstacle detection (`obstacle_detector.py`).  An obstacle callback is
an effectful listener over an abstract environment state `σ`: it maps the
state to a new state (the side effects performed before any exception)
together with an optional exception.  All real sensor geometry
(`MockObstacleDetector._raycast`) is modelled over ℝ. -/

/-- A registered obstacle callback over environment state `σ`. -/
def ObsCallback (σ : Type) : Type := σ → σ × Option String

/-- A callback with the same side effects that never raises. -/
def stripErr {σ : Type} (cb : ObsCallback σ) : ObsCallback σ := fun s => ((cb s).1, none)

/-- `ObstacleDetectorInterface._notify_obstacle`: run every registered
callback in order, catching (and merely logging) any exception. -/
def notify_obstacle {σ : Type} (cbs : List (ObsCallback σ)) (s : σ) : σ :=
  cbs.foldl (fun st cb => (cb st).1) s

/-- Python `int()` truncation toward zero on an exact value. -/
noncomputable def pyTruncInt (x : ℝ) : ℤ := if 0 ≤ x then ⌊x⌋ else ⌈x⌉

/-- Python `round` over ℝ: round half to even, as an integer. -/
noncomputable def pyRoundR (x : ℝ) : ℤ :=
  let f := ⌊x⌋
  let r := x - f
  if r < 1 / 2 then f
  else if 1 / 2 < r then f + 1
  else if Even f then f else f + 1

/-- The configuration of `MockObstacleDetector` relevant here. -/
structure MockDetector (σ : Type) where
  omap : OfficeMap
  sensor_angles : List ℝ
  max_range : ℝ
  safe_distance : ℝ
  callbacks : List (ObsCallback σ)

/-- `MockObstacleDetector._raycast`: march a ray in steps of a quarter
cell, returning the distance (in metres, cells are 0.5 m) of the first
sample that is out of bounds or not walkable (`is_walkable` already
returns false out of bounds, so the two source checks return the same
value), or `max_range` when no obstacle is hit. -/
noncomputable def raycast {σ : Type} (det : MockDetector σ) (sx sy ang : ℝ) : ℝ :=
  let max_steps := (pyTruncInt (det.max_range / (1 / 2) * 4)).toNat
  let step_size : ℝ := 1 / 4
  match (List.range max_steps).findSome? (fun j =>
      let i : ℕ := j + 1
      let cx := sx + Real.cos ang * step_size * i
      let cy := sy + Real.sin ang * step_size * i
      if !(is_walkable det.omap (pyRoundR cx) (pyRoundR cy)) then
        some (step_size * i * (1 / 2))
      else none) with
  | some d => d
  | none => det.max_range

/-- `MockObstacleDetector.get_distances` at a given robot pose and
environment state: raycast every configured sensor angle, fire the
obstacle callbacks when any distance is below the safety threshold, and
return the distance list to the caller. -/
noncomputable def get_distances {σ : Type} (det : MockDetector σ) (pos : ℝ × ℝ)
    (heading_deg : ℝ) (s : σ) : List ℝ × σ :=
  let heading_rad := pyRadians heading_deg
  let distances := det.sensor_angles.map (fun a => raycast det pos.1 pos.2 (heading_rad + a))
  let s' :=
    if ∃ d ∈ distances, d < det.safe_distance then notify_obstacle det.callbacks s else s
  (distances, s')

/-!  Auxiliary definitions for the statements of the claims. -/

/-- The fully open `n × n` grid: every cell EMPTY, no named locations. -/
def openMap (n : ℕ) : OfficeMap :=
  ⟨n, n, List.replicate n (List.replicate n 0), []⟩

/-- The pure diagonal path `(0,0), (1,1), …, (k,k)`. -/
def diagPath (k : ℕ) : List (ℤ × ℤ) :=
  (List.range (k + 1)).map (fun j : ℕ => ((j : ℤ), (j : ℤ)))

/-- The same diagonal run in head-recursive form, for cost computations. -/
def diagChain : ℕ → (ℤ × ℤ) → List (ℤ × ℤ)
  | 0, p => [p]
  | c + 1, p => p :: diagChain c (p.1 + 1, p.2 + 1)

/-- One valid path step on map `m` as the specification states it: the
cells are 8-adjacent (Chebyshev distance exactly 1), the new cell is
walkable, and a diagonal step has both of its orthogonal neighbour cells
walkable. -/
def stepOK (m : OfficeMap) (a b : ℤ × ℤ) : Prop :=
  max |b.1 - a.1| |b.2 - a.2| = 1 ∧
  is_walkable m b.1 b.2 = true ∧
  (b.1 ≠ a.1 ∧ b.2 ≠ a.2 → is_walkable m b.1 a.2 = true ∧ is_walkable m a.1 b.2 = true)

/-- The cost of a path under the edge-cost model of `a_star`: 1 per
orthogonal step, √2 per diagonal step. -/
noncomputable def pathCost : List (ℤ × ℤ) → ℝ
  | [] => 0
  | [_] => 0
  | a :: b :: t => moveCost a b + pathCost (b :: t)

/-- The `g_score` lookup function of the A* search on the open grid just
before iteration `i` of the main loop (having popped the diagonal cells
`(0,0) … (i-1,i-1)`). -/
noncomputable def gOpen (i : ℕ) : ℤ × ℤ → Option ℝ := fun n =>
  if n.1 = n.2 ∧ 0 ≤ n.1 ∧ n.1 ≤ (i : ℤ) then some (n.1 * Real.sqrt 2)
  else if n.1 = n.2 + 1 ∧ 0 ≤ n.2 ∧ n.2 ≤ (i : ℤ) - 1 then some (n.2 * Real.sqrt 2 + 1)
  else if n.2 = n.1 + 1 ∧ 0 ≤ n.1 ∧ n.1 ≤ (i : ℤ) - 1 then some (n.1 * Real.sqrt 2 + 1)
  else if n.1 = n.2 + 2 ∧ 0 ≤ n.2 ∧ n.2 ≤ (i : ℤ) - 2 then some (n.1 * Real.sqrt 2)
  else if n.2 = n.1 + 2 ∧ 0 ≤ n.1 ∧ n.1 ≤ (i : ℤ) - 2 then some (n.2 * Real.sqrt 2)
  else none

/-- The `came_from` lookup function of the A* search on the open grid just
before iteration `i` of the main loop. -/
def cameOpen (i : ℕ) : ℤ × ℤ → Option (ℤ × ℤ) := fun n =>
  if n.1 = n.2 ∧ 1 ≤ n.1 ∧ n.1 ≤ (i : ℤ) then some (n.1 - 1, n.2 - 1)
  else if n.1 = n.2 + 1 ∧ 0 ≤ n.2 ∧ n.2 ≤ (i : ℤ) - 1 then some (n.2, n.2)
  else if n.2 = n.1 + 1 ∧ 0 ≤ n.1 ∧ n.1 ≤ (i : ℤ) - 1 then some (n.1, n.1)
  else if n.1 = n.2 + 2 ∧ 0 ≤ n.2 ∧ n.2 ≤ (i : ℤ) - 2 then some (n.1 - 1, n.2 + 1)
  else if n.2 = n.1 + 2 ∧ 0 ≤ n.1 ∧ n.1 ≤ (i : ℤ) - 2 then some (n.1 + 1, n.2 - 1)
  else none

/-- Priority of the frontier entries one orthogonal step off the diagonal
(`(j+1, j)` and `(j, j+1)`) on the open grid with goal `(k, k)`. -/
noncomputable def junkA (k j : ℕ) : ℝ :=
  (j : ℝ) * Real.sqrt 2 + 1 + Real.sqrt (((k : ℝ) - j - 1) ^ 2 + ((k : ℝ) - j) ^ 2)

/-- Priority of the frontier entries two steps off the diagonal
(`(j+1, j-1)` and `(j-1, j+1)`) on the open grid with goal `(k, k)`. -/
noncomputable def junkB (k j : ℕ) : ℝ :=
  ((j : ℝ) + 1) * Real.sqrt 2 + Real.sqrt (((k : ℝ) - j - 1) ^ 2 + ((k : ℝ) - j + 1) ^ 2)

/-- The multiset (as a list) of open-heap entries just before iteration
`i` of the main loop on the open grid with goal `(k, k)`. -/
noncomputable def openEntries (k i : ℕ) : List AEntry :=
  ((k : ℝ) * Real.sqrt 2, ((i : ℤ), (i : ℤ))) ::
    (((List.range i).flatMap fun j =>
        [(junkA k j, ((j : ℤ) + 1, (j : ℤ))), (junkA k j, ((j : ℤ), (j : ℤ) + 1))]) ++
      ((List.range (i - 1)).flatMap fun j =>
        [(junkB k (j + 1), ((j : ℤ) + 2, (j : ℤ))), (junkB k (j + 1), ((j : ℤ), (j : ℤ) + 2))]))

/-- A 3×1 map whose middle cell is a wall: the two end cells are walkable
but mutually unreachable.  The location "B" names the right end cell. -/
def mapC3 : OfficeMap := ⟨3, 1, [[0, 1, 0]], [("B", ⟨"B", (2, 0), "room"⟩)]⟩

/-- A navigator on `mapC3` that is mid-navigation: a one-cell path with
the cursor still on it, so `is_navigating` holds. -/
def navBusy : Navigator Unit := ⟨mapC3, [(0, 0)], 0, none, none, 0, [], 0⟩

/-- An idle navigator on `mapC3`. -/
def navIdle : Navigator Unit := ⟨mapC3, [], 0, none, none, 0, [], 0⟩

/-- A 1×1 map with a single named location "L" at its only cell. -/
def mapStay : OfficeMap := ⟨1, 1, [[0]], [("L", ⟨"L", (0, 0), "room"⟩)]⟩

/-- An idle navigator on `mapStay`. -/
def navStay : Navigator Unit := ⟨mapStay, [], 0, none, none, 0, [], 0⟩

/-- A navigator with a two-entry patrol schedule (times 10 and 20) whose
location names are absent from the map. -/
def navW6 : Navigator Unit :=
  ⟨mapStay, [], 0, none, none, 0, [⟨10, "A", "patrol"⟩, ⟨20, "B", "patrol"⟩], 0⟩

/-- The sample times 5, 15, 25 with a fixed robot position. -/
def tsW6 : List (ℚ × (ℚ × ℚ)) := [(5, (0, 0)), (15, (0, 0)), (25, (0, 0))]

/-- The invariant of the A* main-loop state: `g_score` values are
non-negative, the start keeps score 0 and never acquires a parent, every
`came_from` edge runs along `get_neighbors` and increases the score by at
least the minimal edge cost 1, every heap entry is scored, and every
scored node except the start has a parent. -/
structure AInv (m : OfficeMap) (start : ℤ × ℤ) (st : AState) : Prop where
  g_nonneg : ∀ n v, look st.g_score n = some v → 0 ≤ v
  g_start : look st.g_score start = some 0
  came_start : look st.came_from start = none
  came_prop : ∀ n p, look st.came_from n = some p →
    n ∈ get_neighbors m p.1 p.2 ∧
      ∃ gn gp, look st.g_score n = some gn ∧ look st.g_score p = some gp ∧ gp + 1 ≤ gn
  open_g : ∀ e ∈ st.open_set, ∃ v, look st.g_score e.2 = some v
  g_came : ∀ n, n ≠ start → (∃ v, look st.g_score n = some v) →
    ∃ p, look st.came_from n = some p

/-- A concrete obstacle detector used to witness the callback-isolation
theorem: the 1×1 open map, a single forward sensor, 0.5 m range and
safety threshold, and two callbacks over ℕ environment state, the first
of which raises after incrementing the state. -/
noncomputable def detW : MockDetector ℕ :=
  ⟨openMap 1, [0], 1 / 2, 1 / 2,
    [fun s => (s + 1, some "err"), fun s => (s * 10, none)]⟩

/-- A concrete robot state used to witness the kinematics theorem: at the
origin, heading 0, unit speed, moving toward (3, 4). -/
noncomputable def robotW : RobotState := ⟨(0, 0), 0, 1, some (3, 4)⟩

/-!  Association-list (Python dict) lemmas. -/

lemma look_dinsert_self {β : Type} (l : List (String × β)) (k : String) (v : β) :
    look (dinsert l k v) k = some v := by
  induction l with
  | nil => simp [dinsert, look]
  | cons hd t ih =>
    obtain ⟨k', v'⟩ := hd
    by_cases h : k' = k
    · subst h
      simp [dinsert, look]
    · simp only [dinsert, if_neg h, look]
      rw [if_neg (fun hh => h hh.symm)]
      exact ih

lemma look_dinsert_ne {β : Type} (l : List (String × β)) (k a : String) (v : β)
    (h : a ≠ k) : look (dinsert l k v) a = look l a := by
  induction l with
  | nil => simp [dinsert, look, h]
  | cons hd t ih =>
    obtain ⟨k', v'⟩ := hd
    by_cases hk : k' = k
    · subst hk
      simp [dinsert, look, h]
    · simp only [dinsert, if_neg hk, look]
      by_cases ha : a = k'
      · simp [ha]
      · simp only [if_neg ha]
        exact ih

lemma filter_dinsert {β : Type} (l : List (String × β)) (k : String) (v : β) :
    (dinsert l k v).filter (fun kv => kv.1 != k) = l.filter (fun kv => kv.1 != k) := by
  induction l with
  | nil => simp [dinsert]
  | cons hd t ih =>
    obtain ⟨k', v'⟩ := hd
    by_cases hk : k' = k
    · subst hk
      simp [dinsert, List.filter]
    · simp only [dinsert, if_neg hk, List.filter]
      rw [show (k' != k) = true by simpa using hk]
      simp only [List.filter] at ih ⊢
      rw [ih]

lemma keysOf_dinsert_mem {β : Type} (l : List (String × β)) (k : String) (v : β)
    (h : k ∈ keysOf l) : keysOf (dinsert l k v) = keysOf l := by
  induction l with
  | nil => simp [keysOf] at h
  | cons hd t ih =>
    obtain ⟨k', v'⟩ := hd
    by_cases hk : k' = k
    · subst hk
      simp [dinsert, keysOf]
    · have hmem : k ∈ keysOf t := by
        simp only [keysOf, List.map_cons, List.mem_cons] at h
        exact h.resolve_left (fun hh => hk hh.symm)
      simp only [dinsert, if_neg hk, keysOf, List.map_cons]
      have := ih hmem
      simp only [keysOf] at this
      rw [this]

lemma keysOf_dinsert_not_mem {β : Type} (l : List (String × β)) (k : String) (v : β)
    (h : k ∉ keysOf l) : keysOf (dinsert l k v) = keysOf l ++ [k] := by
  induction l with
  | nil => simp [dinsert, keysOf]
  | cons hd t ih =>
    obtain ⟨k', v'⟩ := hd
    simp only [keysOf, List.map_cons, List.mem_cons, not_or] at h
    simp only [dinsert, if_neg (Ne.symm h.1), keysOf, List.map_cons, List.cons_append]
    have := ih (by simpa [keysOf] using h.2)
    simp only [keysOf] at this
    rw [this]

lemma keysOf_nodup_dinsert {β : Type} (l : List (String × β)) (k : String) (v : β)
    (h : (keysOf l).Nodup) : (keysOf (dinsert l k v)).Nodup := by
  by_cases hm : k ∈ keysOf l
  · rw [keysOf_dinsert_mem l k v hm]
    exact h
  · rw [keysOf_dinsert_not_mem l k v hm]
    simpa using List.Nodup.append h (by simp) (by simpa [List.disjoint_left] using hm)

lemma count_keysOf_dinsert {β : Type} (l : List (String × β)) (k : String) (v : β)
    (h : (keysOf l).Nodup) : (keysOf (dinsert l k v)).count k = 1 := by
  by_cases hm : k ∈ keysOf l
  · rw [keysOf_dinsert_mem l k v hm]
    exact List.count_eq_one_of_mem h hm
  · rw [keysOf_dinsert_not_mem l k v hm]
    rw [List.count_append]
    rw [List.count_eq_zero_of_not_mem hm]
    simp

lemma dinsert_eq_append {β : Type} (acc : List (String × β)) (k : String) (v : β)
    (h : k ∉ keysOf acc) : dinsert acc k v = acc ++ [(k, v)] := by
  induction acc with
  | nil => simp [dinsert]
  | cons hd t ih =>
    obtain ⟨k', v'⟩ := hd
    simp only [keysOf, List.map_cons, List.mem_cons, not_or] at h
    simp only [dinsert, if_neg (Ne.symm h.1), List.cons_append]
    rw [ih (by simpa [keysOf] using h.2)]

lemma foldl_dinsert_rebuild {β : Type} (l : List (String × β)) :
    ∀ acc : List (String × β), (keysOf l).Nodup →
      (∀ k ∈ keysOf l, k ∉ keysOf acc) →
      l.foldl (fun acc kv => dinsert acc kv.1 kv.2) acc = acc ++ l := by
  induction l with
  | nil => intro acc _ _; simp
  | cons hd t ih =>
    intro acc hnd hdisj
    obtain ⟨k, v⟩ := hd
    simp only [List.foldl_cons]
    have hk : k ∉ keysOf acc := hdisj k (by simp [keysOf])
    rw [dinsert_eq_append acc k v hk]
    simp only [keysOf, List.map_cons, List.nodup_cons] at hnd
    have := ih (acc ++ [(k, v)]) (by simpa [keysOf] using hnd.2) ?_
    · rw [this]
      simp
    · intro k' hk'
      simp only [keysOf, List.map_append, List.mem_append, not_or]
      refine ⟨hdisj k' ?_, ?_⟩
      · show k' ∈ keysOf ((k, v) :: t)
        simp only [keysOf, List.map_cons, List.mem_cons]
        exact Or.inr hk'
      · intro hc
        simp only [List.map_cons, List.map_nil, List.mem_singleton] at hc
        subst hc
        exact hnd.1 hk'

/-!  C4 — `add_named_location`. -/

/-- C4 (counterexample): `add_named_location` does not reject an empty
name or an out-of-bounds cell: on a 1×1 map it registers the entry with
empty name at the out-of-bounds cell (5, 7), changing the location table
the claim says it leaves unchanged. -/
theorem c4_no_validation_counterexample :
    look (add_named_location (openMap 1) "" 5 7 "room").named_locations ""
        = some ⟨"", (5, 7), "room"⟩ ∧
      (add_named_location (openMap 1) "" 5 7 "room").named_locations
        ≠ (openMap 1).named_locations := by
  exact ⟨rfl, by decide⟩

/-- C4 (amended): `add_named_location` performs no validation — any name
(even empty) and any cell (even out of bounds) are registered
unconditionally; a duplicate name overwrites the existing entry in place,
so afterwards the lookup for that name yields the latest position and
category, every other entry is unchanged, and (keys being unique, as they
are for every dict) exactly one entry holds that name. -/
theorem c4_add_named_location_last_write_wins (m : OfficeMap) (name : String)
    (x y : ℤ) (ct : String) :
    look (add_named_location m name x y ct).named_locations name
        = some ⟨name, (x, y), ct⟩ ∧
      (∀ other, other ≠ name →
        look (add_named_location m name x y ct).named_locations other
          = look m.named_locations other) ∧
      (add_named_location m name x y ct).named_locations.filter (fun kv => kv.1 != name)
        = m.named_locations.filter (fun kv => kv.1 != name) ∧
      ((keysOf m.named_locations).Nodup →
        (keysOf (add_named_location m name x y ct).named_locations).count name = 1) := by
  refine ⟨look_dinsert_self _ _ _, fun other h => look_dinsert_ne _ _ _ _ h,
    filter_dinsert _ _ _, fun h => count_keysOf_dinsert _ _ _ h⟩

/-- C4 (witness): overwriting the duplicate name "A" on a concrete
two-entry table keeps exactly one "A" entry, holding the latest data, with
"B" untouched. -/
theorem c4_add_named_location_witness :
    look (add_named_location
        ⟨3, 3, [[0, 0, 0], [0, 0, 0], [0, 0, 0]],
          [("A", ⟨"A", (1, 1), "room"⟩), ("B", ⟨"B", (2, 2), "area"⟩)]⟩
        "A" 2 1 "entrance").named_locations "A" = some ⟨"A", (2, 1), "entrance"⟩ ∧
      (keysOf (add_named_location
        ⟨3, 3, [[0, 0, 0], [0, 0, 0], [0, 0, 0]],
          [("A", ⟨"A", (1, 1), "room"⟩), ("B", ⟨"B", (2, 2), "area"⟩)]⟩
        "A" 2 1 "entrance").named_locations).count "A" = 1 := by
  have h := c4_add_named_location_last_write_wins
    ⟨3, 3, [[0, 0, 0], [0, 0, 0], [0, 0, 0]],
      [("A", ⟨"A", (1, 1), "room"⟩), ("B", ⟨"B", (2, 2), "area"⟩)]⟩
    "A" 2 1 "entrance"
  exact ⟨h.1, h.2.2.2 (by decide)⟩

/-!  C7 — JSON round trip. -/

lemma from_dict_to_dict (v : NamedLocation) :
    NamedLocation.from_dict (NamedLocation.to_dict v) = v := by
  obtain ⟨n, ⟨px, py⟩, c⟩ := v
  rfl

/-- C7: serialising an `OfficeMap` to the JSON document and deserialising
it yields a map whose width, height, grid contents and named-location
table are identical to the original (keys of a Python dict are unique). -/
theorem c7_json_roundtrip (m : OfficeMap) (h : (keysOf m.named_locations).Nodup) :
    load_from_json (save_to_json m) = m := by
  obtain ⟨w, ht, g, locs⟩ := m
  simp only [load_from_json, save_to_json]
  congr 1
  have hmap : (locs.map fun kv => (kv.1, NamedLocation.to_dict kv.2)).foldl
      (fun acc kv => dinsert acc kv.1 (NamedLocation.from_dict kv.2)) []
      = locs.foldl (fun acc kv => dinsert acc kv.1 kv.2) [] := by
    rw [List.foldl_map]
    simp only [from_dict_to_dict]
  rw [hmap]
  have := foldl_dinsert_rebuild locs [] (by simpa [keysOf] using h) (by simp [keysOf])
  simpa using this

/-- C7 (witness): round trip on a concrete 2×1 map with one named
location. -/
theorem c7_json_roundtrip_witness :
    (keysOf (OfficeMap.mk 2 1 [[0, 1]] [("gate", ⟨"gate", (0, 0), "entrance"⟩)]).named_locations).Nodup ∧
      load_from_json (save_to_json
        (OfficeMap.mk 2 1 [[0, 1]] [("gate", ⟨"gate", (0, 0), "entrance"⟩)]))
        = OfficeMap.mk 2 1 [[0, 1]] [("gate", ⟨"gate", (0, 0), "entrance"⟩)] := by
  refine ⟨by decide, c7_json_roundtrip _ (by decide)⟩

/-!  C5 — unwalkable endpoints. -/

/-- C5: whenever either endpoint is not walkable (out-of-bounds cells
included, since `is_walkable` is bounds-checked), `a_star` returns the
failure value `none` from its precondition check, before any search state
is built. -/
theorem c5_astar_unwalkable_endpoints (m : OfficeMap) (s g : ℤ × ℤ)
    (h : is_walkable m s.1 s.2 = false ∨ is_walkable m g.1 g.2 = false) :
    a_star m s g = none := by
  unfold a_star
  rcases h with h | h <;> simp [h]

/-- C5 (witness): on the 1×1 open map, the out-of-bounds start `(1, 0)` is
not walkable and `a_star` fails. -/
theorem c5_astar_unwalkable_witness :
    is_walkable (openMap 1) 1 0 = false ∧ a_star (openMap 1) (1, 0) (0, 0) = none := by
  refine ⟨by decide, c5_astar_unwalkable_endpoints (openMap 1) (1, 0) (0, 0) (Or.inl (by decide))⟩

/-!  C8 — obstacle-callback isolation. -/

lemma notify_obstacle_append {σ : Type} (l1 l2 : List (ObsCallback σ)) (s : σ) :
    notify_obstacle (l1 ++ l2) s = notify_obstacle l2 (notify_obstacle l1 s) := by
  unfold notify_obstacle
  exact List.foldl_append _ _ l1 l2

lemma notify_obstacle_stripErr {σ : Type} (cbs : List (ObsCallback σ)) (s : σ) :
    notify_obstacle (cbs.map stripErr) s = notify_obstacle cbs s := by
  unfold notify_obstacle
  rw [List.foldl_map]
  rfl

/-- C8: in a below-safety poll, callback exceptions are fully isolated:
the distance list handed back to the caller is the raycast list however
the callbacks behave, replacing every callback by its never-raising
version changes nothing about the poll (so no exception escapes and the
error component is irrelevant), and the final environment state threads
through every registered callback in order — the callbacks after a
raising one still run. -/
theorem c8_listener_isolation {σ : Type} (det : MockDetector σ) (pos : ℝ × ℝ)
    (hd : ℝ) (s : σ) :
    (get_distances det pos hd s).1
        = det.sensor_angles.map (fun a => raycast det pos.1 pos.2 (pyRadians hd + a)) ∧
      (∀ cbs', (get_distances { det with callbacks := cbs' } pos hd s).1
          = (get_distances det pos hd s).1) ∧
      get_distances { det with callbacks := det.callbacks.map stripErr } pos hd s
        = get_distances det pos hd s ∧
      (∀ pre cb post, det.callbacks = pre ++ cb :: post →
        (∃ d ∈ (get_distances det pos hd s).1, d < det.safe_distance) →
        (get_distances det pos hd s).2
          = notify_obstacle post (cb (notify_obstacle pre s)).1) := by
  refine ⟨rfl, fun cbs' => rfl, ?_, ?_⟩
  · refine Prod.ext_iff.mpr ⟨rfl, ?_⟩
    show (if ∃ d ∈ det.sensor_angles.map (fun a => raycast det pos.1 pos.2 (pyRadians hd + a)),
            d < det.safe_distance then
          notify_obstacle (List.map stripErr det.callbacks) s else s)
        = (if ∃ d ∈ det.sensor_angles.map (fun a => raycast det pos.1 pos.2 (pyRadians hd + a)),
            d < det.safe_distance then
          notify_obstacle det.callbacks s else s)
    by_cases hc : ∃ d ∈ det.sensor_angles.map (fun a => raycast det pos.1 pos.2 (pyRadians hd + a)),
        d < det.safe_distance
    · rw [if_pos hc, if_pos hc, notify_obstacle_stripErr]
    · rw [if_neg hc, if_neg hc]
  · intro pre cb post hcb hex
    have hpos : (get_distances det pos hd s).2 = notify_obstacle det.callbacks s := by
      unfold get_distances at hex ⊢
      simp only at hex
      simp only [hex, if_pos]
    rw [hpos, hcb, notify_obstacle_append]
    rfl

lemma floor_for_c8 : ⌊(21 : ℝ) / 4⌋ = 5 := by
  rw [Int.floor_eq_iff] <;> norm_num

lemma pyRoundR_c8_a : pyRoundR ((21 : ℝ) / 4) = 5 := by
  unfold pyRoundR
  rw [floor_for_c8]
  rw [if_pos (by norm_num)]

lemma pyRoundR_c8_b : pyRoundR (5 : ℝ) = 5 := by
  unfold pyRoundR
  rw [show ⌊(5 : ℝ)⌋ = 5 by rw [Int.floor_eq_iff] <;> norm_num]
  rw [if_pos (by norm_num)]

lemma raycast_detW : raycast detW 5 5 (pyRadians 0 + 0) = 1 / 8 := by
  have hang : pyRadians 0 + 0 = 0 := by simp [pyRadians]
  rw [hang]
  unfold raycast
  have hms : (pyTruncInt (detW.max_range / (1 / 2) * 4)).toNat = 4 := by
    have : detW.max_range / (1 / 2) * 4 = (4 : ℝ) := by
      simp only [detW]
      norm_num
    rw [this]
    unfold pyTruncInt
    rw [if_pos (by norm_num)]
    rw [show ⌊(4 : ℝ)⌋ = 4 by rw [Int.floor_eq_iff] <;> norm_num]
    rfl
  rw [hms]
  have hstep1 : (5 : ℝ) + Real.cos 0 * (1 / 4) * ((0 : ℕ) + 1 : ℕ) = 21 / 4 := by
    rw [Real.cos_zero]
    norm_num
  have hstep2 : (5 : ℝ) + Real.sin 0 * (1 / 4) * ((0 : ℕ) + 1 : ℕ) = 5 := by
    rw [Real.sin_zero]
    norm_num
  simp only [List.range_succ, List.range_zero, List.nil_append, List.cons_append,
    List.findSome?_cons, List.findSome?_nil]
  rw [hstep1, hstep2, pyRoundR_c8_a, pyRoundR_c8_b]
  rw [show is_walkable detW.omap 5 5 = false from by decide]
  norm_num

lemma get_distances_detW : (get_distances detW (5, 5) 0 (7 : ℕ)).1 = [1 / 8] := by
  have h := (c8_listener_isolation detW (5, 5) 0 (7 : ℕ)).1
  rw [h]
  show [raycast detW 5 5 (pyRadians 0 + 0)] = [1 / 8]
  rw [raycast_detW]

/-- C8 (witness): on the concrete detector `detW` whose first callback
raises, a below-safety poll still returns the distance list and still runs
the second callback: the environment state ends at `(7 + 1) * 10 = 80`. -/
theorem c8_listener_isolation_witness :
    (∃ d ∈ (get_distances detW (5, 5) 0 (7 : ℕ)).1, d < detW.safe_distance) ∧
      (get_distances detW (5, 5) 0 (7 : ℕ)).1 = [1 / 8] ∧
      (get_distances detW (5, 5) 0 (7 : ℕ)).2 = 80 := by
  have hex : ∃ d ∈ (get_distances detW (5, 5) 0 (7 : ℕ)).1, d < detW.safe_distance := by
    rw [get_distances_detW]
    refine ⟨1 / 8, by simp, ?_⟩
    show (1 : ℝ) / 8 < detW.safe_distance
    simp only [detW]
    norm_num
  have h := (c8_listener_isolation detW (5, 5) 0 (7 : ℕ)).2.2.2
    [] (fun s => (s + 1, some "err")) [fun s => (s * 10, none)] rfl hex
  refine ⟨hex, get_distances_detW, ?_⟩
  rw [h]
  rfl

/-!  C9 — point-to-point kinematics. -/

lemma pyRadians_pyDegrees (θ : ℝ) : pyRadians (pyDegrees θ) = θ := by
  unfold pyRadians pyDegrees
  field_simp

/-- C9: with an active move target, `update_position dt` (with
non-negative speed and time step) snaps exactly onto the target and clears
it when the remaining distance is within `speed·dt`, and otherwise moves
the position by the straight-line step of magnitude exactly `speed·dt`
toward the target, pointing the heading at the direction of travel (its
cosine/sine are the unit travel vector); the returned flag is true exactly
when motion is still in progress afterwards. -/
theorem c9_update_position (r : RobotState) (dt tx ty : ℝ)
    (ht : r.move_target = some (tx, ty)) (hs : 0 ≤ r.speed) (hdt : 0 ≤ dt) :
    ((update_position r dt).1 = true ↔ (update_position r dt).2.move_target ≠ none) ∧
      (Real.sqrt ((tx - r.position.1) * (tx - r.position.1) +
            (ty - r.position.2) * (ty - r.position.2)) ≤ r.speed * dt →
        (update_position r dt).2.position = (tx, ty) ∧
          (update_position r dt).2.move_target = none ∧
          (update_position r dt).1 = false) ∧
      (r.speed * dt < Real.sqrt ((tx - r.position.1) * (tx - r.position.1) +
            (ty - r.position.2) * (ty - r.position.2)) →
        (update_position r dt).2.position
            = (r.position.1 + (tx - r.position.1) *
                (r.speed * dt / Real.sqrt ((tx - r.position.1) * (tx - r.position.1) +
                  (ty - r.position.2) * (ty - r.position.2))),
               r.position.2 + (ty - r.position.2) *
                (r.speed * dt / Real.sqrt ((tx - r.position.1) * (tx - r.position.1) +
                  (ty - r.position.2) * (ty - r.position.2)))) ∧
          Real.sqrt (((update_position r dt).2.position.1 - r.position.1) ^ 2 +
              ((update_position r dt).2.position.2 - r.position.2) ^ 2) = r.speed * dt ∧
          (update_position r dt).2.move_target = some (tx, ty) ∧
          (update_position r dt).1 = true ∧
          Real.cos (pyRadians (update_position r dt).2.heading)
            = (tx - r.position.1) / Real.sqrt ((tx - r.position.1) * (tx - r.position.1) +
                (ty - r.position.2) * (ty - r.position.2)) ∧
          Real.sin (pyRadians (update_position r dt).2.heading)
            = (ty - r.position.2) / Real.sqrt ((tx - r.position.1) * (tx - r.position.1) +
                (ty - r.position.2) * (ty - r.position.2))) := by
  set dx := tx - r.position.1 with hdx
  set dy := ty - r.position.2 with hdy
  set dist := Real.sqrt (dx * dx + dy * dy) with hdist
  set step := r.speed * dt with hstep
  have hstep0 : 0 ≤ step := mul_nonneg hs hdt
  refine ⟨?_, ?_, ?_⟩
  · by_cases hc : dist ≤ step <;>
      simp [update_position, ht, ← hdx, ← hdy, ← hdist, ← hstep, hc]
  · intro hle
    simp [update_position, ht, ← hdx, ← hdy, ← hdist, ← hstep, hle]
  · intro hlt
    have hdistpos : 0 < dist := lt_of_le_of_lt hstep0 hlt
    have hnle : ¬ dist ≤ step := not_le.mpr hlt
    have hsum : 0 < dx * dx + dy * dy := by
      by_contra hc
      push_neg at hc
      have : dist = 0 := by
        rw [hdist]
        exact Real.sqrt_eq_zero_of_nonpos hc
      exact absurd this (ne_of_gt hdistpos)
    refine ⟨?_, ?_, ?_, ?_, ?_, ?_⟩
    · simp [update_position, ht, ← hdx, ← hdy, ← hdist, ← hstep, hnle]
    · have hpos1 : (update_position r dt).2.position.1 - r.position.1 = dx * (step / dist) := by
        simp [update_position, ht, ← hdx, ← hdy, ← hdist, ← hstep, hnle]
      have hpos2 : (update_position r dt).2.position.2 - r.position.2 = dy * (step / dist) := by
        simp [update_position, ht, ← hdx, ← hdy, ← hdist, ← hstep, hnle]
      rw [hpos1, hpos2]
      have hfr : 0 ≤ step / dist := div_nonneg hstep0 (le_of_lt hdistpos)
      have hexp : (dx * (step / dist)) ^ 2 + (dy * (step / dist)) ^ 2
          = (step / dist) ^ 2 * (dx * dx + dy * dy) := by ring
      rw [hexp, Real.sqrt_mul (sq_nonneg _), Real.sqrt_sq hfr, ← hdist]
      rw [div_mul_cancel₀ step (ne_of_gt hdistpos)]
    · simp [update_position, ht, ← hdx, ← hdy, ← hdist, ← hstep, hnle]
    · simp [update_position, ht, ← hdx, ← hdy, ← hdist, ← hstep, hnle]
    · have hhead : (update_position r dt).2.heading = pyDegrees (atan2 dy dx) := by
        simp [update_position, ht, ← hdx, ← hdy, ← hdist, ← hstep, hnle]
      have hz : (⟨dx, dy⟩ : ℂ) ≠ 0 := by
        intro h0
        rw [Complex.ext_iff] at h0
        simp only [Complex.zero_re, Complex.zero_im] at h0
        rw [h0.1, h0.2] at hsum
        norm_num at hsum
      have habs : Complex.abs ⟨dx, dy⟩ = dist := by
        rw [Complex.abs_apply, Complex.normSq_mk, hdist]
      rw [hhead, pyRadians_pyDegrees]
      unfold atan2
      rw [Complex.cos_arg hz, habs]
    · have hhead : (update_position r dt).2.heading = pyDegrees (atan2 dy dx) := by
        simp [update_position, ht, ← hdx, ← hdy, ← hdist, ← hstep, hnle]
      have habs : Complex.abs ⟨dx, dy⟩ = dist := by
        rw [Complex.abs_apply, Complex.normSq_mk, hdist]
      rw [hhead, pyRadians_pyDegrees]
      unfold atan2
      rw [Complex.sin_arg, habs]

/-- C9 (witness): from the origin heading toward (3, 4) at unit speed,
one unit tick moves the robot to (3/5, 4/5) (a step of length 1) and
reports motion still in progress. -/
theorem c9_update_position_witness :
    robotW.move_target = some (3, 4) ∧ (0 : ℝ) ≤ robotW.speed ∧ ((0 : ℝ) ≤ 1) ∧
      (update_position robotW 1).2.position = (3 / 5, 4 / 5) ∧
      (update_position robotW 1).1 = true := by
  have h5 : Real.sqrt ((3 - robotW.position.1) * (3 - robotW.position.1) +
      (4 - robotW.position.2) * (4 - robotW.position.2)) = 5 := by
    simp only [robotW]
    rw [show ((3 : ℝ) - 0) * (3 - 0) + (4 - 0) * (4 - 0) = 5 ^ 2 by norm_num]
    exact Real.sqrt_sq (by norm_num)
  have h := c9_update_position robotW 1 3 4 rfl (by rw [show robotW.speed = 1 from rfl]; norm_num)
    (by norm_num)
  have hlt : robotW.speed * 1 < Real.sqrt ((3 - robotW.position.1) * (3 - robotW.position.1) +
      (4 - robotW.position.2) * (4 - robotW.position.2)) := by
    rw [h5, show robotW.speed = 1 from rfl]
    norm_num
  obtain ⟨hp, _, _, hflag, _, _⟩ := h.2.2 hlt
  refine ⟨rfl, by rw [show robotW.speed = 1 from rfl]; norm_num, by norm_num, ?_, hflag⟩
  rw [hp, h5]
  show ((robotW.position.1 + (3 - robotW.position.1) * (robotW.speed * 1 / 5)),
      (robotW.position.2 + (4 - robotW.position.2) * (robotW.speed * 1 / 5))) = ((3 : ℝ) / 5, (4 : ℝ) / 5)
  rw [show robotW.position = ((0 : ℝ), (0 : ℝ)) from rfl, show robotW.speed = 1 from rfl]
  norm_num

/-!  Heap (popMin) lemmas. -/

lemma entryLE_refl (a : AEntry) : entryLE a a :=
  Or.inr ⟨rfl, Or.inr ⟨rfl, le_refl _⟩⟩

lemma entryLE_total (a b : AEntry) : entryLE a b ∨ entryLE b a := by
  unfold entryLE
  rcases lt_trichotomy a.1 b.1 with h | h | h
  · exact Or.inl (Or.inl h)
  · rcases lt_trichotomy a.2.1 b.2.1 with h2 | h2 | h2
    · exact Or.inl (Or.inr ⟨h, Or.inl h2⟩)
    · rcases le_total a.2.2 b.2.2 with h3 | h3
      · exact Or.inl (Or.inr ⟨h, Or.inr ⟨h2, h3⟩⟩)
      · exact Or.inr (Or.inr ⟨h.symm, Or.inr ⟨h2.symm, h3⟩⟩)
    · exact Or.inr (Or.inr ⟨h.symm, Or.inl h2⟩)
  · exact Or.inr (Or.inl h)

lemma entryLE_trans {a b c : AEntry} (h1 : entryLE a b) (h2 : entryLE b c) : entryLE a c := by
  unfold entryLE at h1 h2 ⊢
  rcases h1 with h1 | ⟨h1e, h1r⟩
  · rcases h2 with h2 | ⟨h2e, _⟩
    · exact Or.inl (lt_trans h1 h2)
    · exact Or.inl (h2e ▸ h1)
  · rcases h2 with h2 | ⟨h2e, h2r⟩
    · exact Or.inl (h1e ▸ h2)
    · refine Or.inr ⟨h1e.trans h2e, ?_⟩
      rcases h1r with h1r | ⟨h1re, h1rr⟩
      · rcases h2r with h2r | ⟨h2re, _⟩
        · exact Or.inl (lt_trans h1r h2r)
        · exact Or.inl (h2re ▸ h1r)
      · rcases h2r with h2r | ⟨h2re, h2rr⟩
        · exact Or.inl (h1re ▸ h2r)
        · exact Or.inr ⟨h1re.trans h2re, le_trans h1rr h2rr⟩

lemma popMin_eq_none {l : List AEntry} (h : popMin l = none) : l = [] := by
  cases l with
  | nil => rfl
  | cons hd t =>
    unfold popMin at h
    rcases hpm : popMin t with _ | pair
    · rw [hpm] at h
      simp at h
    · rw [hpm] at h
      obtain ⟨mn, rest'⟩ := pair
      by_cases hle : entryLE hd mn
      · simp [hle] at h
      · simp [hle] at h

lemma popMin_spec : ∀ (l : List AEntry) (e : AEntry) (rest : List AEntry),
    popMin l = some (e, rest) →
    e ∈ l ∧ (∀ x ∈ l, entryLE e x) ∧ l.Perm (e :: rest) := by
  intro l
  induction l with
  | nil => intro e rest h; simp [popMin] at h
  | cons hd t ih =>
    intro e rest h
    unfold popMin at h
    rcases hpm : popMin t with _ | pair
    · rw [hpm] at h
      have ht : t = [] := popMin_eq_none hpm
      subst ht
      simp only [Option.some.injEq, Prod.mk.injEq] at h
      obtain ⟨he, hrest⟩ := h
      subst he
      subst hrest
      exact ⟨by simp, by intro x hx; simp at hx; subst hx; exact entryLE_refl _, by simp⟩
    · rw [hpm] at h
      obtain ⟨mn, rest'⟩ := pair
      obtain ⟨hmem, hall, hperm⟩ := ih mn rest' hpm
      by_cases hle : entryLE hd mn
      · simp only [if_pos hle, Option.some.injEq, Prod.mk.injEq] at h
        obtain ⟨he, hrest⟩ := h
        subst he
        subst hrest
        refine ⟨by simp, ?_, List.Perm.refl _⟩
        intro x hx
        rcases List.mem_cons.mp hx with hx | hx
        · subst hx; exact entryLE_refl _
        · exact entryLE_trans hle (hall x hx)
      · simp only [if_neg hle, Option.some.injEq, Prod.mk.injEq] at h
        obtain ⟨he, hrest⟩ := h
        subst he
        subst hrest
        refine ⟨List.mem_cons_of_mem _ hmem, ?_, ?_⟩
        · intro x hx
          rcases List.mem_cons.mp hx with hx | hx
          · subst hx
            exact (entryLE_total x _).resolve_left hle
          · exact hall x hx
        · exact (List.Perm.cons hd hperm).trans (List.Perm.swap _ hd rest')

/-!  Neighbour specification. -/

lemma mem_get_neighbors {m : OfficeMap} {x y : ℤ} {nb : ℤ × ℤ}
    (h : nb ∈ get_neighbors m x y) :
    is_walkable m nb.1 nb.2 = true ∧
      max |nb.1 - x| |nb.2 - y| = 1 ∧
      (nb.1 ≠ x ∧ nb.2 ≠ y → is_walkable m nb.1 y = true ∧ is_walkable m x nb.2 = true) ∧
      nb ≠ (x, y) := by
  simp only [get_neighbors, List.mem_filterMap] at h
  obtain ⟨d, hd, hcond⟩ := h
  by_cases h1 : is_walkable m (x + d.1) (y + d.2)
  · rw [h1] at hcond
    simp only [Bool.not_true, Bool.false_eq_true, if_false] at hcond
    by_cases h2 : (d.1 != 0 && d.2 != 0 &&
        (!is_walkable m (x + d.1) y || !is_walkable m x (y + d.2))) = true
    · rw [if_pos h2] at hcond
      exact absurd hcond (by simp)
    · rw [if_neg h2] at hcond
      simp only [Option.some.injEq] at hcond
      subst hcond
      refine ⟨h1, ?_, ?_, ?_⟩
      · show max |x + d.1 - x| |y + d.2 - y| = 1
        rw [show x + d.1 - x = d.1 from by ring, show y + d.2 - y = d.2 from by ring]
        fin_cases hd <;> decide
      · intro hne
        fin_cases hd <;>
          simp only [] at h1 h2 hne ⊢ <;>
          first
            | (exfalso; omega)
            | (simp only [show ((-1 : ℤ) != 0) = true from rfl,
                show ((1 : ℤ) != 0) = true from rfl, Bool.true_and,
                Bool.or_eq_true, Bool.not_eq_true', not_or, Bool.not_eq_false] at h2
               exact h2)
      · intro hc
        rw [Prod.mk.injEq] at hc
        fin_cases hd <;> simp only [] at hc <;> omega
  · rw [Bool.not_eq_true] at h1
    rw [h1] at hcond
    simp at hcond

/-!  A* soundness: any returned path is a valid start-to-goal path. -/

lemma look_cons {α β : Type} [DecidableEq α] (k : α) (v : β) (l : List (α × β)) (a : α) :
    look ((k, v) :: l) a = if a = k then some v else look l a := rfl

lemma one_le_moveCost (a b : ℤ × ℤ) : 1 ≤ moveCost a b := by
  unfold moveCost
  split_ifs
  · nlinarith [Real.sq_sqrt (by norm_num : (0 : ℝ) ≤ 2), Real.sqrt_nonneg 2]
  · exact le_refl 1

lemma relaxOne_eq_update {goal current : ℤ × ℤ} {st : AState} {nb : ℤ × ℤ}
    (h : match look st.g_score nb with
      | none => True
      | some gv => (look st.g_score current).getD 0 + moveCost current nb < gv) :
    relaxOne goal current st nb =
      { open_set := ((look st.g_score current).getD 0 + moveCost current nb + heurist goal nb,
            nb) :: st.open_set
        g_score := (nb, (look st.g_score current).getD 0 + moveCost current nb) :: st.g_score
        came_from := (nb, current) :: st.came_from } := by
  unfold relaxOne
  rw [if_pos h]

lemma relaxOne_eq_skip {goal current : ℤ × ℤ} {st : AState} {nb : ℤ × ℤ}
    (h : ¬ (match look st.g_score nb with
      | none => True
      | some gv => (look st.g_score current).getD 0 + moveCost current nb < gv)) :
    relaxOne goal current st nb = st := by
  unfold relaxOne
  rw [if_neg h]

lemma relaxOne_inv {m : OfficeMap} {start goal current : ℤ × ℤ} {st : AState}
    {nb : ℤ × ℤ} {gc : ℝ} (hinv : AInv m start st)
    (hnb : nb ∈ get_neighbors m current.1 current.2)
    (hgc : look st.g_score current = some gc) :
    AInv m start (relaxOne goal current st nb) ∧
      look (relaxOne goal current st nb).g_score current = some gc := by
  have hne : nb ≠ current := by
    have h4 := (mem_get_neighbors hnb).2.2.2
    intro hcontra
    exact h4 (by rw [hcontra])
  by_cases hcond : (match look st.g_score nb with
      | none => True
      | some gv => (look st.g_score current).getD 0 + moveCost current nb < gv)
  · rw [relaxOne_eq_update hcond]
    have htent : (look st.g_score current).getD 0 + moveCost current nb
        = gc + moveCost current nb := by rw [hgc]; rfl
    have hgcpos : 0 ≤ gc := hinv.g_nonneg current gc hgc
    have htent1 : 1 ≤ (look st.g_score current).getD 0 + moveCost current nb := by
      rw [htent]
      have := one_le_moveCost current nb
      linarith
    have hnbstart : nb ≠ start := by
      intro hcontra
      subst hcontra
      rw [hinv.g_start] at hcond
      simp only at hcond
      linarith
    constructor
    · refine ⟨?_, ?_, ?_, ?_, ?_, ?_⟩
      · intro n v hv
        rw [look_cons] at hv
        by_cases hn : n = nb
        · rw [if_pos hn] at hv
          simp only [Option.some.injEq] at hv
          subst hv
          linarith
        · rw [if_neg hn] at hv
          exact hinv.g_nonneg n v hv
      · rw [look_cons, if_neg (Ne.symm hnbstart)]
        exact hinv.g_start
      · rw [look_cons, if_neg (Ne.symm hnbstart)]
        exact hinv.came_start
      · intro n p hp
        rw [look_cons] at hp
        by_cases hn : n = nb
        · rw [if_pos hn] at hp
          simp only [Option.some.injEq] at hp
          subst hp
          constructor
          · rw [hn]
            exact hnb
          · refine ⟨(look st.g_score current).getD 0 + moveCost current nb, gc, ?_, ?_, ?_⟩
            · rw [hn, look_cons, if_pos rfl]
            · rw [look_cons, if_neg (Ne.symm hne)]
              exact hgc
            · rw [htent]
              have := one_le_moveCost current nb
              linarith
        · rw [if_neg hn] at hp
          obtain ⟨hnbr, gn, gp, hgn, hgp, hle⟩ := hinv.came_prop n p hp
          by_cases hpnb : p = nb
          · refine ⟨hnbr, gn, (look st.g_score current).getD 0 + moveCost current nb, ?_, ?_, ?_⟩
            · rw [look_cons, if_neg hn]
              exact hgn
            · rw [look_cons, if_pos hpnb]
            · rw [hpnb] at hgp
              rw [hgp] at hcond
              have hlt : (look st.g_score current).getD 0 + moveCost current nb < gp := hcond
              linarith
          · refine ⟨hnbr, gn, gp, ?_, ?_, hle⟩
            · rw [look_cons, if_neg hn]
              exact hgn
            · rw [look_cons, if_neg hpnb]
              exact hgp
      · intro e he
        rcases List.mem_cons.mp he with he | he
        · subst he
          exact ⟨(look st.g_score current).getD 0 + moveCost current nb,
            by rw [look_cons, if_pos rfl]⟩
        · obtain ⟨v, hv⟩ := hinv.open_g e he
          by_cases henb : e.2 = nb
          · exact ⟨_, by rw [look_cons, if_pos henb]⟩
          · exact ⟨v, by rw [look_cons, if_neg henb]; exact hv⟩
      · intro n hnstart hgn
        by_cases hn : n = nb
        · exact ⟨current, by rw [look_cons, if_pos hn]⟩
        · obtain ⟨v, hv⟩ := hgn
          rw [look_cons, if_neg hn] at hv
          obtain ⟨p, hp⟩ := hinv.g_came n hnstart ⟨v, hv⟩
          exact ⟨p, by rw [look_cons, if_neg hn]; exact hp⟩
    · rw [look_cons, if_neg (Ne.symm hne)]
      exact hgc
  · rw [relaxOne_eq_skip hcond]
    exact ⟨hinv, hgc⟩

lemma foldl_relaxOne_inv {m : OfficeMap} {start goal current : ℤ × ℤ} (l : List (ℤ × ℤ))
    (hl : ∀ nb ∈ l, nb ∈ get_neighbors m current.1 current.2) :
    ∀ (st : AState) (gc : ℝ), AInv m start st → look st.g_score current = some gc →
      AInv m start (l.foldl (relaxOne goal current) st) := by
  induction l with
  | nil => intro st gc hinv _; exact hinv
  | cons nb t ih =>
    intro st gc hinv hgc
    simp only [List.foldl_cons]
    obtain ⟨hinv', hgc'⟩ := relaxOne_inv hinv (hl nb (by simp)) hgc
    exact ih (fun x hx => hl x (List.mem_cons_of_mem _ hx)) _ gc hinv' hgc'

lemma relaxAll_inv {m : OfficeMap} {start goal current : ℤ × ℤ} {st : AState} {gc : ℝ}
    (hinv : AInv m start st) (hgc : look st.g_score current = some gc) :
    AInv m start (relaxAll m goal current st) :=
  foldl_relaxOne_inv _ (fun _ hx => hx) st gc hinv hgc

lemma walkBack_sound {m : OfficeMap} {start : ℤ × ℤ} {st : AState} (hinv : AInv m start st) :
    ∀ (fuel : ℕ) (cur : ℤ × ℤ) (acc p : List (ℤ × ℤ)),
      (∃ gc, look st.g_score cur = some gc) →
      walkBack st.came_from fuel cur acc = some p →
      ∃ q, p = q ++ cur :: acc ∧ (q ++ [cur]).head? = some start ∧
        List.Chain' (fun a b => look st.came_from b = some a) (q ++ [cur]) := by
  intro fuel
  induction fuel with
  | zero => intro cur acc p _ h; simp [walkBack] at h
  | succ f ih =>
    intro cur acc p hg h
    unfold walkBack at h
    rcases hc : look st.came_from cur with _ | par
    · rw [hc] at h
      simp only [Option.some.injEq] at h
      subst h
      have hcur : cur = start := by
        by_contra hne
        obtain ⟨pp, hpp⟩ := hinv.g_came cur hne hg
        rw [hc] at hpp
        exact Option.noConfusion hpp
      subst hcur
      exact ⟨[], rfl, rfl, by simp⟩
    · rw [hc] at h
      obtain ⟨hnbr, gn, gp, hgn, hgp, hle⟩ := hinv.came_prop cur par hc
      obtain ⟨q', hq', hhead, hchain⟩ := ih par (cur :: acc) p ⟨gp, hgp⟩ h
      refine ⟨q' ++ [par], by simpa using hq', ?_, ?_⟩
      · rcases q' with _ | ⟨a, t⟩
        · simpa using hhead
        · simpa using hhead
      · rw [List.chain'_append]
        refine ⟨hchain, by simp, ?_⟩
        intro x hx y hy
        simp only [List.head?_cons, Option.mem_def, Option.some.injEq] at hy
        subst hy
        rw [List.getLast?_concat] at hx
        simp only [Option.mem_def, Option.some.injEq] at hx
        subst hx
        exact hc

lemma loopAStar_sound {m : OfficeMap} {goal start : ℤ × ℤ} :
    ∀ (fuel : ℕ) (st : AState) (p : List (ℤ × ℤ)), AInv m start st →
      loopAStar m goal fuel st = some p →
      p ≠ [] ∧ p.head? = some start ∧ p.getLast? = some goal ∧
        List.Chain' (stepOK m) p := by
  intro fuel
  induction fuel with
  | zero => intro st p _ h; simp [loopAStar] at h
  | succ f ih =>
    intro st p hinv h
    unfold loopAStar at h
    rcases hpm : popMin st.open_set with _ | pr
    · rw [hpm] at h
      exact absurd h (by simp)
    · rw [hpm] at h
      obtain ⟨⟨fcur, current⟩, rest⟩ := pr
      dsimp only at h
      obtain ⟨hmem, _, hperm⟩ := popMin_spec _ _ _ hpm
      by_cases hgoal : current = goal
      · rw [if_pos hgoal] at h
        subst hgoal
        obtain ⟨gc, hgc⟩ := hinv.open_g _ hmem
        obtain ⟨q, hq, hhead, hchain⟩ := walkBack_sound hinv _ current [] p ⟨gc, hgc⟩ h
        subst hq
        refine ⟨by simp, by simpa using hhead, by simp, ?_⟩
        refine List.Chain'.imp ?_ (by simpa using hchain)
        intro a b hab
        obtain ⟨hnbr, _⟩ := hinv.came_prop b a hab
        obtain ⟨hw, hmax, hcorner, _⟩ := mem_get_neighbors hnbr
        exact ⟨hmax, hw, hcorner⟩
      · rw [if_neg hgoal] at h
        have hrest : AInv m start { st with open_set := rest } :=
          ⟨hinv.g_nonneg, hinv.g_start, hinv.came_start, hinv.came_prop,
            fun e he => hinv.open_g e (hperm.mem_iff.mpr (List.mem_cons_of_mem _ he)),
            hinv.g_came⟩
        obtain ⟨gc, hgc⟩ := hinv.open_g _ hmem
        exact ih _ p (relaxAll_inv hrest (hgc : look _ current = some gc)) h

lemma chain_all_walkable {m : OfficeMap} :
    ∀ (p : List (ℤ × ℤ)) (s : ℤ × ℤ), List.Chain' (stepOK m) p → p.head? = some s →
      is_walkable m s.1 s.2 = true → ∀ c ∈ p, is_walkable m c.1 c.2 = true := by
  intro p
  induction p with
  | nil => intro s _ h; simp at h
  | cons a t ih =>
    intro s hchain hhead hws c hc
    simp only [List.head?_cons, Option.some.injEq] at hhead
    subst hhead
    rcases List.mem_cons.mp hc with hcc | hcc
    · subst hcc
      exact hws
    · cases t with
      | nil => simp at hcc
      | cons b t' =>
        have hsplit := List.chain'_cons.mp hchain
        exact ih b hsplit.2 rfl hsplit.1.2.1 c hcc

/-- Soundness of `a_star`: whatever path it returns is non-empty, begins
at `start`, ends at `goal`, and each consecutive step is a legal neighbour
step. -/
lemma astar_sound {m : OfficeMap} {s g : ℤ × ℤ} {p : List (ℤ × ℤ)}
    (h : a_star m s g = some p) :
    p ≠ [] ∧ p.head? = some s ∧ p.getLast? = some g ∧
      (∀ c ∈ p, is_walkable m c.1 c.2 = true) ∧ List.Chain' (stepOK m) p := by
  unfold a_star at h
  by_cases hc : (is_walkable m s.1 s.2 && is_walkable m g.1 g.2) = true
  · rw [if_pos hc] at h
    have hinv : AInv m s ⟨[(0, s)], [(s, 0)], []⟩ := by
      refine ⟨?_, ?_, rfl, ?_, ?_, ?_⟩
      · intro n v hv
        rw [look_cons] at hv
        by_cases hn : n = s
        · rw [if_pos hn] at hv
          simp only [Option.some.injEq] at hv
          subst hv
          exact le_refl 0
        · rw [if_neg hn] at hv
          simp [look] at hv
      · rw [look_cons, if_pos rfl]
      · intro n p hp
        simp [look] at hp
      · intro e he
        simp only [List.mem_singleton] at he
        subst he
        exact ⟨0, by rw [look_cons, if_pos rfl]⟩
      · intro n hn hgn
        obtain ⟨v, hv⟩ := hgn
        rw [look_cons, if_neg hn] at hv
        simp [look] at hv
    obtain ⟨hne, hhead, hlast, hchain⟩ := loopAStar_sound _ _ p hinv h
    have hws : is_walkable m s.1 s.2 = true := by
      rw [Bool.and_eq_true] at hc
      exact hc.1
    exact ⟨hne, hhead, hlast, chain_all_walkable p s hchain hhead hws, hchain⟩
  · rw [if_neg hc] at h
    exact absurd h (by simp)

/-!  Concrete A* evaluations used by counterexamples and witnesses. -/

lemma astar_unit_eval : a_star (openMap 1) (0, 0) (0, 0) = some [(0, 0)] := rfl

lemma astar_mapC3_eval : a_star mapC3 (0, 0) (2, 0) = none := rfl

lemma astar_mapC3_eval' : a_star navIdle.office_map (startCell (some (0, 0)))
    (NamedLocation.position ⟨"B", (2, 0), "room"⟩) = none := by
  with_unfolding_all rfl

lemma navigate_busy_eval : navigate_to navBusy "B" (some (0, 0)) none = (false, navBusy) := by
  with_unfolding_all rfl

/-!  C1 — validity of every returned path. -/

/-- C1: whenever `a_star` returns a path, the path is a non-empty
sequence of cells beginning at `start` and ending at `goal`, every cell on
it is walkable, and every consecutive pair is a legal step: Chebyshev
distance exactly 1, with both orthogonal neighbour cells walkable on a
diagonal step (no corner cutting). -/
theorem c1_astar_path_valid (m : OfficeMap) (s g : ℤ × ℤ) (p : List (ℤ × ℤ))
    (h : a_star m s g = some p) :
    p ≠ [] ∧ p.head? = some s ∧ p.getLast? = some g ∧
      (∀ c ∈ p, is_walkable m c.1 c.2 = true) ∧ List.Chain' (stepOK m) p :=
  astar_sound h

/-- C1 (witness): the concrete search on the 1×1 open map returns the
single-cell path `[(0, 0)]`, which satisfies all the path conditions. -/
theorem c1_astar_path_valid_witness :
    a_star (openMap 1) (0, 0) (0, 0) = some [(0, 0)] ∧
      ([(0, 0)] : List (ℤ × ℤ)) ≠ [] ∧
      ([(0, 0)] : List (ℤ × ℤ)).head? = some (0, 0) ∧
      ([(0, 0)] : List (ℤ × ℤ)).getLast? = some (0, 0) ∧
      (∀ c ∈ ([(0, 0)] : List (ℤ × ℤ)), is_walkable (openMap 1) c.1 c.2 = true) ∧
      List.Chain' (stepOK (openMap 1)) [(0, 0)] := by
  have h := c1_astar_path_valid (openMap 1) (0, 0) (0, 0) [(0, 0)] astar_unit_eval
  exact ⟨astar_unit_eval, h⟩

/-!  C3 — navigate_to failure behaviour. -/

/-- C3 (counterexample): `navigate_to` on a planning failure does not in
general leave the executor Idle: on `navBusy`, which is mid-navigation,
the name "B" resolves but no path exists, the call returns false — and
`is_navigating` still holds afterwards, because the prior path survives. -/
theorem c3_no_path_not_idle_counterexample :
    get_location navBusy.office_map "B" = some ⟨"B", (2, 0), "room"⟩ ∧
      navigate_to navBusy "B" (some (0, 0)) none = (false, navBusy) ∧
      is_navigating navBusy = true ∧
      is_navigating (navigate_to navBusy "B" (some (0, 0)) none).2 = true := by
  refine ⟨rfl, navigate_busy_eval, rfl, ?_⟩
  rw [navigate_busy_eval]
  rfl

/-- C3 (amended): on a failed name lookup `navigate_to` returns false and
leaves the whole navigator state untouched; on a planning failure it
likewise returns false and leaves the whole state untouched — so the
executor does not become active, and if it was Idle before the call it is
still Idle (not navigating, no active target) afterwards. -/
theorem c3_navigate_to_failure_state {α : Type} (nav : Navigator α) (name : String)
    (fromPos : Option (ℚ × ℚ)) (onA : Option α) :
    (get_location nav.office_map name = none →
      navigate_to nav name fromPos onA = (false, nav)) ∧
      (∀ loc, get_location nav.office_map name = some loc →
        a_star nav.office_map (startCell fromPos) loc.position = none →
        navigate_to nav name fromPos onA = (false, nav) ∧
          (is_navigating nav = false →
            is_navigating (navigate_to nav name fromPos onA).2 = false ∧
              (navigate_to nav name fromPos onA).2.current_target = none)) := by
  constructor
  · intro h
    unfold navigate_to
    rw [h]
  · intro loc hloc hastar
    have heq : navigate_to nav name fromPos onA = (false, nav) := by
      unfold navigate_to
      rw [hloc]
      dsimp only
      rw [hastar]
    refine ⟨heq, ?_⟩
    intro hidle
    rw [heq]
    refine ⟨hidle, ?_⟩
    unfold is_navigating at hidle
    rcases hct : nav.current_target with _ | t
    · rfl
    · rw [hct] at hidle
      simp at hidle

/-- C3 (witness): on the idle navigator of the walled 3×1 map, a missing
name and an unreachable resolvable name both return false with the state
untouched, and the executor stays Idle. -/
theorem c3_navigate_to_failure_witness :
    get_location navIdle.office_map "missing" = none ∧
      navigate_to navIdle "missing" none none = (false, navIdle) ∧
      get_location navIdle.office_map "B" = some ⟨"B", (2, 0), "room"⟩ ∧
      is_navigating navIdle = false ∧
      navigate_to navIdle "B" (some (0, 0)) none = (false, navIdle) ∧
      is_navigating (navigate_to navIdle "B" (some (0, 0)) none).2 = false ∧
      (navigate_to navIdle "B" (some (0, 0)) none).2.current_target = none := by
  have h1 := (c3_navigate_to_failure_state navIdle "missing" none none).1 rfl
  have h2 := (c3_navigate_to_failure_state navIdle "B" (some (0, 0)) none).2
    ⟨"B", (2, 0), "room"⟩ rfl astar_mapC3_eval'
  exact ⟨rfl, h1, rfl, rfl, h2.1, (h2.2 rfl).1, (h2.2 rfl).2⟩

/-!  C10 — the default start cell of navigate_to. -/

lemma navigate_to_path_head {α : Type} {nav : Navigator α} {name : String}
    {fromPos : Option (ℚ × ℚ)} {onA : Option α}
    (h : (navigate_to nav name fromPos onA).1 = true) :
    (navigate_to nav name fromPos onA).2.path.head? = some (startCell fromPos) := by
  unfold navigate_to at h ⊢
  rcases hl : get_location nav.office_map name with _ | loc
  · rw [hl] at h
    simp at h
  · rw [hl] at h
    dsimp only at h ⊢
    rcases ha : a_star nav.office_map (startCell fromPos) loc.position with _ | p
    · rw [ha] at h
      simp at h
    · rw [ha] at h
      dsimp only at h ⊢
      obtain ⟨_, hhead, _, _, _⟩ := astar_sound ha
      exact hhead

/-- C10: when `from_pos` is omitted (`None`), `navigate_to` plans from the
fixed cell (0, 0) — the planned path starts at (0, 0), and the call is
indistinguishable from one made with the explicit position (0, 0) — while
an explicitly passed `from_pos` makes the path start at the caller's
rounded cell. -/
theorem c10_default_start_cell {α : Type} (nav : Navigator α) (name : String)
    (onA : Option α) :
    navigate_to nav name none onA = navigate_to nav name (some (0, 0)) onA ∧
      ((navigate_to nav name none onA).1 = true →
        (navigate_to nav name none onA).2.path.head? = some (0, 0)) ∧
      (∀ q : ℚ × ℚ, (navigate_to nav name (some q) onA).1 = true →
        (navigate_to nav name (some q) onA).2.path.head?
          = some (pyRoundQ q.1, pyRoundQ q.2)) := by
  have hsc : startCell (none : Option (ℚ × ℚ)) = startCell (some (0, 0)) := by
    with_unfolding_all rfl
  refine ⟨by unfold navigate_to; rw [hsc], ?_, ?_⟩
  · intro h
    exact navigate_to_path_head h
  · intro q h
    exact navigate_to_path_head h

/-- C10 (witness): on the 1×1 map with location "L", `navigate_to` with
an omitted `from_pos` succeeds and its installed path starts at (0, 0). -/
theorem c10_default_start_cell_witness :
    (navigate_to navStay "L" none none).1 = true ∧
      (navigate_to navStay "L" none none).2.path.head? = some (0, 0) := by
  have h := (c10_default_start_cell navStay "L" none).2.1 rfl
  exact ⟨rfl, h⟩

/-!  C6 — patrol schedule. -/

lemma navigate_to_patrol_fields {α : Type} (nav : Navigator α) (name : String)
    (fromPos : Option (ℚ × ℚ)) (onA : Option α) :
    (navigate_to nav name fromPos onA).2.patrol_schedule = nav.patrol_schedule ∧
      (navigate_to nav name fromPos onA).2.patrol_index = nav.patrol_index := by
  unfold navigate_to
  rcases hl : get_location nav.office_map name with _ | loc
  · exact ⟨rfl, rfl⟩
  · dsimp only
    rcases ha : a_star nav.office_map (startCell fromPos) loc.position with _ | p
    · exact ⟨rfl, rfl⟩
    · exact ⟨rfl, rfl⟩

lemma check_patrol_spec {α : Type} (nav : Navigator α) (t : ℚ) (pos : ℚ × ℚ) :
    (nav.patrol_schedule.get? nav.patrol_index = none →
      check_patrol nav t pos = (none, nav)) ∧
      (∀ s, nav.patrol_schedule.get? nav.patrol_index = some s →
        (¬ s.time_minutes ≤ t → check_patrol nav t pos = (none, nav)) ∧
          (s.time_minutes ≤ t →
            (check_patrol nav t pos).1 = some s ∧
              (check_patrol nav t pos).2.patrol_index = nav.patrol_index + 1 ∧
              (check_patrol nav t pos).2.patrol_schedule = nav.patrol_schedule)) := by
  constructor
  · intro h
    unfold check_patrol
    rw [h]
  · intro s hs
    constructor
    · intro hlt
      unfold check_patrol
      rw [hs]
      dsimp only
      rw [if_neg hlt]
    · intro hle
      have hred : check_patrol nav t pos
          = (some s, (navigate_to { nav with patrol_index := nav.patrol_index + 1 }
              s.location_name (some pos) none).2) := by
        unfold check_patrol
        rw [hs]
        dsimp only
        rw [if_pos hle]
      rw [hred]
      have hfields := navigate_to_patrol_fields
        { nav with patrol_index := nav.patrol_index + 1 } s.location_name (some pos) none
      exact ⟨rfl, hfields.2, hfields.1⟩

lemma runPatrol_spec {α : Type} : ∀ (ts : List (ℚ × (ℚ × ℚ))) (nav : Navigator α),
    (runPatrol nav ts).2.patrol_schedule = nav.patrol_schedule ∧
      nav.patrol_index ≤ (runPatrol nav ts).2.patrol_index ∧
      (runPatrol nav ts).1 = (nav.patrol_schedule.drop nav.patrol_index).take
        ((runPatrol nav ts).2.patrol_index - nav.patrol_index) := by
  intro ts
  induction ts with
  | nil =>
    intro nav
    refine ⟨rfl, le_refl _, ?_⟩
    show ([] : List PatrolSchedule) = (nav.patrol_schedule.drop nav.patrol_index).take
      (nav.patrol_index - nav.patrol_index)
    simp
  | cons tp rest ih =>
    intro nav
    obtain ⟨t, pos⟩ := tp
    have hrun : runPatrol nav ((t, pos) :: rest)
        = ((check_patrol nav t pos).1.toList ++ (runPatrol (check_patrol nav t pos).2 rest).1,
            (runPatrol (check_patrol nav t pos).2 rest).2) := rfl
    rcases hg : nav.patrol_schedule.get? nav.patrol_index with _ | s
    · have hcp : check_patrol nav t pos = (none, nav) := (check_patrol_spec nav t pos).1 hg
      rw [hrun, hcp]
      dsimp only
      obtain ⟨a, b, c⟩ := ih nav
      exact ⟨a, b, by simp [c]⟩
    · by_cases htime : s.time_minutes ≤ t
      · obtain ⟨h1, h2, h3⟩ := ((check_patrol_spec nav t pos).2 s hg).2 htime
        obtain ⟨ihsch, ihle, ihtake⟩ := ih (check_patrol nav t pos).2
        rw [hrun]
        dsimp only
        refine ⟨by rw [ihsch, h3], ?_, ?_⟩
        · rw [h2] at ihle
          omega
        · rw [h1]
          rw [ihtake, h3, h2]
          have hlen : nav.patrol_index < nav.patrol_schedule.length :=
            List.get?_eq_some.mp hg |>.choose
          have hdrop : nav.patrol_schedule.drop nav.patrol_index
              = s :: nav.patrol_schedule.drop (nav.patrol_index + 1) := by
            rw [List.drop_eq_get_cons hlen]
            congr 1
            have := List.get?_eq_some.mp hg
            obtain ⟨h', hget⟩ := this
            rw [show nav.patrol_schedule.get ⟨nav.patrol_index, hlen⟩
                = nav.patrol_schedule.get ⟨nav.patrol_index, h'⟩ from rfl, hget]
          rw [hdrop]
          have hK : nav.patrol_index + 1 ≤ (runPatrol (check_patrol nav t pos).2 rest).2.patrol_index := by
            rw [h2] at ihle
            exact ihle
          rw [show (runPatrol (check_patrol nav t pos).2 rest).2.patrol_index - nav.patrol_index
              = ((runPatrol (check_patrol nav t pos).2 rest).2.patrol_index
                  - (nav.patrol_index + 1)) + 1 from by omega]
          rw [List.take_succ_cons]
          rfl
      · have hcp : check_patrol nav t pos = (none, nav) :=
          ((check_patrol_spec nav t pos).2 s hg).1 htime
        rw [hrun, hcp]
        dsimp only
        obtain ⟨a, b, c⟩ := ih nav
        exact ⟨a, b, by simp [c]⟩

/-- C6: for every patrol schedule (sorted, as `set_patrol_schedule` makes
it) and every non-decreasing time sequence, the triggered entries are
exactly one contiguous cursor advance through the schedule — each entry
triggers at most once and a consumed entry is never re-triggered — and
they fire in non-decreasing time order; `set_patrol_schedule` itself
resets the cursor and stores the schedule sorted by time. -/
theorem c6_patrol_triggers {α : Type} (nav : Navigator α) (ts : List (ℚ × (ℚ × ℚ)))
    (hsched : nav.patrol_schedule.Pairwise (fun a b => a.time_minutes ≤ b.time_minutes))
    (hts : (ts.map Prod.fst).Pairwise (· ≤ ·)) :
    (runPatrol nav ts).2.patrol_schedule = nav.patrol_schedule ∧
      nav.patrol_index ≤ (runPatrol nav ts).2.patrol_index ∧
      (runPatrol nav ts).1 = (nav.patrol_schedule.drop nav.patrol_index).take
        ((runPatrol nav ts).2.patrol_index - nav.patrol_index) ∧
      (runPatrol nav ts).1.Pairwise (fun a b => a.time_minutes ≤ b.time_minutes) ∧
      (∀ sched : List PatrolSchedule,
        (set_patrol_schedule nav sched).patrol_index = 0 ∧
          (set_patrol_schedule nav sched).patrol_schedule.Pairwise
            (fun a b => a.time_minutes ≤ b.time_minutes)) := by
  obtain ⟨h1, h2, h3⟩ := runPatrol_spec ts nav
  refine ⟨h1, h2, h3, ?_, ?_⟩
  · rw [h3]
    refine List.Pairwise.sublist ?_ hsched
    exact (List.take_sublist _ _).trans (List.drop_sublist _ _)
  · intro sched
    refine ⟨rfl, ?_⟩
    exact List.sorted_insertionSort _ sched

/-- C6 (witness): entries at times 10 and 20 with sample times 5, 15, 25
trigger exactly once each, in order, and the cursor ends past both. -/
theorem c6_patrol_triggers_witness :
    navW6.patrol_schedule.Pairwise (fun a b => a.time_minutes ≤ b.time_minutes) ∧
      (tsW6.map Prod.fst).Pairwise (· ≤ ·) ∧
      (runPatrol navW6 tsW6).1 = [⟨10, "A", "patrol"⟩, ⟨20, "B", "patrol"⟩] ∧
      (runPatrol navW6 tsW6).2.patrol_index = 2 ∧
      (runPatrol navW6 tsW6).1.Pairwise (fun a b => a.time_minutes ≤ b.time_minutes) := by
  have hp1 : navW6.patrol_schedule.Pairwise
      (fun a b => a.time_minutes ≤ b.time_minutes) := by
    simp [navW6, List.pairwise_cons]
    norm_num
  have hp2 : (tsW6.map Prod.fst).Pairwise (· ≤ ·) := by
    simp [tsW6, List.pairwise_cons]
    norm_num
  have h := c6_patrol_triggers navW6 tsW6 hp1 hp2
  refine ⟨hp1, hp2, ?_, ?_, h.2.2.2.1⟩
  · with_unfolding_all rfl
  · with_unfolding_all rfl

/-!  C2 — the fully open grid: preliminary evaluations. -/

lemma is_walkable_openMap (n : ℕ) (x y : ℤ) :
    is_walkable (openMap n) x y = true ↔ 0 ≤ x ∧ x < n ∧ 0 ≤ y ∧ y < n := by
  unfold is_walkable openMap in_bounds
  constructor
  · intro h
    by_cases hb : 0 ≤ x ∧ x < (n : ℤ) ∧ 0 ≤ y ∧ y < (n : ℤ)
    · exact hb
    · rw [if_neg (by simpa using hb)] at h
      exact absurd h (by simp)
  · intro hb
    rw [if_pos (by simpa using hb)]
    have hy : y.toNat < n := by omega
    have hx : x.toNat < n := by omega
    rw [List.get?_eq_get (by simpa using hy)]
    simp only [List.get_replicate, Option.some_bind]
    rw [List.get?_eq_get (by simpa using hx)]
    simp [List.get_replicate, walkCode]

lemma get_neighbors_openMap_diag (n : ℕ) (i : ℤ) (h1 : 1 ≤ i) (h2 : i + 1 ≤ (n : ℤ) - 1) :
    get_neighbors (openMap n) i i =
      [(i - 1, i), (i + 1, i), (i, i - 1), (i, i + 1),
        (i - 1, i - 1), (i - 1, i + 1), (i + 1, i - 1), (i + 1, i + 1)] := by
  have hw : ∀ a b : ℤ, 0 ≤ a → a < n → 0 ≤ b → b < n →
      is_walkable (openMap n) a b = true := fun a b ha hb hc hd =>
    (is_walkable_openMap n a b).mpr ⟨ha, hb, hc, hd⟩
  unfold get_neighbors directions8
  simp only [List.filterMap_cons, List.filterMap_nil]
  rw [hw (i + -1) (i + 0) (by omega) (by omega) (by omega) (by omega),
    hw (i + 1) (i + 0) (by omega) (by omega) (by omega) (by omega),
    hw (i + 0) (i + -1) (by omega) (by omega) (by omega) (by omega),
    hw (i + 0) (i + 1) (by omega) (by omega) (by omega) (by omega),
    hw (i + -1) (i + -1) (by omega) (by omega) (by omega) (by omega),
    hw (i + -1) (i + 1) (by omega) (by omega) (by omega) (by omega),
    hw (i + 1) (i + -1) (by omega) (by omega) (by omega) (by omega),
    hw (i + 1) (i + 1) (by omega) (by omega) (by omega) (by omega),
    hw (i + -1) i (by omega) (by omega) (by omega) (by omega),
    hw (i + 1) i (by omega) (by omega) (by omega) (by omega),
    hw i (i + -1) (by omega) (by omega) (by omega) (by omega),
    hw i (i + 1) (by omega) (by omega) (by omega) (by omega)]
  norm_num <;> omega

lemma get_neighbors_openMap_zero (n : ℕ) (h : 2 ≤ n) :
    get_neighbors (openMap n) 0 0 = [(1, 0), (0, 1), (1, 1)] := by
  have hw : ∀ a b : ℤ, 0 ≤ a → a < n → 0 ≤ b → b < n →
      is_walkable (openMap n) a b = true := fun a b ha hb hc hd =>
    (is_walkable_openMap n a b).mpr ⟨ha, hb, hc, hd⟩
  have hnw : ∀ a b : ℤ, a < 0 ∨ (n : ℤ) ≤ a ∨ b < 0 ∨ (n : ℤ) ≤ b →
      is_walkable (openMap n) a b = false := by
    intro a b hab
    by_cases hcase : is_walkable (openMap n) a b = true
    · obtain ⟨c1, c2, c3, c4⟩ := (is_walkable_openMap n a b).mp hcase
      omega
    · simpa using hcase
  unfold get_neighbors directions8
  simp only [List.filterMap_cons, List.filterMap_nil]
  rw [hnw (0 + -1) (0 + 0) (by omega),
    hw (0 + 1) (0 + 0) (by omega) (by omega) (by omega) (by omega),
    hnw (0 + 0) (0 + -1) (by omega),
    hw (0 + 0) (0 + 1) (by omega) (by omega) (by omega) (by omega),
    hnw (0 + -1) (0 + -1) (by omega),
    hnw (0 + -1) (0 + 1) (by omega),
    hnw (0 + 1) (0 + -1) (by omega),
    hw (0 + 1) (0 + 1) (by omega) (by omega) (by omega) (by omega),
    hw (0 + 1) 0 (by omega) (by omega) (by omega) (by omega),
    hw 0 (0 + 1) (by omega) (by omega) (by omega) (by omega)]
  norm_num

lemma moveCost_ortho {a b : ℤ × ℤ} (h : a.1 = b.1 ∨ a.2 = b.2) : moveCost a b = 1 := by
  unfold moveCost
  rw [if_neg]
  tauto

lemma moveCost_diag {a b : ℤ × ℤ} (h1 : a.1 ≠ b.1) (h2 : a.2 ≠ b.2) :
    moveCost a b = Real.sqrt 2 := by
  unfold moveCost
  rw [if_pos ⟨h1, h2⟩]

lemma sqrt_two_sq : Real.sqrt 2 ^ 2 = 2 := Real.sq_sqrt (by norm_num)

lemma one_lt_sqrt_two : 1 < Real.sqrt 2 := by
  nlinarith [sqrt_two_sq, Real.sqrt_nonneg 2]

lemma sqrt_two_pos : 0 < Real.sqrt 2 := lt_trans one_pos one_lt_sqrt_two

lemma sqrt_double_sq (a : ℝ) (ha : 0 ≤ a) : Real.sqrt (a ^ 2 + a ^ 2) = a * Real.sqrt 2 := by
  rw [show a ^ 2 + a ^ 2 = (a * Real.sqrt 2) ^ 2 from by
    rw [mul_pow, sqrt_two_sq]
    ring]
  exact Real.sqrt_sq (by positivity)

lemma heurist_eval (k x y : ℤ) :
    heurist (k, k) (x, y) = Real.sqrt (((x : ℝ) - k) ^ 2 + ((y : ℝ) - k) ^ 2) := by
  unfold heurist
  push_cast
  ring_nf

lemma heurist_diag (k j : ℤ) (h : j ≤ k) :
    heurist (k, k) (j, j) = ((k : ℝ) - j) * Real.sqrt 2 := by
  rw [heurist_eval]
  rw [show ((j : ℝ) - k) ^ 2 + ((j : ℝ) - k) ^ 2
      = ((k : ℝ) - j) ^ 2 + ((k : ℝ) - j) ^ 2 from by ring]
  refine sqrt_double_sq _ ?_
  have : (j : ℝ) ≤ k := by exact_mod_cast h
  linarith

lemma junkA_gt (k j : ℕ) (hj : j < k) : (k : ℝ) * Real.sqrt 2 < junkA k j := by
  unfold junkA
  have ht : (1 : ℝ) ≤ (k : ℝ) - j := by
    have : (j : ℝ) + 1 ≤ k := by exact_mod_cast hj
    linarith
  set t : ℝ := (k : ℝ) - j with htdef
  have hk : (k : ℝ) * Real.sqrt 2 = (j : ℝ) * Real.sqrt 2 + t * Real.sqrt 2 := by
    rw [htdef]
    ring
  rw [hk]
  have hgoal : t * Real.sqrt 2 < 1 + Real.sqrt ((t - 1) ^ 2 + t ^ 2) := by
    have hs : t * Real.sqrt 2 - 1 < Real.sqrt ((t - 1) ^ 2 + t ^ 2) := by
      by_cases hneg : t * Real.sqrt 2 - 1 < 0
      · exact lt_of_lt_of_le hneg (Real.sqrt_nonneg _)
      · push_neg at hneg
        rw [show (t - 1) ^ 2 + t ^ 2 = 2 * t ^ 2 - 2 * t + 1 from by ring]
        refine (Real.lt_sqrt hneg).mpr ?_
        have h1 := one_lt_sqrt_two
        nlinarith [sqrt_two_sq]
    linarith [show (k : ℝ) - j - 1 = t - 1 from by rw [htdef],
      show ((k : ℝ) - j) = t from by rw [htdef]]
  calc (j : ℝ) * Real.sqrt 2 + t * Real.sqrt 2
      < (j : ℝ) * Real.sqrt 2 + (1 + Real.sqrt ((t - 1) ^ 2 + t ^ 2)) := by linarith
    _ = (j : ℝ) * Real.sqrt 2 + 1 + Real.sqrt (((k : ℝ) - j - 1) ^ 2 + ((k : ℝ) - j) ^ 2) := by
        rw [htdef]
        ring_nf

lemma junkB_gt (k j : ℕ) (hj : j < k) : (k : ℝ) * Real.sqrt 2 < junkB k j := by
  unfold junkB
  have ha : (0 : ℝ) ≤ (k : ℝ) - j - 1 := by
    have : (j : ℝ) + 1 ≤ k := by exact_mod_cast hj
    linarith
  set a : ℝ := (k : ℝ) - j - 1 with hadef
  have hk : (k : ℝ) * Real.sqrt 2 = ((j : ℝ) + 1) * Real.sqrt 2 + a * Real.sqrt 2 := by
    rw [hadef]
    ring
  rw [hk]
  have hs : a * Real.sqrt 2 < Real.sqrt (((k : ℝ) - j - 1) ^ 2 + ((k : ℝ) - j + 1) ^ 2) := by
    rw [show ((k : ℝ) - j - 1) ^ 2 + ((k : ℝ) - j + 1) ^ 2 = a ^ 2 + (a + 2) ^ 2 from by
      rw [hadef]
      ring]
    refine (Real.lt_sqrt (by positivity)).mpr ?_
    nlinarith [sqrt_two_sq]
  linarith

/-!  Evaluations of the explicit g_score and came_from descriptions. -/

lemma gOpen_at_diag (i : ℕ) (j : ℤ) (h0 : 0 ≤ j) (hji : j ≤ (i : ℤ)) :
    gOpen i (j, j) = some ((j : ℝ) * Real.sqrt 2) := by
  unfold gOpen
  rw [if_pos ⟨rfl, h0, hji⟩]

lemma gOpen_at_below (i : ℕ) (j : ℤ) (h0 : 0 ≤ j) (hji : j ≤ (i : ℤ) - 1) :
    gOpen i (j + 1, j) = some ((j : ℝ) * Real.sqrt 2 + 1) := by
  unfold gOpen
  rw [if_neg (by omega), if_pos ⟨rfl, h0, hji⟩]

lemma gOpen_at_above (i : ℕ) (j : ℤ) (h0 : 0 ≤ j) (hji : j ≤ (i : ℤ) - 1) :
    gOpen i (j, j + 1) = some ((j : ℝ) * Real.sqrt 2 + 1) := by
  unfold gOpen
  rw [if_neg (by omega), if_neg (by omega), if_pos ⟨rfl, h0, hji⟩]

lemma gOpen_at_low (i : ℕ) (j : ℤ) (h0 : 0 ≤ j) (hji : j ≤ (i : ℤ) - 2) :
    gOpen i (j + 2, j) = some (((j + 2 : ℤ) : ℝ) * Real.sqrt 2) := by
  unfold gOpen
  rw [if_neg (by omega), if_neg (by omega), if_neg (by omega), if_pos ⟨rfl, h0, hji⟩]

lemma gOpen_at_high (i : ℕ) (j : ℤ) (h0 : 0 ≤ j) (hji : j ≤ (i : ℤ) - 2) :
    gOpen i (j, j + 2) = some (((j + 2 : ℤ) : ℝ) * Real.sqrt 2) := by
  unfold gOpen
  rw [if_neg (by omega), if_neg (by omega), if_neg (by omega), if_neg (by omega),
    if_pos ⟨rfl, h0, hji⟩]

lemma gOpen_none_right (i : ℕ) : gOpen i ((i : ℤ) + 1, (i : ℤ)) = none := by
  unfold gOpen
  split_ifs <;> first | rfl | (exfalso; omega)

lemma gOpen_none_up (i : ℕ) : gOpen i ((i : ℤ), (i : ℤ) + 1) = none := by
  unfold gOpen
  split_ifs <;> first | rfl | (exfalso; omega)

lemma gOpen_none_low (i : ℕ) : gOpen i ((i : ℤ) + 1, (i : ℤ) - 1) = none := by
  unfold gOpen
  split_ifs <;> first | rfl | (exfalso; omega)

lemma gOpen_none_high (i : ℕ) : gOpen i ((i : ℤ) - 1, (i : ℤ) + 1) = none := by
  unfold gOpen
  split_ifs <;> first | rfl | (exfalso; omega)

lemma gOpen_none_diag (i : ℕ) : gOpen i ((i : ℤ) + 1, (i : ℤ) + 1) = none := by
  unfold gOpen
  split_ifs <;> first | rfl | (exfalso; omega)

set_option maxHeartbeats 1000000 in
lemma gOpen_succ_off (i : ℕ) (x y : ℤ)
    (h1 : ¬(x = (i : ℤ) + 1 ∧ y = (i : ℤ) + 1)) (h2 : ¬(x = (i : ℤ) + 1 ∧ y = (i : ℤ)))
    (h3 : ¬(x = (i : ℤ) ∧ y = (i : ℤ) + 1)) (h4 : ¬(x = (i : ℤ) + 1 ∧ y = (i : ℤ) - 1))
    (h5 : ¬(x = (i : ℤ) - 1 ∧ y = (i : ℤ) + 1)) :
    gOpen (i + 1) (x, y) = gOpen i (x, y) := by
  unfold gOpen
  simp only [Nat.cast_add, Nat.cast_one]
  split_ifs <;> first | (exfalso; omega) | rfl

set_option maxHeartbeats 1000000 in
lemma cameOpen_succ_off (i : ℕ) (x y : ℤ)
    (h1 : ¬(x = (i : ℤ) + 1 ∧ y = (i : ℤ) + 1)) (h2 : ¬(x = (i : ℤ) + 1 ∧ y = (i : ℤ)))
    (h3 : ¬(x = (i : ℤ) ∧ y = (i : ℤ) + 1)) (h4 : ¬(x = (i : ℤ) + 1 ∧ y = (i : ℤ) - 1))
    (h5 : ¬(x = (i : ℤ) - 1 ∧ y = (i : ℤ) + 1)) :
    cameOpen (i + 1) (x, y) = cameOpen i (x, y) := by
  unfold cameOpen
  simp only [Nat.cast_add, Nat.cast_one]
  split_ifs <;> first | (exfalso; omega) | rfl

lemma cameOpen_succ_diag (i : ℕ) :
    cameOpen (i + 1) ((i : ℤ) + 1, (i : ℤ) + 1) = some ((i : ℤ), (i : ℤ)) := by
  unfold cameOpen
  simp only [Nat.cast_add, Nat.cast_one]
  split_ifs <;>
    first
      | (exfalso; omega)
      | (exfalso; simp only [true_and, and_true] at *; omega)
      | (simp only [Option.some.injEq, Prod.mk.injEq]; omega)
      | rfl

lemma cameOpen_succ_right (i : ℕ) :
    cameOpen (i + 1) ((i : ℤ) + 1, (i : ℤ)) = some ((i : ℤ), (i : ℤ)) := by
  unfold cameOpen
  simp only [Nat.cast_add, Nat.cast_one]
  split_ifs <;>
    first
      | (exfalso; omega)
      | (exfalso; simp only [true_and, and_true] at *; omega)
      | (simp only [Option.some.injEq, Prod.mk.injEq]; omega)
      | rfl

lemma cameOpen_succ_up (i : ℕ) :
    cameOpen (i + 1) ((i : ℤ), (i : ℤ) + 1) = some ((i : ℤ), (i : ℤ)) := by
  unfold cameOpen
  simp only [Nat.cast_add, Nat.cast_one]
  split_ifs <;>
    first
      | (exfalso; omega)
      | (exfalso; simp only [true_and, and_true] at *; omega)
      | (simp only [Option.some.injEq, Prod.mk.injEq]; omega)
      | rfl

lemma cameOpen_succ_low (i : ℕ) (h : 1 ≤ i) :
    cameOpen (i + 1) ((i : ℤ) + 1, (i : ℤ) - 1) = some ((i : ℤ), (i : ℤ)) := by
  unfold cameOpen
  simp only [Nat.cast_add, Nat.cast_one]
  split_ifs <;>
    first
      | (exfalso; omega)
      | (exfalso; simp only [true_and, and_true] at *; omega)
      | (simp only [Option.some.injEq, Prod.mk.injEq]; omega)
      | rfl

lemma cameOpen_succ_high (i : ℕ) (h : 1 ≤ i) :
    cameOpen (i + 1) ((i : ℤ) - 1, (i : ℤ) + 1) = some ((i : ℤ), (i : ℤ)) := by
  unfold cameOpen
  simp only [Nat.cast_add, Nat.cast_one]
  split_ifs <;>
    first
      | (exfalso; omega)
      | (exfalso; simp only [true_and, and_true] at *; omega)
      | (simp only [Option.some.injEq, Prod.mk.injEq]; omega)
      | rfl

lemma relaxOne_new_closed {goal current : ℤ × ℤ} {st : AState} {nb : ℤ × ℤ} {gcur : ℝ}
    (hcur : look st.g_score current = some gcur) (hnb : look st.g_score nb = none) :
    relaxOne goal current st nb =
      { open_set := (gcur + moveCost current nb + heurist goal nb, nb) :: st.open_set
        g_score := (nb, gcur + moveCost current nb) :: st.g_score
        came_from := (nb, current) :: st.came_from } := by
  rw [relaxOne_eq_update (by rw [hnb]; trivial), hcur]
  simp only [Option.getD_some]

lemma relaxOne_skip_closed {goal current : ℤ × ℤ} {st : AState} {nb : ℤ × ℤ} {gcur gnb : ℝ}
    (hcur : look st.g_score current = some gcur) (hnb : look st.g_score nb = some gnb)
    (hge : gnb ≤ gcur + moveCost current nb) :
    relaxOne goal current st nb = st := by
  refine relaxOne_eq_skip ?_
  rw [hnb]
  show ¬((look st.g_score current).getD 0 + moveCost current nb < gnb)
  rw [hcur]
  simp only [Option.getD_some]
  exact not_lt.mpr hge

/-!  The relaxation step of the open-grid execution. -/

lemma look_cons_ne' {β : Type} {l : List ((ℤ × ℤ) × β)} {a k' : ℤ × ℤ} {v : β} {r : Option β}
    (h : a ≠ k') (hl : look l a = r) : look ((k', v) :: l) a = r := by
  rw [look_cons, if_neg h, hl]

lemma look_cons_eq' {β : Type} (l : List ((ℤ × ℤ) × β)) (k' : ℤ × ℤ) (v : β) :
    look ((k', v) :: l) k' = some v := by
  rw [look_cons, if_pos rfl]

lemma relaxOne_new_val {goal current : ℤ × ℤ} {st : AState} {nb : ℤ × ℤ} {gcur t f : ℝ}
    (hcur : look st.g_score current = some gcur) (hnb : look st.g_score nb = none)
    (ht : gcur + moveCost current nb = t) (hf : t + heurist goal nb = f) :
    relaxOne goal current st nb =
      { open_set := (f, nb) :: st.open_set
        g_score := (nb, t) :: st.g_score
        came_from := (nb, current) :: st.came_from } := by
  rw [relaxOne_new_closed hcur hnb, ht, hf]

lemma range_eq_append_last (i : ℕ) (h : 1 ≤ i) :
    List.range i = List.range (i - 1) ++ [i - 1] := by
  obtain ⟨j, rfl⟩ : ∃ j, i = j + 1 := ⟨i - 1, by omega⟩
  simp [List.range_succ]

lemma openEntries_succ (k i : ℕ) (h1 : 1 ≤ i) :
    openEntries k (i + 1) = ((k : ℝ) * Real.sqrt 2, ((i : ℤ) + 1, (i : ℤ) + 1)) ::
      ((((List.range i).flatMap fun j =>
          [(junkA k j, ((j : ℤ) + 1, (j : ℤ))), (junkA k j, ((j : ℤ), (j : ℤ) + 1))]) ++
        [(junkA k i, ((i : ℤ) + 1, (i : ℤ))), (junkA k i, ((i : ℤ), (i : ℤ) + 1))]) ++
       (((List.range (i - 1)).flatMap fun j =>
          [(junkB k (j + 1), ((j : ℤ) + 2, (j : ℤ))), (junkB k (j + 1), ((j : ℤ), (j : ℤ) + 2))]) ++
        [(junkB k i, ((i : ℤ) + 1, (i : ℤ) - 1)), (junkB k i, ((i : ℤ) - 1, (i : ℤ) + 1))])) := by
  have hA : (List.range (i + 1)).flatMap (fun j =>
        [(junkA k j, ((j : ℤ) + 1, (j : ℤ))), (junkA k j, ((j : ℤ), (j : ℤ) + 1))])
      = ((List.range i).flatMap fun j =>
          [(junkA k j, ((j : ℤ) + 1, (j : ℤ))), (junkA k j, ((j : ℤ), (j : ℤ) + 1))]) ++
        [(junkA k i, ((i : ℤ) + 1, (i : ℤ))), (junkA k i, ((i : ℤ), (i : ℤ) + 1))] := by
    rw [List.range_succ, List.flatMap_append]
    simp only [List.flatMap_cons, List.flatMap_nil, List.append_nil]
  have hB : (List.range i).flatMap (fun j =>
        [(junkB k (j + 1), ((j : ℤ) + 2, (j : ℤ))), (junkB k (j + 1), ((j : ℤ), (j : ℤ) + 2))])
      = ((List.range (i - 1)).flatMap fun j =>
          [(junkB k (j + 1), ((j : ℤ) + 2, (j : ℤ))), (junkB k (j + 1), ((j : ℤ), (j : ℤ) + 2))]) ++
        [(junkB k i, ((i : ℤ) + 1, (i : ℤ) - 1)), (junkB k i, ((i : ℤ) - 1, (i : ℤ) + 1))] := by
    rw [range_eq_append_last i h1, List.flatMap_append]
    simp only [List.flatMap_cons, List.flatMap_nil, List.append_nil]
    rw [show (i - 1) + 1 = i from by omega, show ((i - 1 : ℕ) : ℤ) = (i : ℤ) - 1 from by omega,
      show ((i : ℤ) - 1) + 2 = (i : ℤ) + 1 from by ring]
  unfold openEntries
  rw [show (i + 1) - 1 = i from rfl, hA, hB,
    show ((i + 1 : ℕ) : ℤ) = (i : ℤ) + 1 from by omega]

set_option maxHeartbeats 1600000 in
lemma stepOpen_relax (k i : ℕ) (h1 : 1 ≤ i) (h2 : i < k) (st : AState)
    (hg : ∀ nd, look st.g_score nd = gOpen i nd)
    (hcf : ∀ nd, look st.came_from nd = cameOpen i nd)
    (hlen : st.came_from.length = 5 * i - 2)
    (hopen : st.open_set.Perm (openEntries k i).tail) :
    (∀ nd, look (relaxAll (openMap (k + 1)) ((k : ℤ), (k : ℤ)) ((i : ℤ), (i : ℤ)) st).g_score nd
        = gOpen (i + 1) nd) ∧
      (∀ nd, look (relaxAll (openMap (k + 1)) ((k : ℤ), (k : ℤ)) ((i : ℤ), (i : ℤ)) st).came_from nd
        = cameOpen (i + 1) nd) ∧
      (relaxAll (openMap (k + 1)) ((k : ℤ), (k : ℤ)) ((i : ℤ), (i : ℤ)) st).came_from.length
        = 5 * (i + 1) - 2 ∧
      (relaxAll (openMap (k + 1)) ((k : ℤ), (k : ℤ)) ((i : ℤ), (i : ℤ)) st).open_set.Perm
        (openEntries k (i + 1)) := by
  -- pair inequalities between the five keys touched in this iteration
  have nLD : (((i : ℤ) + 1, (i : ℤ) - 1) : ℤ × ℤ) ≠ ((i : ℤ) + 1, (i : ℤ) + 1) := by
    simp only [ne_eq, Prod.mk.injEq]; omega
  have nHD : (((i : ℤ) - 1, (i : ℤ) + 1) : ℤ × ℤ) ≠ ((i : ℤ) + 1, (i : ℤ) + 1) := by
    simp only [ne_eq, Prod.mk.injEq]; omega
  have nHL : (((i : ℤ) - 1, (i : ℤ) + 1) : ℤ × ℤ) ≠ ((i : ℤ) + 1, (i : ℤ) - 1) := by
    simp only [ne_eq, Prod.mk.injEq]; omega
  have nUD : (((i : ℤ), (i : ℤ) + 1) : ℤ × ℤ) ≠ ((i : ℤ) + 1, (i : ℤ) + 1) := by
    simp only [ne_eq, Prod.mk.injEq]; omega
  have nUL : (((i : ℤ), (i : ℤ) + 1) : ℤ × ℤ) ≠ ((i : ℤ) + 1, (i : ℤ) - 1) := by
    simp only [ne_eq, Prod.mk.injEq]; omega
  have nUH : (((i : ℤ), (i : ℤ) + 1) : ℤ × ℤ) ≠ ((i : ℤ) - 1, (i : ℤ) + 1) := by
    simp only [ne_eq, Prod.mk.injEq]; omega
  have nRD : (((i : ℤ) + 1, (i : ℤ)) : ℤ × ℤ) ≠ ((i : ℤ) + 1, (i : ℤ) + 1) := by
    simp only [ne_eq, Prod.mk.injEq]; omega
  have nRL : (((i : ℤ) + 1, (i : ℤ)) : ℤ × ℤ) ≠ ((i : ℤ) + 1, (i : ℤ) - 1) := by
    simp only [ne_eq, Prod.mk.injEq]; omega
  have nRH : (((i : ℤ) + 1, (i : ℤ)) : ℤ × ℤ) ≠ ((i : ℤ) - 1, (i : ℤ) + 1) := by
    simp only [ne_eq, Prod.mk.injEq]; omega
  have nRU : (((i : ℤ) + 1, (i : ℤ)) : ℤ × ℤ) ≠ ((i : ℤ), (i : ℤ) + 1) := by
    simp only [ne_eq, Prod.mk.injEq]; omega
  -- g-score lookups in the pre-iteration state
  have hcur0 : look st.g_score ((i : ℤ), (i : ℤ)) = some (((i : ℤ) : ℝ) * Real.sqrt 2) := by
    rw [hg]
    exact gOpen_at_diag i (i : ℤ) (by omega) (by omega)
  have base1 : look st.g_score ((i : ℤ) - 1, (i : ℤ))
      = some ((((i : ℤ) - 1 : ℤ) : ℝ) * Real.sqrt 2 + 1) := by
    rw [hg, show (((i : ℤ) - 1, (i : ℤ)) : ℤ × ℤ) = ((i : ℤ) - 1, ((i : ℤ) - 1) + 1) from by
      simp only [Prod.mk.injEq, true_and, and_true]; omega]
    exact gOpen_at_above i ((i : ℤ) - 1) (by omega) (by omega)
  have base2 : look st.g_score ((i : ℤ) + 1, (i : ℤ)) = none := by
    rw [hg]; exact gOpen_none_right i
  have base3 : look st.g_score ((i : ℤ), (i : ℤ) - 1)
      = some ((((i : ℤ) - 1 : ℤ) : ℝ) * Real.sqrt 2 + 1) := by
    rw [hg, show (((i : ℤ), (i : ℤ) - 1) : ℤ × ℤ) = (((i : ℤ) - 1) + 1, (i : ℤ) - 1) from by
      simp only [Prod.mk.injEq, true_and, and_true]; omega]
    exact gOpen_at_below i ((i : ℤ) - 1) (by omega) (by omega)
  have base4 : look st.g_score ((i : ℤ), (i : ℤ) + 1) = none := by
    rw [hg]; exact gOpen_none_up i
  have base5 : look st.g_score ((i : ℤ) - 1, (i : ℤ) - 1)
      = some ((((i : ℤ) - 1 : ℤ) : ℝ) * Real.sqrt 2) := by
    rw [hg]; exact gOpen_at_diag i ((i : ℤ) - 1) (by omega) (by omega)
  have base6 : look st.g_score ((i : ℤ) - 1, (i : ℤ) + 1) = none := by
    rw [hg]; exact gOpen_none_high i
  have base7 : look st.g_score ((i : ℤ) + 1, (i : ℤ) - 1) = none := by
    rw [hg]; exact gOpen_none_low i
  have base8 : look st.g_score ((i : ℤ) + 1, (i : ℤ) + 1) = none := by
    rw [hg]; exact gOpen_none_diag i
  -- non-improvement inequalities for the three already-scored neighbours
  have hge1 : (((i : ℤ) - 1 : ℤ) : ℝ) * Real.sqrt 2 + 1
      ≤ ((i : ℤ) : ℝ) * Real.sqrt 2 + moveCost ((i : ℤ), (i : ℤ)) ((i : ℤ) - 1, (i : ℤ)) := by
    rw [show moveCost ((i : ℤ), (i : ℤ)) ((i : ℤ) - 1, (i : ℤ)) = 1 from
      moveCost_ortho (Or.inr rfl)]
    have hc : ((((i : ℤ) - 1 : ℤ)) : ℝ) ≤ ((i : ℤ) : ℝ) := by push_cast; linarith
    nlinarith [Real.sqrt_nonneg 2]
  have hge3 : (((i : ℤ) - 1 : ℤ) : ℝ) * Real.sqrt 2 + 1
      ≤ ((i : ℤ) : ℝ) * Real.sqrt 2 + moveCost ((i : ℤ), (i : ℤ)) ((i : ℤ), (i : ℤ) - 1) := by
    rw [show moveCost ((i : ℤ), (i : ℤ)) ((i : ℤ), (i : ℤ) - 1) = 1 from
      moveCost_ortho (Or.inl rfl)]
    have hc : ((((i : ℤ) - 1 : ℤ)) : ℝ) ≤ ((i : ℤ) : ℝ) := by push_cast; linarith
    nlinarith [Real.sqrt_nonneg 2]
  have hge5 : (((i : ℤ) - 1 : ℤ) : ℝ) * Real.sqrt 2
      ≤ ((i : ℤ) : ℝ) * Real.sqrt 2 + moveCost ((i : ℤ), (i : ℤ)) ((i : ℤ) - 1, (i : ℤ) - 1) := by
    rw [show moveCost ((i : ℤ), (i : ℤ)) ((i : ℤ) - 1, (i : ℤ) - 1) = Real.sqrt 2 from
      moveCost_diag (by dsimp only; omega) (by dsimp only; omega)]
    have hc : ((((i : ℤ) - 1 : ℤ)) : ℝ) ≤ ((i : ℤ) : ℝ) + 1 := by push_cast; linarith
    nlinarith [Real.sqrt_nonneg 2]
  -- tentative scores of the five fresh neighbours
  have ht2 : ((i : ℤ) : ℝ) * Real.sqrt 2 + moveCost ((i : ℤ), (i : ℤ)) ((i : ℤ) + 1, (i : ℤ))
      = ((i : ℤ) : ℝ) * Real.sqrt 2 + 1 := by
    rw [show moveCost ((i : ℤ), (i : ℤ)) ((i : ℤ) + 1, (i : ℤ)) = 1 from
      moveCost_ortho (Or.inr rfl)]
  have ht4 : ((i : ℤ) : ℝ) * Real.sqrt 2 + moveCost ((i : ℤ), (i : ℤ)) ((i : ℤ), (i : ℤ) + 1)
      = ((i : ℤ) : ℝ) * Real.sqrt 2 + 1 := by
    rw [show moveCost ((i : ℤ), (i : ℤ)) ((i : ℤ), (i : ℤ) + 1) = 1 from
      moveCost_ortho (Or.inl rfl)]
  have ht6 : ((i : ℤ) : ℝ) * Real.sqrt 2 + moveCost ((i : ℤ), (i : ℤ)) ((i : ℤ) - 1, (i : ℤ) + 1)
      = (((i : ℤ) + 1 : ℤ) : ℝ) * Real.sqrt 2 := by
    rw [show moveCost ((i : ℤ), (i : ℤ)) ((i : ℤ) - 1, (i : ℤ) + 1) = Real.sqrt 2 from
      moveCost_diag (by dsimp only; omega) (by dsimp only; omega)]
    push_cast
    ring
  have ht7 : ((i : ℤ) : ℝ) * Real.sqrt 2 + moveCost ((i : ℤ), (i : ℤ)) ((i : ℤ) + 1, (i : ℤ) - 1)
      = (((i : ℤ) + 1 : ℤ) : ℝ) * Real.sqrt 2 := by
    rw [show moveCost ((i : ℤ), (i : ℤ)) ((i : ℤ) + 1, (i : ℤ) - 1) = Real.sqrt 2 from
      moveCost_diag (by dsimp only; omega) (by dsimp only; omega)]
    push_cast
    ring
  have ht8 : ((i : ℤ) : ℝ) * Real.sqrt 2 + moveCost ((i : ℤ), (i : ℤ)) ((i : ℤ) + 1, (i : ℤ) + 1)
      = (((i : ℤ) + 1 : ℤ) : ℝ) * Real.sqrt 2 := by
    rw [show moveCost ((i : ℤ), (i : ℤ)) ((i : ℤ) + 1, (i : ℤ) + 1) = Real.sqrt 2 from
      moveCost_diag (by dsimp only; omega) (by dsimp only; omega)]
    push_cast
    ring
  -- heap priorities of the five fresh neighbours
  have hf2 : ((i : ℤ) : ℝ) * Real.sqrt 2 + 1
      + heurist ((k : ℤ), (k : ℤ)) ((i : ℤ) + 1, (i : ℤ)) = junkA k i := by
    rw [heurist_eval, show ((((i : ℤ) + 1 : ℤ) : ℝ) - ((k : ℤ) : ℝ)) ^ 2
        + (((i : ℤ) : ℝ) - ((k : ℤ) : ℝ)) ^ 2
        = ((k : ℝ) - (i : ℝ) - 1) ^ 2 + ((k : ℝ) - (i : ℝ)) ^ 2 from by push_cast; ring]
    unfold junkA
    push_cast
    ring
  have hf4 : ((i : ℤ) : ℝ) * Real.sqrt 2 + 1
      + heurist ((k : ℤ), (k : ℤ)) ((i : ℤ), (i : ℤ) + 1) = junkA k i := by
    rw [heurist_eval, show (((i : ℤ) : ℝ) - ((k : ℤ) : ℝ)) ^ 2
        + ((((i : ℤ) + 1 : ℤ) : ℝ) - ((k : ℤ) : ℝ)) ^ 2
        = ((k : ℝ) - (i : ℝ) - 1) ^ 2 + ((k : ℝ) - (i : ℝ)) ^ 2 from by push_cast; ring]
    unfold junkA
    push_cast
    ring
  have hf6 : (((i : ℤ) + 1 : ℤ) : ℝ) * Real.sqrt 2
      + heurist ((k : ℤ), (k : ℤ)) ((i : ℤ) - 1, (i : ℤ) + 1) = junkB k i := by
    rw [heurist_eval, show ((((i : ℤ) - 1 : ℤ) : ℝ) - ((k : ℤ) : ℝ)) ^ 2
        + ((((i : ℤ) + 1 : ℤ) : ℝ) - ((k : ℤ) : ℝ)) ^ 2
        = ((k : ℝ) - (i : ℝ) - 1) ^ 2 + ((k : ℝ) - (i : ℝ) + 1) ^ 2 from by push_cast; ring]
    unfold junkB
    push_cast
    ring
  have hf7 : (((i : ℤ) + 1 : ℤ) : ℝ) * Real.sqrt 2
      + heurist ((k : ℤ), (k : ℤ)) ((i : ℤ) + 1, (i : ℤ) - 1) = junkB k i := by
    rw [heurist_eval, show ((((i : ℤ) + 1 : ℤ) : ℝ) - ((k : ℤ) : ℝ)) ^ 2
        + ((((i : ℤ) - 1 : ℤ) : ℝ) - ((k : ℤ) : ℝ)) ^ 2
        = ((k : ℝ) - (i : ℝ) - 1) ^ 2 + ((k : ℝ) - (i : ℝ) + 1) ^ 2 from by push_cast; ring]
    unfold junkB
    push_cast
    ring
  have hf8 : (((i : ℤ) + 1 : ℤ) : ℝ) * Real.sqrt 2
      + heurist ((k : ℤ), (k : ℤ)) ((i : ℤ) + 1, (i : ℤ) + 1) = (k : ℝ) * Real.sqrt 2 := by
    rw [heurist_diag (k : ℤ) ((i : ℤ) + 1) (by omega)]
    push_cast
    ring
  -- the eight relaxations, one per neighbour in source order
  have e1 : relaxOne ((k : ℤ), (k : ℤ)) ((i : ℤ), (i : ℤ)) st ((i : ℤ) - 1, (i : ℤ)) = st :=
    relaxOne_skip_closed hcur0 base1 hge1
  have e2 : relaxOne ((k : ℤ), (k : ℤ)) ((i : ℤ), (i : ℤ)) st ((i : ℤ) + 1, (i : ℤ)) =
      ⟨(junkA k i, ((i : ℤ) + 1, (i : ℤ))) :: st.open_set,
       (((i : ℤ) + 1, (i : ℤ)), ((i : ℤ) : ℝ) * Real.sqrt 2 + 1) :: st.g_score,
       (((i : ℤ) + 1, (i : ℤ)), ((i : ℤ), (i : ℤ))) :: st.came_from⟩ :=
    relaxOne_new_val hcur0 base2 ht2 hf2
  have hcur2 : look ((((i : ℤ) + 1, (i : ℤ)), ((i : ℤ) : ℝ) * Real.sqrt 2 + 1) :: st.g_score)
      ((i : ℤ), (i : ℤ)) = some (((i : ℤ) : ℝ) * Real.sqrt 2) :=
    look_cons_ne' (by simp only [ne_eq, Prod.mk.injEq]; omega) hcur0
  have b3 : look ((((i : ℤ) + 1, (i : ℤ)), ((i : ℤ) : ℝ) * Real.sqrt 2 + 1) :: st.g_score)
      ((i : ℤ), (i : ℤ) - 1) = some ((((i : ℤ) - 1 : ℤ) : ℝ) * Real.sqrt 2 + 1) :=
    look_cons_ne' (by simp only [ne_eq, Prod.mk.injEq]; omega) base3
  have e3 : relaxOne ((k : ℤ), (k : ℤ)) ((i : ℤ), (i : ℤ))
      ⟨(junkA k i, ((i : ℤ) + 1, (i : ℤ))) :: st.open_set,
       (((i : ℤ) + 1, (i : ℤ)), ((i : ℤ) : ℝ) * Real.sqrt 2 + 1) :: st.g_score,
       (((i : ℤ) + 1, (i : ℤ)), ((i : ℤ), (i : ℤ))) :: st.came_from⟩ ((i : ℤ), (i : ℤ) - 1) =
      ⟨(junkA k i, ((i : ℤ) + 1, (i : ℤ))) :: st.open_set,
       (((i : ℤ) + 1, (i : ℤ)), ((i : ℤ) : ℝ) * Real.sqrt 2 + 1) :: st.g_score,
       (((i : ℤ) + 1, (i : ℤ)), ((i : ℤ), (i : ℤ))) :: st.came_from⟩ :=
    relaxOne_skip_closed hcur2 b3 hge3
  have b4 : look ((((i : ℤ) + 1, (i : ℤ)), ((i : ℤ) : ℝ) * Real.sqrt 2 + 1) :: st.g_score)
      ((i : ℤ), (i : ℤ) + 1) = none :=
    look_cons_ne' (by simp only [ne_eq, Prod.mk.injEq]; omega) base4
  have e4 : relaxOne ((k : ℤ), (k : ℤ)) ((i : ℤ), (i : ℤ))
      ⟨(junkA k i, ((i : ℤ) + 1, (i : ℤ))) :: st.open_set,
       (((i : ℤ) + 1, (i : ℤ)), ((i : ℤ) : ℝ) * Real.sqrt 2 + 1) :: st.g_score,
       (((i : ℤ) + 1, (i : ℤ)), ((i : ℤ), (i : ℤ))) :: st.came_from⟩ ((i : ℤ), (i : ℤ) + 1) =
      ⟨(junkA k i, ((i : ℤ), (i : ℤ) + 1)) :: (junkA k i, ((i : ℤ) + 1, (i : ℤ))) :: st.open_set,
       (((i : ℤ), (i : ℤ) + 1), ((i : ℤ) : ℝ) * Real.sqrt 2 + 1) ::
         (((i : ℤ) + 1, (i : ℤ)), ((i : ℤ) : ℝ) * Real.sqrt 2 + 1) :: st.g_score,
       (((i : ℤ), (i : ℤ) + 1), ((i : ℤ), (i : ℤ))) ::
         (((i : ℤ) + 1, (i : ℤ)), ((i : ℤ), (i : ℤ))) :: st.came_from⟩ :=
    relaxOne_new_val hcur2 b4 ht4 hf4
  have hcur4 : look ((((i : ℤ), (i : ℤ) + 1), ((i : ℤ) : ℝ) * Real.sqrt 2 + 1) ::
      (((i : ℤ) + 1, (i : ℤ)), ((i : ℤ) : ℝ) * Real.sqrt 2 + 1) :: st.g_score)
      ((i : ℤ), (i : ℤ)) = some (((i : ℤ) : ℝ) * Real.sqrt 2) :=
    look_cons_ne' (by simp only [ne_eq, Prod.mk.injEq]; omega) hcur2
  have b5 : look ((((i : ℤ), (i : ℤ) + 1), ((i : ℤ) : ℝ) * Real.sqrt 2 + 1) ::
      (((i : ℤ) + 1, (i : ℤ)), ((i : ℤ) : ℝ) * Real.sqrt 2 + 1) :: st.g_score)
      ((i : ℤ) - 1, (i : ℤ) - 1) = some ((((i : ℤ) - 1 : ℤ) : ℝ) * Real.sqrt 2) :=
    look_cons_ne' (by simp only [ne_eq, Prod.mk.injEq]; omega)
      (look_cons_ne' (by simp only [ne_eq, Prod.mk.injEq]; omega) base5)
  have e5 : relaxOne ((k : ℤ), (k : ℤ)) ((i : ℤ), (i : ℤ))
      ⟨(junkA k i, ((i : ℤ), (i : ℤ) + 1)) :: (junkA k i, ((i : ℤ) + 1, (i : ℤ))) :: st.open_set,
       (((i : ℤ), (i : ℤ) + 1), ((i : ℤ) : ℝ) * Real.sqrt 2 + 1) ::
         (((i : ℤ) + 1, (i : ℤ)), ((i : ℤ) : ℝ) * Real.sqrt 2 + 1) :: st.g_score,
       (((i : ℤ), (i : ℤ) + 1), ((i : ℤ), (i : ℤ))) ::
         (((i : ℤ) + 1, (i : ℤ)), ((i : ℤ), (i : ℤ))) :: st.came_from⟩
      ((i : ℤ) - 1, (i : ℤ) - 1) =
      ⟨(junkA k i, ((i : ℤ), (i : ℤ) + 1)) :: (junkA k i, ((i : ℤ) + 1, (i : ℤ))) :: st.open_set,
       (((i : ℤ), (i : ℤ) + 1), ((i : ℤ) : ℝ) * Real.sqrt 2 + 1) ::
         (((i : ℤ) + 1, (i : ℤ)), ((i : ℤ) : ℝ) * Real.sqrt 2 + 1) :: st.g_score,
       (((i : ℤ), (i : ℤ) + 1), ((i : ℤ), (i : ℤ))) ::
         (((i : ℤ) + 1, (i : ℤ)), ((i : ℤ), (i : ℤ))) :: st.came_from⟩ :=
    relaxOne_skip_closed hcur4 b5 hge5
  have b6 : look ((((i : ℤ), (i : ℤ) + 1), ((i : ℤ) : ℝ) * Real.sqrt 2 + 1) ::
      (((i : ℤ) + 1, (i : ℤ)), ((i : ℤ) : ℝ) * Real.sqrt 2 + 1) :: st.g_score)
      ((i : ℤ) - 1, (i : ℤ) + 1) = none :=
    look_cons_ne' (by simp only [ne_eq, Prod.mk.injEq]; omega)
      (look_cons_ne' (by simp only [ne_eq, Prod.mk.injEq]; omega) base6)
  have e6 : relaxOne ((k : ℤ), (k : ℤ)) ((i : ℤ), (i : ℤ))
      ⟨(junkA k i, ((i : ℤ), (i : ℤ) + 1)) :: (junkA k i, ((i : ℤ) + 1, (i : ℤ))) :: st.open_set,
       (((i : ℤ), (i : ℤ) + 1), ((i : ℤ) : ℝ) * Real.sqrt 2 + 1) ::
         (((i : ℤ) + 1, (i : ℤ)), ((i : ℤ) : ℝ) * Real.sqrt 2 + 1) :: st.g_score,
       (((i : ℤ), (i : ℤ) + 1), ((i : ℤ), (i : ℤ))) ::
         (((i : ℤ) + 1, (i : ℤ)), ((i : ℤ), (i : ℤ))) :: st.came_from⟩
      ((i : ℤ) - 1, (i : ℤ) + 1) =
      ⟨(junkB k i, ((i : ℤ) - 1, (i : ℤ) + 1)) :: (junkA k i, ((i : ℤ), (i : ℤ) + 1)) ::
         (junkA k i, ((i : ℤ) + 1, (i : ℤ))) :: st.open_set,
       (((i : ℤ) - 1, (i : ℤ) + 1), (((i : ℤ) + 1 : ℤ) : ℝ) * Real.sqrt 2) ::
         (((i : ℤ), (i : ℤ) + 1), ((i : ℤ) : ℝ) * Real.sqrt 2 + 1) ::
         (((i : ℤ) + 1, (i : ℤ)), ((i : ℤ) : ℝ) * Real.sqrt 2 + 1) :: st.g_score,
       (((i : ℤ) - 1, (i : ℤ) + 1), ((i : ℤ), (i : ℤ))) ::
         (((i : ℤ), (i : ℤ) + 1), ((i : ℤ), (i : ℤ))) ::
         (((i : ℤ) + 1, (i : ℤ)), ((i : ℤ), (i : ℤ))) :: st.came_from⟩ :=
    relaxOne_new_val hcur4 b6 ht6 hf6
  have hcur6 : look ((((i : ℤ) - 1, (i : ℤ) + 1), (((i : ℤ) + 1 : ℤ) : ℝ) * Real.sqrt 2) ::
      (((i : ℤ), (i : ℤ) + 1), ((i : ℤ) : ℝ) * Real.sqrt 2 + 1) ::
      (((i : ℤ) + 1, (i : ℤ)), ((i : ℤ) : ℝ) * Real.sqrt 2 + 1) :: st.g_score)
      ((i : ℤ), (i : ℤ)) = some (((i : ℤ) : ℝ) * Real.sqrt 2) :=
    look_cons_ne' (by simp only [ne_eq, Prod.mk.injEq]; omega) hcur4
  have b7 : look ((((i : ℤ) - 1, (i : ℤ) + 1), (((i : ℤ) + 1 : ℤ) : ℝ) * Real.sqrt 2) ::
      (((i : ℤ), (i : ℤ) + 1), ((i : ℤ) : ℝ) * Real.sqrt 2 + 1) ::
      (((i : ℤ) + 1, (i : ℤ)), ((i : ℤ) : ℝ) * Real.sqrt 2 + 1) :: st.g_score)
      ((i : ℤ) + 1, (i : ℤ) - 1) = none :=
    look_cons_ne' (by simp only [ne_eq, Prod.mk.injEq]; omega)
      (look_cons_ne' (by simp only [ne_eq, Prod.mk.injEq]; omega)
        (look_cons_ne' (by simp only [ne_eq, Prod.mk.injEq]; omega) base7))
  have e7 : relaxOne ((k : ℤ), (k : ℤ)) ((i : ℤ), (i : ℤ))
      ⟨(junkB k i, ((i : ℤ) - 1, (i : ℤ) + 1)) :: (junkA k i, ((i : ℤ), (i : ℤ) + 1)) ::
         (junkA k i, ((i : ℤ) + 1, (i : ℤ))) :: st.open_set,
       (((i : ℤ) - 1, (i : ℤ) + 1), (((i : ℤ) + 1 : ℤ) : ℝ) * Real.sqrt 2) ::
         (((i : ℤ), (i : ℤ) + 1), ((i : ℤ) : ℝ) * Real.sqrt 2 + 1) ::
         (((i : ℤ) + 1, (i : ℤ)), ((i : ℤ) : ℝ) * Real.sqrt 2 + 1) :: st.g_score,
       (((i : ℤ) - 1, (i : ℤ) + 1), ((i : ℤ), (i : ℤ))) ::
         (((i : ℤ), (i : ℤ) + 1), ((i : ℤ), (i : ℤ))) ::
         (((i : ℤ) + 1, (i : ℤ)), ((i : ℤ), (i : ℤ))) :: st.came_from⟩
      ((i : ℤ) + 1, (i : ℤ) - 1) =
      ⟨(junkB k i, ((i : ℤ) + 1, (i : ℤ) - 1)) :: (junkB k i, ((i : ℤ) - 1, (i : ℤ) + 1)) ::
         (junkA k i, ((i : ℤ), (i : ℤ) + 1)) ::
         (junkA k i, ((i : ℤ) + 1, (i : ℤ))) :: st.open_set,
       (((i : ℤ) + 1, (i : ℤ) - 1), (((i : ℤ) + 1 : ℤ) : ℝ) * Real.sqrt 2) ::
         (((i : ℤ) - 1, (i : ℤ) + 1), (((i : ℤ) + 1 : ℤ) : ℝ) * Real.sqrt 2) ::
         (((i : ℤ), (i : ℤ) + 1), ((i : ℤ) : ℝ) * Real.sqrt 2 + 1) ::
         (((i : ℤ) + 1, (i : ℤ)), ((i : ℤ) : ℝ) * Real.sqrt 2 + 1) :: st.g_score,
       (((i : ℤ) + 1, (i : ℤ) - 1), ((i : ℤ), (i : ℤ))) ::
         (((i : ℤ) - 1, (i : ℤ) + 1), ((i : ℤ), (i : ℤ))) ::
         (((i : ℤ), (i : ℤ) + 1), ((i : ℤ), (i : ℤ))) ::
         (((i : ℤ) + 1, (i : ℤ)), ((i : ℤ), (i : ℤ))) :: st.came_from⟩ :=
    relaxOne_new_val hcur6 b7 ht7 hf7
  have hcur7 : look ((((i : ℤ) + 1, (i : ℤ) - 1), (((i : ℤ) + 1 : ℤ) : ℝ) * Real.sqrt 2) ::
      (((i : ℤ) - 1, (i : ℤ) + 1), (((i : ℤ) + 1 : ℤ) : ℝ) * Real.sqrt 2) ::
      (((i : ℤ), (i : ℤ) + 1), ((i : ℤ) : ℝ) * Real.sqrt 2 + 1) ::
      (((i : ℤ) + 1, (i : ℤ)), ((i : ℤ) : ℝ) * Real.sqrt 2 + 1) :: st.g_score)
      ((i : ℤ), (i : ℤ)) = some (((i : ℤ) : ℝ) * Real.sqrt 2) :=
    look_cons_ne' (by simp only [ne_eq, Prod.mk.injEq]; omega) hcur6
  have b8 : look ((((i : ℤ) + 1, (i : ℤ) - 1), (((i : ℤ) + 1 : ℤ) : ℝ) * Real.sqrt 2) ::
      (((i : ℤ) - 1, (i : ℤ) + 1), (((i : ℤ) + 1 : ℤ) : ℝ) * Real.sqrt 2) ::
      (((i : ℤ), (i : ℤ) + 1), ((i : ℤ) : ℝ) * Real.sqrt 2 + 1) ::
      (((i : ℤ) + 1, (i : ℤ)), ((i : ℤ) : ℝ) * Real.sqrt 2 + 1) :: st.g_score)
      ((i : ℤ) + 1, (i : ℤ) + 1) = none :=
    look_cons_ne' (by simp only [ne_eq, Prod.mk.injEq]; omega)
      (look_cons_ne' (by simp only [ne_eq, Prod.mk.injEq]; omega)
        (look_cons_ne' (by simp only [ne_eq, Prod.mk.injEq]; omega)
          (look_cons_ne' (by simp only [ne_eq, Prod.mk.injEq]; omega) base8)))
  have e8 : relaxOne ((k : ℤ), (k : ℤ)) ((i : ℤ), (i : ℤ))
      ⟨(junkB k i, ((i : ℤ) + 1, (i : ℤ) - 1)) :: (junkB k i, ((i : ℤ) - 1, (i : ℤ) + 1)) ::
         (junkA k i, ((i : ℤ), (i : ℤ) + 1)) ::
         (junkA k i, ((i : ℤ) + 1, (i : ℤ))) :: st.open_set,
       (((i : ℤ) + 1, (i : ℤ) - 1), (((i : ℤ) + 1 : ℤ) : ℝ) * Real.sqrt 2) ::
         (((i : ℤ) - 1, (i : ℤ) + 1), (((i : ℤ) + 1 : ℤ) : ℝ) * Real.sqrt 2) ::
         (((i : ℤ), (i : ℤ) + 1), ((i : ℤ) : ℝ) * Real.sqrt 2 + 1) ::
         (((i : ℤ) + 1, (i : ℤ)), ((i : ℤ) : ℝ) * Real.sqrt 2 + 1) :: st.g_score,
       (((i : ℤ) + 1, (i : ℤ) - 1), ((i : ℤ), (i : ℤ))) ::
         (((i : ℤ) - 1, (i : ℤ) + 1), ((i : ℤ), (i : ℤ))) ::
         (((i : ℤ), (i : ℤ) + 1), ((i : ℤ), (i : ℤ))) ::
         (((i : ℤ) + 1, (i : ℤ)), ((i : ℤ), (i : ℤ))) :: st.came_from⟩
      ((i : ℤ) + 1, (i : ℤ) + 1) =
      ⟨((k : ℝ) * Real.sqrt 2, ((i : ℤ) + 1, (i : ℤ) + 1)) ::
         (junkB k i, ((i : ℤ) + 1, (i : ℤ) - 1)) :: (junkB k i, ((i : ℤ) - 1, (i : ℤ) + 1)) ::
         (junkA k i, ((i : ℤ), (i : ℤ) + 1)) ::
         (junkA k i, ((i : ℤ) + 1, (i : ℤ))) :: st.open_set,
       (((i : ℤ) + 1, (i : ℤ) + 1), (((i : ℤ) + 1 : ℤ) : ℝ) * Real.sqrt 2) ::
         (((i : ℤ) + 1, (i : ℤ) - 1), (((i : ℤ) + 1 : ℤ) : ℝ) * Real.sqrt 2) ::
         (((i : ℤ) - 1, (i : ℤ) + 1), (((i : ℤ) + 1 : ℤ) : ℝ) * Real.sqrt 2) ::
         (((i : ℤ), (i : ℤ) + 1), ((i : ℤ) : ℝ) * Real.sqrt 2 + 1) ::
         (((i : ℤ) + 1, (i : ℤ)), ((i : ℤ) : ℝ) * Real.sqrt 2 + 1) :: st.g_score,
       (((i : ℤ) + 1, (i : ℤ) + 1), ((i : ℤ), (i : ℤ))) ::
         (((i : ℤ) + 1, (i : ℤ) - 1), ((i : ℤ), (i : ℤ))) ::
         (((i : ℤ) - 1, (i : ℤ) + 1), ((i : ℤ), (i : ℤ))) ::
         (((i : ℤ), (i : ℤ) + 1), ((i : ℤ), (i : ℤ))) ::
         (((i : ℤ) + 1, (i : ℤ)), ((i : ℤ), (i : ℤ))) :: st.came_from⟩ :=
    relaxOne_new_val hcur7 b8 ht8 hf8
  have hra : relaxAll (openMap (k + 1)) ((k : ℤ), (k : ℤ)) ((i : ℤ), (i : ℤ)) st =
      ⟨((k : ℝ) * Real.sqrt 2, ((i : ℤ) + 1, (i : ℤ) + 1)) ::
         (junkB k i, ((i : ℤ) + 1, (i : ℤ) - 1)) :: (junkB k i, ((i : ℤ) - 1, (i : ℤ) + 1)) ::
         (junkA k i, ((i : ℤ), (i : ℤ) + 1)) ::
         (junkA k i, ((i : ℤ) + 1, (i : ℤ))) :: st.open_set,
       (((i : ℤ) + 1, (i : ℤ) + 1), (((i : ℤ) + 1 : ℤ) : ℝ) * Real.sqrt 2) ::
         (((i : ℤ) + 1, (i : ℤ) - 1), (((i : ℤ) + 1 : ℤ) : ℝ) * Real.sqrt 2) ::
         (((i : ℤ) - 1, (i : ℤ) + 1), (((i : ℤ) + 1 : ℤ) : ℝ) * Real.sqrt 2) ::
         (((i : ℤ), (i : ℤ) + 1), ((i : ℤ) : ℝ) * Real.sqrt 2 + 1) ::
         (((i : ℤ) + 1, (i : ℤ)), ((i : ℤ) : ℝ) * Real.sqrt 2 + 1) :: st.g_score,
       (((i : ℤ) + 1, (i : ℤ) + 1), ((i : ℤ), (i : ℤ))) ::
         (((i : ℤ) + 1, (i : ℤ) - 1), ((i : ℤ), (i : ℤ))) ::
         (((i : ℤ) - 1, (i : ℤ) + 1), ((i : ℤ), (i : ℤ))) ::
         (((i : ℤ), (i : ℤ) + 1), ((i : ℤ), (i : ℤ))) ::
         (((i : ℤ) + 1, (i : ℤ)), ((i : ℤ), (i : ℤ))) :: st.came_from⟩ := by
    unfold relaxAll
    dsimp only
    rw [get_neighbors_openMap_diag (k + 1) (i : ℤ) (by omega) (by omega)]
    simp only [List.foldl_cons, List.foldl_nil]
    rw [e1, e2, e3, e4, e5, e6, e7, e8]
  have hg5 : (relaxAll (openMap (k + 1)) ((k : ℤ), (k : ℤ)) ((i : ℤ), (i : ℤ)) st).g_score =
      (((i : ℤ) + 1, (i : ℤ) + 1), (((i : ℤ) + 1 : ℤ) : ℝ) * Real.sqrt 2) ::
        (((i : ℤ) + 1, (i : ℤ) - 1), (((i : ℤ) + 1 : ℤ) : ℝ) * Real.sqrt 2) ::
        (((i : ℤ) - 1, (i : ℤ) + 1), (((i : ℤ) + 1 : ℤ) : ℝ) * Real.sqrt 2) ::
        (((i : ℤ), (i : ℤ) + 1), ((i : ℤ) : ℝ) * Real.sqrt 2 + 1) ::
        (((i : ℤ) + 1, (i : ℤ)), ((i : ℤ) : ℝ) * Real.sqrt 2 + 1) :: st.g_score := by
    rw [hra]
  have hc5 : (relaxAll (openMap (k + 1)) ((k : ℤ), (k : ℤ)) ((i : ℤ), (i : ℤ)) st).came_from =
      (((i : ℤ) + 1, (i : ℤ) + 1), ((i : ℤ), (i : ℤ))) ::
        (((i : ℤ) + 1, (i : ℤ) - 1), ((i : ℤ), (i : ℤ))) ::
        (((i : ℤ) - 1, (i : ℤ) + 1), ((i : ℤ), (i : ℤ))) ::
        (((i : ℤ), (i : ℤ) + 1), ((i : ℤ), (i : ℤ))) ::
        (((i : ℤ) + 1, (i : ℤ)), ((i : ℤ), (i : ℤ))) :: st.came_from := by
    rw [hra]
  have ho5 : (relaxAll (openMap (k + 1)) ((k : ℤ), (k : ℤ)) ((i : ℤ), (i : ℤ)) st).open_set =
      ((k : ℝ) * Real.sqrt 2, ((i : ℤ) + 1, (i : ℤ) + 1)) ::
        (junkB k i, ((i : ℤ) + 1, (i : ℤ) - 1)) :: (junkB k i, ((i : ℤ) - 1, (i : ℤ) + 1)) ::
        (junkA k i, ((i : ℤ), (i : ℤ) + 1)) ::
        (junkA k i, ((i : ℤ) + 1, (i : ℤ))) :: st.open_set := by
    rw [hra]
  refine ⟨?_, ?_, ?_, ?_⟩
  · rw [hg5]
    intro nd
    obtain ⟨x, y⟩ := nd
    by_cases hk8 : ((x, y) : ℤ × ℤ) = ((i : ℤ) + 1, (i : ℤ) + 1)
    · rw [hk8, look_cons_eq', gOpen_at_diag (i + 1) ((i : ℤ) + 1) (by omega) (by omega)]
    · by_cases hk7 : ((x, y) : ℤ × ℤ) = ((i : ℤ) + 1, (i : ℤ) - 1)
      · rw [hk7, look_cons, if_neg nLD, look_cons_eq']
        rw [show (((i : ℤ) + 1, (i : ℤ) - 1) : ℤ × ℤ) = (((i : ℤ) - 1) + 2, (i : ℤ) - 1) from by
          simp only [Prod.mk.injEq, true_and, and_true]; omega]
        rw [gOpen_at_low (i + 1) ((i : ℤ) - 1) (by omega) (by omega)]
        congr 1
        push_cast
        ring
      · by_cases hk6 : ((x, y) : ℤ × ℤ) = ((i : ℤ) - 1, (i : ℤ) + 1)
        · rw [hk6, look_cons, if_neg nHD, look_cons, if_neg nHL, look_cons_eq']
          rw [show (((i : ℤ) - 1, (i : ℤ) + 1) : ℤ × ℤ) = ((i : ℤ) - 1, ((i : ℤ) - 1) + 2) from by
            simp only [Prod.mk.injEq, true_and, and_true]; omega]
          rw [gOpen_at_high (i + 1) ((i : ℤ) - 1) (by omega) (by omega)]
          congr 1
          push_cast
          ring
        · by_cases hk4 : ((x, y) : ℤ × ℤ) = ((i : ℤ), (i : ℤ) + 1)
          · rw [hk4, look_cons, if_neg nUD, look_cons, if_neg nUL, look_cons, if_neg nUH,
              look_cons_eq', gOpen_at_above (i + 1) (i : ℤ) (by omega) (by omega)]
          · by_cases hk2 : ((x, y) : ℤ × ℤ) = ((i : ℤ) + 1, (i : ℤ))
            · rw [hk2, look_cons, if_neg nRD, look_cons, if_neg nRL, look_cons, if_neg nRH,
                look_cons, if_neg nRU, look_cons_eq',
                gOpen_at_below (i + 1) (i : ℤ) (by omega) (by omega)]
            · rw [look_cons_ne' hk8 (look_cons_ne' hk7 (look_cons_ne' hk6 (look_cons_ne' hk4
                (look_cons_ne' hk2 (hg (x, y))))))]
              exact (gOpen_succ_off i x y
                (by simp only [Prod.mk.injEq] at hk8; exact hk8)
                (by simp only [Prod.mk.injEq] at hk2; exact hk2)
                (by simp only [Prod.mk.injEq] at hk4; exact hk4)
                (by simp only [Prod.mk.injEq] at hk7; exact hk7)
                (by simp only [Prod.mk.injEq] at hk6; exact hk6)).symm
  · rw [hc5]
    intro nd
    obtain ⟨x, y⟩ := nd
    by_cases hk8 : ((x, y) : ℤ × ℤ) = ((i : ℤ) + 1, (i : ℤ) + 1)
    · rw [hk8, look_cons_eq', cameOpen_succ_diag i]
    · by_cases hk7 : ((x, y) : ℤ × ℤ) = ((i : ℤ) + 1, (i : ℤ) - 1)
      · rw [hk7, look_cons, if_neg nLD, look_cons_eq', cameOpen_succ_low i h1]
      · by_cases hk6 : ((x, y) : ℤ × ℤ) = ((i : ℤ) - 1, (i : ℤ) + 1)
        · rw [hk6, look_cons, if_neg nHD, look_cons, if_neg nHL, look_cons_eq',
            cameOpen_succ_high i h1]
        · by_cases hk4 : ((x, y) : ℤ × ℤ) = ((i : ℤ), (i : ℤ) + 1)
          · rw [hk4, look_cons, if_neg nUD, look_cons, if_neg nUL, look_cons, if_neg nUH,
              look_cons_eq', cameOpen_succ_up i]
          · by_cases hk2 : ((x, y) : ℤ × ℤ) = ((i : ℤ) + 1, (i : ℤ))
            · rw [hk2, look_cons, if_neg nRD, look_cons, if_neg nRL, look_cons, if_neg nRH,
                look_cons, if_neg nRU, look_cons_eq', cameOpen_succ_right i]
            · rw [look_cons_ne' hk8 (look_cons_ne' hk7 (look_cons_ne' hk6 (look_cons_ne' hk4
                (look_cons_ne' hk2 (hcf (x, y))))))]
              exact (cameOpen_succ_off i x y
                (by simp only [Prod.mk.injEq] at hk8; exact hk8)
                (by simp only [Prod.mk.injEq] at hk2; exact hk2)
                (by simp only [Prod.mk.injEq] at hk4; exact hk4)
                (by simp only [Prod.mk.injEq] at hk7; exact hk7)
                (by simp only [Prod.mk.injEq] at hk6; exact hk6)).symm
  · rw [hc5]
    simp only [List.length_cons, hlen]
    omega
  · rw [ho5, ← Multiset.coe_eq_coe, openEntries_succ k i h1]
    simp only [← Multiset.cons_coe, ← Multiset.coe_add, Multiset.coe_nil]
    rw [show (st.open_set : Multiset AEntry) = ((openEntries k i).tail : Multiset AEntry) from
      Multiset.coe_eq_coe.mpr hopen]
    rw [show (openEntries k i).tail
        = (((List.range i).flatMap fun j =>
            [(junkA k j, ((j : ℤ) + 1, (j : ℤ))), (junkA k j, ((j : ℤ), (j : ℤ) + 1))]) ++
           ((List.range (i - 1)).flatMap fun j =>
            [(junkB k (j + 1), ((j : ℤ) + 2, (j : ℤ))), (junkB k (j + 1), ((j : ℤ), (j : ℤ) + 2))]))
      from rfl]
    simp only [← Multiset.coe_add]
    simp only [← Multiset.singleton_add]
    abel

lemma openEntries_min (k i : ℕ) (hik : i ≤ k) :
    ∀ e ∈ openEntries k i,
      e = (((k : ℝ) * Real.sqrt 2, ((i : ℤ), (i : ℤ))) : AEntry) ∨ (k : ℝ) * Real.sqrt 2 < e.1 := by
  intro e he
  unfold openEntries at he
  rcases List.mem_cons.mp he with h | h
  · exact Or.inl h
  · right
    rcases List.mem_append.mp h with h | h
    · obtain ⟨j, hj, hmem⟩ := List.mem_flatMap.mp h
      have hjk : j < k := lt_of_lt_of_le (List.mem_range.mp hj) hik
      rcases List.mem_cons.mp hmem with h' | h'
      · rw [h']; exact junkA_gt k j hjk
      · rcases List.mem_cons.mp h' with h'' | h''
        · rw [h'']; exact junkA_gt k j hjk
        · simp at h''
    · obtain ⟨j, hj, hmem⟩ := List.mem_flatMap.mp h
      have hjk : j + 1 < k := by
        have := List.mem_range.mp hj
        omega
      rcases List.mem_cons.mp hmem with h' | h'
      · rw [h']; exact junkB_gt k (j + 1) hjk
      · rcases List.mem_cons.mp h' with h'' | h''
        · rw [h'']; exact junkB_gt k (j + 1) hjk
        · simp at h''

lemma popMin_openEntries (k i : ℕ) (hik : i ≤ k) (l : List AEntry)
    (hl : l.Perm (openEntries k i)) :
    ∃ rest, popMin l = some ((((k : ℝ) * Real.sqrt 2, ((i : ℤ), (i : ℤ))) : AEntry), rest) ∧
      rest.Perm (openEntries k i).tail := by
  have hne : l ≠ [] := by
    intro hnil
    rw [hnil] at hl
    have := hl.length_eq
    unfold openEntries at this
    simp at this
  rcases hpm : popMin l with _ | pair
  · exact absurd (popMin_eq_none hpm) hne
  · obtain ⟨e, rest⟩ := pair
    obtain ⟨hmem, hmin, hperm⟩ := popMin_spec l e rest hpm
    have he' : e ∈ openEntries k i := hl.mem_iff.mp hmem
    have hhead : (((k : ℝ) * Real.sqrt 2, ((i : ℤ), (i : ℤ))) : AEntry) ∈ l := by
      apply hl.mem_iff.mpr
      unfold openEntries
      exact List.mem_cons_self _ _
    rcases openEntries_min k i hik e he' with heq | hgt
    · refine ⟨rest, by rw [heq], ?_⟩
      have hp2 : (e :: rest).Perm (openEntries k i) := hperm.symm.trans hl
      rw [heq] at hp2
      exact List.Perm.cons_inv
        (show ((((k : ℝ) * Real.sqrt 2, ((i : ℤ), (i : ℤ))) : AEntry) :: rest).Perm
          ((((k : ℝ) * Real.sqrt 2, ((i : ℤ), (i : ℤ))) : AEntry) :: (openEntries k i).tail)
          from hp2)
    · exfalso
      have hle := hmin _ hhead
      unfold entryLE at hle
      rcases hle with hlt | ⟨heqp, _⟩
      · have hlt' : e.1 < (k : ℝ) * Real.sqrt 2 := hlt
        linarith
      · have heqp' : e.1 = (k : ℝ) * Real.sqrt 2 := heqp
        linarith

lemma diagPath_zero : diagPath 0 = [((0 : ℤ), (0 : ℤ))] := by
  unfold diagPath
  simp [List.range_succ]

lemma diagPath_succ (n : ℕ) :
    diagPath (n + 1) = diagPath n ++ [(((n + 1 : ℕ) : ℤ), ((n + 1 : ℕ) : ℤ))] := by
  unfold diagPath
  rw [List.range_succ, List.map_append]
  simp

lemma walkBack_cameOpen (m : ℕ) (came : List ((ℤ × ℤ) × (ℤ × ℤ)))
    (hc : ∀ nd, look came nd = cameOpen m nd) :
    ∀ (j : ℕ), j ≤ m → ∀ (fuel : ℕ), j + 1 ≤ fuel → ∀ (acc : List (ℤ × ℤ)),
      walkBack came fuel ((j : ℤ), (j : ℤ)) acc = some (diagPath j ++ acc) := by
  intro j
  induction j with
  | zero =>
    intro hjm fuel hf acc
    obtain ⟨f', rfl⟩ : ∃ f', fuel = f' + 1 := ⟨fuel - 1, by omega⟩
    unfold walkBack
    rw [hc, show cameOpen m (((0 : ℕ) : ℤ), ((0 : ℕ) : ℤ)) = none from by
      unfold cameOpen
      split_ifs <;> first | rfl | (exfalso; omega)]
    simp [diagPath_zero]
  | succ n ih =>
    intro hjm fuel hf acc
    obtain ⟨f', rfl⟩ : ∃ f', fuel = f' + 1 := ⟨fuel - 1, by omega⟩
    unfold walkBack
    rw [hc, show cameOpen m (((n + 1 : ℕ) : ℤ), ((n + 1 : ℕ) : ℤ)) = some ((n : ℤ), (n : ℤ))
      from by
        unfold cameOpen
        split_ifs <;>
          first
            | (exfalso; omega)
            | (exfalso; simp only [true_and, and_true] at *; omega)
            | (simp only [Option.some.injEq, Prod.mk.injEq]; omega)]
    dsimp only
    rw [ih (by omega) f' (by omega) ((((n + 1 : ℕ) : ℤ), ((n + 1 : ℕ) : ℤ)) :: acc)]
    rw [diagPath_succ, List.append_assoc]
    rfl

lemma loopAStar_open (k : ℕ) (hk : 1 ≤ k) :
    ∀ (d : ℕ), ∀ (i : ℕ) (st : AState) (fuel : ℕ),
      i + d = k → 1 ≤ i →
      (∀ nd, look st.g_score nd = gOpen i nd) →
      (∀ nd, look st.came_from nd = cameOpen i nd) →
      st.came_from.length = 5 * i - 2 →
      st.open_set.Perm (openEntries k i) →
      d + 1 ≤ fuel →
      loopAStar (openMap (k + 1)) ((k : ℤ), (k : ℤ)) fuel st = some (diagPath k) := by
  intro d
  induction d with
  | zero =>
    intro i st fuel hik h1 hg hcf hlen hopen hfuel
    obtain rfl : k = i := by omega
    obtain ⟨f', rfl⟩ : ∃ f', fuel = f' + 1 := ⟨fuel - 1, by omega⟩
    obtain ⟨rest, hpop, hrest⟩ := popMin_openEntries k k le_rfl st.open_set hopen
    unfold loopAStar
    rw [hpop]
    dsimp only
    rw [if_pos rfl, hlen,
      walkBack_cameOpen k st.came_from hcf k le_rfl (5 * k - 2 + 1) (by omega) [],
      List.append_nil]
  | succ d ih =>
    intro i st fuel hik h1 hg hcf hlen hopen hfuel
    obtain ⟨f', rfl⟩ : ∃ f', fuel = f' + 1 := ⟨fuel - 1, by omega⟩
    obtain ⟨rest, hpop, hrest⟩ := popMin_openEntries k i (by omega) st.open_set hopen
    unfold loopAStar
    rw [hpop]
    dsimp only
    rw [if_neg (by simp only [Prod.mk.injEq]; omega)]
    obtain ⟨hg', hcf', hlen', hopen'⟩ := stepOpen_relax k i h1 (by omega)
      ⟨rest, st.g_score, st.came_from⟩ hg hcf hlen hrest
    exact ih (i + 1) _ f' (by omega) (by omega) hg' hcf' hlen' hopen' (by omega)

lemma astarFuel_ge (k : ℕ) : k + 2 ≤ astarFuel (openMap (k + 1)) := by
  unfold astarFuel openMap
  dsimp only
  have ha : k + 2 ≤ (k + 1) * (k + 1) + 1 := by nlinarith
  have hb : (k + 1) * (k + 1) + 1 ≤ ((k + 1) * (k + 1) + 1) ^ 3 :=
    Nat.le_self_pow (by norm_num) _
  linarith

lemma gOpen_one_none (x y : ℤ) (h00 : ¬(x = 0 ∧ y = 0)) (h10 : ¬(x = 1 ∧ y = 0))
    (h01 : ¬(x = 0 ∧ y = 1)) (h11 : ¬(x = 1 ∧ y = 1)) : gOpen 1 (x, y) = none := by
  unfold gOpen
  split_ifs <;> first | rfl | (exfalso; omega)

lemma cameOpen_one_none (x y : ℤ) (h10 : ¬(x = 1 ∧ y = 0))
    (h01 : ¬(x = 0 ∧ y = 1)) (h11 : ¬(x = 1 ∧ y = 1)) : cameOpen 1 (x, y) = none := by
  unfold cameOpen
  split_ifs <;> first | rfl | (exfalso; omega)

lemma openEntries_one (k : ℕ) :
    openEntries k 1 = [((k : ℝ) * Real.sqrt 2, ((1 : ℤ), (1 : ℤ))),
      (junkA k 0, ((1 : ℤ), (0 : ℤ))), (junkA k 0, ((0 : ℤ), (1 : ℤ)))] := by
  unfold openEntries
  norm_num [List.range_succ, List.range_zero]

set_option maxHeartbeats 1600000 in
lemma stepOpen_init (k : ℕ) (hk : 1 ≤ k) :
    (∀ nd, look (relaxAll (openMap (k + 1)) ((k : ℤ), (k : ℤ)) ((0 : ℤ), (0 : ℤ))
        ⟨[], [((((0 : ℤ), (0 : ℤ)) : ℤ × ℤ), (0 : ℝ))], []⟩).g_score nd = gOpen 1 nd) ∧
      (∀ nd, look (relaxAll (openMap (k + 1)) ((k : ℤ), (k : ℤ)) ((0 : ℤ), (0 : ℤ))
        ⟨[], [((((0 : ℤ), (0 : ℤ)) : ℤ × ℤ), (0 : ℝ))], []⟩).came_from nd = cameOpen 1 nd) ∧
      (relaxAll (openMap (k + 1)) ((k : ℤ), (k : ℤ)) ((0 : ℤ), (0 : ℤ))
        ⟨[], [((((0 : ℤ), (0 : ℤ)) : ℤ × ℤ), (0 : ℝ))], []⟩).came_from.length = 5 * 1 - 2 ∧
      (relaxAll (openMap (k + 1)) ((k : ℤ), (k : ℤ)) ((0 : ℤ), (0 : ℤ))
        ⟨[], [((((0 : ℤ), (0 : ℤ)) : ℤ × ℤ), (0 : ℝ))], []⟩).open_set.Perm (openEntries k 1) := by
  have n10 : (((0 : ℤ), (0 : ℤ)) : ℤ × ℤ) ≠ ((1 : ℤ), (0 : ℤ)) := by
    simp only [ne_eq, Prod.mk.injEq, true_and, and_true]; omega
  have n01 : (((0 : ℤ), (0 : ℤ)) : ℤ × ℤ) ≠ ((0 : ℤ), (1 : ℤ)) := by
    simp only [ne_eq, Prod.mk.injEq, true_and, and_true]; omega
  have n0011 : (((0 : ℤ), (0 : ℤ)) : ℤ × ℤ) ≠ ((1 : ℤ), (1 : ℤ)) := by
    simp only [ne_eq, Prod.mk.injEq]; omega
  have nA : (((0 : ℤ), (1 : ℤ)) : ℤ × ℤ) ≠ ((1 : ℤ), (0 : ℤ)) := by
    simp only [ne_eq, Prod.mk.injEq]; omega
  have nB : (((1 : ℤ), (1 : ℤ)) : ℤ × ℤ) ≠ ((1 : ℤ), (0 : ℤ)) := by
    simp only [ne_eq, Prod.mk.injEq, true_and, and_true]; omega
  have nC : (((1 : ℤ), (1 : ℤ)) : ℤ × ℤ) ≠ ((0 : ℤ), (1 : ℤ)) := by
    simp only [ne_eq, Prod.mk.injEq, true_and, and_true]; omega
  have hcur0 : look [((((0 : ℤ), (0 : ℤ)) : ℤ × ℤ), (0 : ℝ))] ((0 : ℤ), (0 : ℤ))
      = some (0 : ℝ) := look_cons_eq' [] ((0 : ℤ), (0 : ℤ)) 0
  have b1 : look [((((0 : ℤ), (0 : ℤ)) : ℤ × ℤ), (0 : ℝ))] ((1 : ℤ), (0 : ℤ)) = none :=
    look_cons_ne' (by simp only [ne_eq, Prod.mk.injEq, true_and, and_true]; omega) rfl
  have b2 : look [((((0 : ℤ), (0 : ℤ)) : ℤ × ℤ), (0 : ℝ))] ((0 : ℤ), (1 : ℤ)) = none :=
    look_cons_ne' (by simp only [ne_eq, Prod.mk.injEq, true_and, and_true]; omega) rfl
  have b3 : look [((((0 : ℤ), (0 : ℤ)) : ℤ × ℤ), (0 : ℝ))] ((1 : ℤ), (1 : ℤ)) = none :=
    look_cons_ne' (by simp only [ne_eq, Prod.mk.injEq]; omega) rfl
  have ht1 : (0 : ℝ) + moveCost ((0 : ℤ), (0 : ℤ)) ((1 : ℤ), (0 : ℤ))
      = ((0 : ℤ) : ℝ) * Real.sqrt 2 + 1 := by
    rw [show moveCost ((0 : ℤ), (0 : ℤ)) ((1 : ℤ), (0 : ℤ)) = 1 from
      moveCost_ortho (Or.inr rfl)]
    norm_num
  have ht2 : (0 : ℝ) + moveCost ((0 : ℤ), (0 : ℤ)) ((0 : ℤ), (1 : ℤ))
      = ((0 : ℤ) : ℝ) * Real.sqrt 2 + 1 := by
    rw [show moveCost ((0 : ℤ), (0 : ℤ)) ((0 : ℤ), (1 : ℤ)) = 1 from
      moveCost_ortho (Or.inl rfl)]
    norm_num
  have ht3 : (0 : ℝ) + moveCost ((0 : ℤ), (0 : ℤ)) ((1 : ℤ), (1 : ℤ))
      = ((1 : ℤ) : ℝ) * Real.sqrt 2 := by
    rw [show moveCost ((0 : ℤ), (0 : ℤ)) ((1 : ℤ), (1 : ℤ)) = Real.sqrt 2 from
      moveCost_diag (by norm_num) (by norm_num)]
    norm_num
  have hf1 : ((0 : ℤ) : ℝ) * Real.sqrt 2 + 1
      + heurist ((k : ℤ), (k : ℤ)) ((1 : ℤ), (0 : ℤ)) = junkA k 0 := by
    rw [heurist_eval, show (((1 : ℤ) : ℝ) - ((k : ℤ) : ℝ)) ^ 2
        + (((0 : ℤ) : ℝ) - ((k : ℤ) : ℝ)) ^ 2
        = ((k : ℝ) - ((0 : ℕ) : ℝ) - 1) ^ 2 + ((k : ℝ) - ((0 : ℕ) : ℝ)) ^ 2 from by
      push_cast; ring]
    unfold junkA
    push_cast
    ring
  have hf2 : ((0 : ℤ) : ℝ) * Real.sqrt 2 + 1
      + heurist ((k : ℤ), (k : ℤ)) ((0 : ℤ), (1 : ℤ)) = junkA k 0 := by
    rw [heurist_eval, show (((0 : ℤ) : ℝ) - ((k : ℤ) : ℝ)) ^ 2
        + (((1 : ℤ) : ℝ) - ((k : ℤ) : ℝ)) ^ 2
        = ((k : ℝ) - ((0 : ℕ) : ℝ) - 1) ^ 2 + ((k : ℝ) - ((0 : ℕ) : ℝ)) ^ 2 from by
      push_cast; ring]
    unfold junkA
    push_cast
    ring
  have hf3 : ((1 : ℤ) : ℝ) * Real.sqrt 2
      + heurist ((k : ℤ), (k : ℤ)) ((1 : ℤ), (1 : ℤ)) = (k : ℝ) * Real.sqrt 2 := by
    rw [heurist_diag (k : ℤ) (1 : ℤ) (by omega)]
    push_cast
    ring
  have e1 : relaxOne ((k : ℤ), (k : ℤ)) ((0 : ℤ), (0 : ℤ))
      ⟨[], [((((0 : ℤ), (0 : ℤ)) : ℤ × ℤ), (0 : ℝ))], []⟩ ((1 : ℤ), (0 : ℤ)) =
      ⟨[(junkA k 0, ((1 : ℤ), (0 : ℤ)))],
       (((1 : ℤ), (0 : ℤ)), ((0 : ℤ) : ℝ) * Real.sqrt 2 + 1) ::
         [((((0 : ℤ), (0 : ℤ)) : ℤ × ℤ), (0 : ℝ))],
       [((((1 : ℤ), (0 : ℤ)) : ℤ × ℤ), ((0 : ℤ), (0 : ℤ)))]⟩ :=
    relaxOne_new_val hcur0 b1 ht1 hf1
  have hcur1 : look ((((1 : ℤ), (0 : ℤ)), ((0 : ℤ) : ℝ) * Real.sqrt 2 + 1) ::
      [((((0 : ℤ), (0 : ℤ)) : ℤ × ℤ), (0 : ℝ))]) ((0 : ℤ), (0 : ℤ)) = some (0 : ℝ) :=
    look_cons_ne' n10 hcur0
  have b2' : look ((((1 : ℤ), (0 : ℤ)), ((0 : ℤ) : ℝ) * Real.sqrt 2 + 1) ::
      [((((0 : ℤ), (0 : ℤ)) : ℤ × ℤ), (0 : ℝ))]) ((0 : ℤ), (1 : ℤ)) = none :=
    look_cons_ne' nA b2
  have e2 : relaxOne ((k : ℤ), (k : ℤ)) ((0 : ℤ), (0 : ℤ))
      ⟨[(junkA k 0, ((1 : ℤ), (0 : ℤ)))],
       (((1 : ℤ), (0 : ℤ)), ((0 : ℤ) : ℝ) * Real.sqrt 2 + 1) ::
         [((((0 : ℤ), (0 : ℤ)) : ℤ × ℤ), (0 : ℝ))],
       [((((1 : ℤ), (0 : ℤ)) : ℤ × ℤ), ((0 : ℤ), (0 : ℤ)))]⟩ ((0 : ℤ), (1 : ℤ)) =
      ⟨(junkA k 0, ((0 : ℤ), (1 : ℤ))) :: [(junkA k 0, ((1 : ℤ), (0 : ℤ)))],
       (((0 : ℤ), (1 : ℤ)), ((0 : ℤ) : ℝ) * Real.sqrt 2 + 1) ::
         (((1 : ℤ), (0 : ℤ)), ((0 : ℤ) : ℝ) * Real.sqrt 2 + 1) ::
         [((((0 : ℤ), (0 : ℤ)) : ℤ × ℤ), (0 : ℝ))],
       (((0 : ℤ), (1 : ℤ)), ((0 : ℤ), (0 : ℤ))) ::
         [((((1 : ℤ), (0 : ℤ)) : ℤ × ℤ), ((0 : ℤ), (0 : ℤ)))]⟩ :=
    relaxOne_new_val hcur1 b2' ht2 hf2
  have hcur2 : look ((((0 : ℤ), (1 : ℤ)), ((0 : ℤ) : ℝ) * Real.sqrt 2 + 1) ::
      (((1 : ℤ), (0 : ℤ)), ((0 : ℤ) : ℝ) * Real.sqrt 2 + 1) ::
      [((((0 : ℤ), (0 : ℤ)) : ℤ × ℤ), (0 : ℝ))]) ((0 : ℤ), (0 : ℤ)) = some (0 : ℝ) :=
    look_cons_ne' n01 hcur1
  have b3' : look ((((0 : ℤ), (1 : ℤ)), ((0 : ℤ) : ℝ) * Real.sqrt 2 + 1) ::
      (((1 : ℤ), (0 : ℤ)), ((0 : ℤ) : ℝ) * Real.sqrt 2 + 1) ::
      [((((0 : ℤ), (0 : ℤ)) : ℤ × ℤ), (0 : ℝ))]) ((1 : ℤ), (1 : ℤ)) = none :=
    look_cons_ne' nC (look_cons_ne' nB b3)
  have e3 : relaxOne ((k : ℤ), (k : ℤ)) ((0 : ℤ), (0 : ℤ))
      ⟨(junkA k 0, ((0 : ℤ), (1 : ℤ))) :: [(junkA k 0, ((1 : ℤ), (0 : ℤ)))],
       (((0 : ℤ), (1 : ℤ)), ((0 : ℤ) : ℝ) * Real.sqrt 2 + 1) ::
         (((1 : ℤ), (0 : ℤ)), ((0 : ℤ) : ℝ) * Real.sqrt 2 + 1) ::
         [((((0 : ℤ), (0 : ℤ)) : ℤ × ℤ), (0 : ℝ))],
       (((0 : ℤ), (1 : ℤ)), ((0 : ℤ), (0 : ℤ))) ::
         [((((1 : ℤ), (0 : ℤ)) : ℤ × ℤ), ((0 : ℤ), (0 : ℤ)))]⟩ ((1 : ℤ), (1 : ℤ)) =
      ⟨((k : ℝ) * Real.sqrt 2, ((1 : ℤ), (1 : ℤ))) ::
         (junkA k 0, ((0 : ℤ), (1 : ℤ))) :: [(junkA k 0, ((1 : ℤ), (0 : ℤ)))],
       (((1 : ℤ), (1 : ℤ)), ((1 : ℤ) : ℝ) * Real.sqrt 2) ::
         (((0 : ℤ), (1 : ℤ)), ((0 : ℤ) : ℝ) * Real.sqrt 2 + 1) ::
         (((1 : ℤ), (0 : ℤ)), ((0 : ℤ) : ℝ) * Real.sqrt 2 + 1) ::
         [((((0 : ℤ), (0 : ℤ)) : ℤ × ℤ), (0 : ℝ))],
       (((1 : ℤ), (1 : ℤ)), ((0 : ℤ), (0 : ℤ))) ::
         (((0 : ℤ), (1 : ℤ)), ((0 : ℤ), (0 : ℤ))) ::
         [((((1 : ℤ), (0 : ℤ)) : ℤ × ℤ), ((0 : ℤ), (0 : ℤ)))]⟩ :=
    relaxOne_new_val hcur2 b3' ht3 hf3
  have hra : relaxAll (openMap (k + 1)) ((k : ℤ), (k : ℤ)) ((0 : ℤ), (0 : ℤ))
      ⟨[], [((((0 : ℤ), (0 : ℤ)) : ℤ × ℤ), (0 : ℝ))], []⟩ =
      ⟨((k : ℝ) * Real.sqrt 2, ((1 : ℤ), (1 : ℤ))) ::
         (junkA k 0, ((0 : ℤ), (1 : ℤ))) :: [(junkA k 0, ((1 : ℤ), (0 : ℤ)))],
       (((1 : ℤ), (1 : ℤ)), ((1 : ℤ) : ℝ) * Real.sqrt 2) ::
         (((0 : ℤ), (1 : ℤ)), ((0 : ℤ) : ℝ) * Real.sqrt 2 + 1) ::
         (((1 : ℤ), (0 : ℤ)), ((0 : ℤ) : ℝ) * Real.sqrt 2 + 1) ::
         [((((0 : ℤ), (0 : ℤ)) : ℤ × ℤ), (0 : ℝ))],
       (((1 : ℤ), (1 : ℤ)), ((0 : ℤ), (0 : ℤ))) ::
         (((0 : ℤ), (1 : ℤ)), ((0 : ℤ), (0 : ℤ))) ::
         [((((1 : ℤ), (0 : ℤ)) : ℤ × ℤ), ((0 : ℤ), (0 : ℤ)))]⟩ := by
    unfold relaxAll
    dsimp only
    rw [get_neighbors_openMap_zero (k + 1) (by omega)]
    simp only [List.foldl_cons, List.foldl_nil]
    rw [e1, e2, e3]
  have hgI : (relaxAll (openMap (k + 1)) ((k : ℤ), (k : ℤ)) ((0 : ℤ), (0 : ℤ))
      ⟨[], [((((0 : ℤ), (0 : ℤ)) : ℤ × ℤ), (0 : ℝ))], []⟩).g_score =
      (((1 : ℤ), (1 : ℤ)), ((1 : ℤ) : ℝ) * Real.sqrt 2) ::
        (((0 : ℤ), (1 : ℤ)), ((0 : ℤ) : ℝ) * Real.sqrt 2 + 1) ::
        (((1 : ℤ), (0 : ℤ)), ((0 : ℤ) : ℝ) * Real.sqrt 2 + 1) ::
        [((((0 : ℤ), (0 : ℤ)) : ℤ × ℤ), (0 : ℝ))] := by
    rw [hra]
  have hcI : (relaxAll (openMap (k + 1)) ((k : ℤ), (k : ℤ)) ((0 : ℤ), (0 : ℤ))
      ⟨[], [((((0 : ℤ), (0 : ℤ)) : ℤ × ℤ), (0 : ℝ))], []⟩).came_from =
      (((1 : ℤ), (1 : ℤ)), ((0 : ℤ), (0 : ℤ))) ::
        (((0 : ℤ), (1 : ℤ)), ((0 : ℤ), (0 : ℤ))) ::
        [((((1 : ℤ), (0 : ℤ)) : ℤ × ℤ), ((0 : ℤ), (0 : ℤ)))] := by
    rw [hra]
  have hoI : (relaxAll (openMap (k + 1)) ((k : ℤ), (k : ℤ)) ((0 : ℤ), (0 : ℤ))
      ⟨[], [((((0 : ℤ), (0 : ℤ)) : ℤ × ℤ), (0 : ℝ))], []⟩).open_set =
      ((k : ℝ) * Real.sqrt 2, ((1 : ℤ), (1 : ℤ))) ::
        (junkA k 0, ((0 : ℤ), (1 : ℤ))) :: [(junkA k 0, ((1 : ℤ), (0 : ℤ)))] := by
    rw [hra]
  refine ⟨?_, ?_, ?_, ?_⟩
  · rw [hgI]
    intro nd
    obtain ⟨x, y⟩ := nd
    by_cases hk3 : ((x, y) : ℤ × ℤ) = ((1 : ℤ), (1 : ℤ))
    · rw [hk3, look_cons_eq', gOpen_at_diag 1 (1 : ℤ) (by omega) (by omega)]
    · by_cases hk2 : ((x, y) : ℤ × ℤ) = ((0 : ℤ), (1 : ℤ))
      · rw [hk2, look_cons, if_neg (Ne.symm nC), look_cons_eq']
        rw [show (((0 : ℤ), (1 : ℤ)) : ℤ × ℤ) = ((0 : ℤ), (0 : ℤ) + 1) from by norm_num]
        rw [gOpen_at_above 1 (0 : ℤ) (by omega) (by omega)]
      · by_cases hk1 : ((x, y) : ℤ × ℤ) = ((1 : ℤ), (0 : ℤ))
        · rw [hk1, look_cons, if_neg (Ne.symm nB), look_cons, if_neg (Ne.symm nA),
            look_cons_eq']
          rw [show (((1 : ℤ), (0 : ℤ)) : ℤ × ℤ) = ((0 : ℤ) + 1, (0 : ℤ)) from by norm_num]
          rw [gOpen_at_below 1 (0 : ℤ) (by omega) (by omega)]
        · by_cases hk0 : ((x, y) : ℤ × ℤ) = ((0 : ℤ), (0 : ℤ))
          · rw [hk0, look_cons, if_neg n0011, look_cons, if_neg n01, look_cons, if_neg n10,
              look_cons_eq', gOpen_at_diag 1 (0 : ℤ) (by omega) (by omega)]
            congr 1
            norm_num
          · rw [look_cons_ne' hk3 (look_cons_ne' hk2 (look_cons_ne' hk1
              (look_cons_ne' hk0 (rfl : look [] ((x, y) : ℤ × ℤ) = none))))]
            exact (gOpen_one_none x y
              (by simp only [Prod.mk.injEq] at hk0; exact hk0)
              (by simp only [Prod.mk.injEq] at hk1; exact hk1)
              (by simp only [Prod.mk.injEq] at hk2; exact hk2)
              (by simp only [Prod.mk.injEq] at hk3; exact hk3)).symm
  · rw [hcI]
    intro nd
    obtain ⟨x, y⟩ := nd
    by_cases hk3 : ((x, y) : ℤ × ℤ) = ((1 : ℤ), (1 : ℤ))
    · rw [hk3, look_cons_eq', show cameOpen 1 ((1 : ℤ), (1 : ℤ)) = some ((0 : ℤ), (0 : ℤ))
        from by
          unfold cameOpen
          split_ifs <;>
            first
              | (exfalso; omega)
              | (exfalso; simp only [true_and, and_true] at *; omega)
              | (simp only [Option.some.injEq, Prod.mk.injEq]; omega)]
    · by_cases hk2 : ((x, y) : ℤ × ℤ) = ((0 : ℤ), (1 : ℤ))
      · rw [hk2, look_cons, if_neg (Ne.symm nC), look_cons_eq',
          show cameOpen 1 ((0 : ℤ), (1 : ℤ)) = some ((0 : ℤ), (0 : ℤ)) from by
            unfold cameOpen
            split_ifs <;>
              first
                | (exfalso; omega)
                | (exfalso; simp only [true_and, and_true] at *; omega)
                | (simp only [Option.some.injEq, Prod.mk.injEq]; try omega)]
      · by_cases hk1 : ((x, y) : ℤ × ℤ) = ((1 : ℤ), (0 : ℤ))
        · rw [hk1, look_cons, if_neg (Ne.symm nB), look_cons, if_neg (Ne.symm nA),
            look_cons_eq',
            show cameOpen 1 ((1 : ℤ), (0 : ℤ)) = some ((0 : ℤ), (0 : ℤ)) from by
              unfold cameOpen
              split_ifs <;>
                first
                  | (exfalso; omega)
                  | (exfalso; simp only [true_and, and_true] at *; omega)
                  | (simp only [Option.some.injEq, Prod.mk.injEq]; try omega)]
        · rw [look_cons_ne' hk3 (look_cons_ne' hk2 (look_cons_ne' hk1
            (rfl : look [] ((x, y) : ℤ × ℤ) = none)))]
          exact (cameOpen_one_none x y
            (by simp only [Prod.mk.injEq] at hk1; exact hk1)
            (by simp only [Prod.mk.injEq] at hk2; exact hk2)
            (by simp only [Prod.mk.injEq] at hk3; exact hk3)).symm
  · rw [hcI]
    rfl
  · rw [hoI, openEntries_one]
    exact List.Perm.cons _ (List.Perm.swap _ _ _)

lemma diagPath_length (k : ℕ) : (diagPath k).length = k + 1 := by
  unfold diagPath
  rw [List.length_map, List.length_range]

lemma astar_open_eval (k : ℕ) (hk : 1 ≤ k) :
    a_star (openMap (k + 1)) ((0 : ℤ), (0 : ℤ)) ((k : ℤ), (k : ℤ)) = some (diagPath k) := by
  have hw0 : is_walkable (openMap (k + 1)) 0 0 = true :=
    (is_walkable_openMap (k + 1) 0 0).mpr ⟨by omega, by omega, by omega, by omega⟩
  have hwk : is_walkable (openMap (k + 1)) (k : ℤ) (k : ℤ) = true :=
    (is_walkable_openMap (k + 1) (k : ℤ) (k : ℤ)).mpr ⟨by omega, by omega, by omega, by omega⟩
  have hF := astarFuel_ge k
  obtain ⟨f', hf⟩ : ∃ f', astarFuel (openMap (k + 1)) = f' + 1 :=
    ⟨astarFuel (openMap (k + 1)) - 1, by omega⟩
  unfold a_star
  dsimp only
  rw [hw0, hwk, if_pos (show ((true && true) = true) from rfl), hf]
  unfold loopAStar
  rw [show popMin [((0 : ℝ), (((0 : ℤ), (0 : ℤ)) : ℤ × ℤ))]
    = some (((0 : ℝ), ((0 : ℤ), (0 : ℤ))), []) from rfl]
  dsimp only
  rw [if_neg (by simp only [Prod.mk.injEq]; omega)]
  obtain ⟨hg', hcf', hlen', hopen'⟩ := stepOpen_init k hk
  exact loopAStar_open k hk (k - 1) 1 _ f' (by omega) (by omega) hg' hcf' hlen' hopen'
    (by omega)

lemma pathCost_nonneg : ∀ l : List (ℤ × ℤ), 0 ≤ pathCost l := by
  intro l
  induction l with
  | nil => rw [show pathCost [] = 0 from rfl]
  | cons a t ih =>
    cases t with
    | nil => rw [show pathCost [a] = 0 from rfl]
    | cons b t' =>
      rw [show pathCost (a :: b :: t') = moveCost a b + pathCost (b :: t') from rfl]
      have h1 := one_le_moveCost a b
      linarith [ih]

lemma sqrt_two_le_two : Real.sqrt 2 ≤ 2 := by
  nlinarith [sqrt_two_sq, Real.sqrt_nonneg 2]

lemma moveCost_ge_half (m : OfficeMap) (a b : ℤ × ℤ) (h : stepOK m a b) :
    Real.sqrt 2 / 2 * (|((b.1 : ℝ)) - (a.1 : ℝ)| + |((b.2 : ℝ)) - (a.2 : ℝ)|)
      ≤ moveCost a b := by
  obtain ⟨hmax, _, _⟩ := h
  have hx : |b.1 - a.1| ≤ 1 := hmax ▸ le_max_left _ _
  have hy : |b.2 - a.2| ≤ 1 := hmax ▸ le_max_right _ _
  have hx' : |((b.1 : ℝ)) - (a.1 : ℝ)| ≤ 1 := by
    rw [show ((b.1 : ℝ)) - (a.1 : ℝ) = ((b.1 - a.1 : ℤ) : ℝ) from by push_cast; ring,
      show |((b.1 - a.1 : ℤ) : ℝ)| = ((|b.1 - a.1| : ℤ) : ℝ) from Int.cast_abs.symm]
    exact_mod_cast hx
  have hy' : |((b.2 : ℝ)) - (a.2 : ℝ)| ≤ 1 := by
    rw [show ((b.2 : ℝ)) - (a.2 : ℝ) = ((b.2 - a.2 : ℤ) : ℝ) from by push_cast; ring,
      show |((b.2 - a.2 : ℤ) : ℝ)| = ((|b.2 - a.2| : ℤ) : ℝ) from Int.cast_abs.symm]
    exact_mod_cast hy
  have hxnn : (0 : ℝ) ≤ |((b.1 : ℝ)) - (a.1 : ℝ)| := abs_nonneg _
  have hynn : (0 : ℝ) ≤ |((b.2 : ℝ)) - (a.2 : ℝ)| := abs_nonneg _
  unfold moveCost
  split_ifs with hc
  · nlinarith [Real.sqrt_nonneg 2]
  · push_neg at hc
    have hone : |((b.1 : ℝ)) - (a.1 : ℝ)| + |((b.2 : ℝ)) - (a.2 : ℝ)| ≤ 1 := by
      by_cases h1' : a.1 = b.1
      · have : |((b.1 : ℝ)) - (a.1 : ℝ)| = 0 := by
          rw [h1']
          simp
        linarith
      · have h2' : a.2 = b.2 := hc h1'
        have : |((b.2 : ℝ)) - (a.2 : ℝ)| = 0 := by
          rw [h2']
          simp
        linarith
    nlinarith [Real.sqrt_nonneg 2, sqrt_two_le_two]

lemma pathCost_ge_diag (m : OfficeMap) : ∀ (t : List (ℤ × ℤ)) (a : ℤ × ℤ),
    List.Chain (stepOK m) a t →
    Real.sqrt 2 / 2 * (|(((t.getLastD a).1 : ℝ)) - (a.1 : ℝ)|
      + |(((t.getLastD a).2 : ℝ)) - (a.2 : ℝ)|) ≤ pathCost (a :: t) := by
  intro t
  induction t with
  | nil =>
    intro a _
    rw [show ([] : List (ℤ × ℤ)).getLastD a = a from rfl,
      show pathCost [a] = 0 from rfl]
    simp
  | cons b t' ih =>
    intro a hch
    rw [List.chain_cons] at hch
    obtain ⟨hab, hch'⟩ := hch
    have hstep := moveCost_ge_half m a b hab
    have ihb := ih b hch'
    rw [show pathCost (a :: b :: t') = moveCost a b + pathCost (b :: t') from rfl,
      List.getLastD_cons]
    obtain ⟨L, hL⟩ : ∃ L, t'.getLastD b = L := ⟨_, rfl⟩
    rw [hL]
    rw [hL] at ihb
    have htr1 : |((L.1 : ℝ)) - (a.1 : ℝ)|
        ≤ |((L.1 : ℝ)) - (b.1 : ℝ)| + |((b.1 : ℝ)) - (a.1 : ℝ)| := abs_sub_le _ _ _
    have htr2 : |((L.2 : ℝ)) - (a.2 : ℝ)|
        ≤ |((L.2 : ℝ)) - (b.2 : ℝ)| + |((b.2 : ℝ)) - (a.2 : ℝ)| := abs_sub_le _ _ _
    calc Real.sqrt 2 / 2 * (|((L.1 : ℝ)) - (a.1 : ℝ)| + |((L.2 : ℝ)) - (a.2 : ℝ)|)
        ≤ Real.sqrt 2 / 2 * ((|((L.1 : ℝ)) - (b.1 : ℝ)| + |((b.1 : ℝ)) - (a.1 : ℝ)|)
            + (|((L.2 : ℝ)) - (b.2 : ℝ)| + |((b.2 : ℝ)) - (a.2 : ℝ)|)) := by
          apply mul_le_mul_of_nonneg_left (by linarith) (by positivity)
      _ = Real.sqrt 2 / 2 * (|((L.1 : ℝ)) - (b.1 : ℝ)| + |((L.2 : ℝ)) - (b.2 : ℝ)|)
            + Real.sqrt 2 / 2 * (|((b.1 : ℝ)) - (a.1 : ℝ)| + |((b.2 : ℝ)) - (a.2 : ℝ)|) := by
          ring
      _ ≤ pathCost (b :: t') + moveCost a b := add_le_add ihb hstep
      _ = moveCost a b + pathCost (b :: t') := by ring

lemma getLast_cons_eq : ∀ (t : List (ℤ × ℤ)) (a L : ℤ × ℤ),
    (a :: t).getLast? = some L → t.getLastD a = L := by
  intro t
  induction t with
  | nil =>
    intro a L h
    rw [List.getLast?_singleton] at h
    exact Option.some.inj h
  | cons b t' ih =>
    intro a L h
    rw [List.getLast?_cons_cons] at h
    rw [List.getLastD_cons]
    exact ih b L h

lemma pathCost_diagChain : ∀ (c : ℕ) (p : ℤ × ℤ),
    pathCost (diagChain c p) = (c : ℝ) * Real.sqrt 2 := by
  intro c
  induction c with
  | zero =>
    intro p
    rw [show diagChain 0 p = [p] from rfl, show pathCost [p] = 0 from rfl]
    norm_num
  | succ n ih =>
    intro p
    cases n with
    | zero =>
      rw [show diagChain 1 p = [p, (p.1 + 1, p.2 + 1)] from rfl,
        show pathCost [p, (p.1 + 1, p.2 + 1)]
          = moveCost p (p.1 + 1, p.2 + 1) + pathCost [(p.1 + 1, p.2 + 1)] from rfl,
        show pathCost [(p.1 + 1, p.2 + 1)] = 0 from rfl,
        show moveCost p (p.1 + 1, p.2 + 1) = Real.sqrt 2 from
          moveCost_diag (by dsimp only; omega) (by dsimp only; omega)]
      push_cast
      ring
    | succ m =>
      rw [show diagChain (m + 1 + 1) p = p :: diagChain (m + 1) (p.1 + 1, p.2 + 1) from rfl,
        show pathCost (p :: diagChain (m + 1) (p.1 + 1, p.2 + 1))
          = moveCost p (p.1 + 1, p.2 + 1) + pathCost (diagChain (m + 1) (p.1 + 1, p.2 + 1))
          from rfl,
        ih (p.1 + 1, p.2 + 1),
        show moveCost p (p.1 + 1, p.2 + 1) = Real.sqrt 2 from
          moveCost_diag (by dsimp only; omega) (by dsimp only; omega)]
      push_cast
      ring

lemma diagChain_range : ∀ (c j : ℕ),
    diagChain c ((j : ℤ), (j : ℤ))
      = (List.range (c + 1)).map (fun t : ℕ => (((j + t : ℕ) : ℤ), ((j + t : ℕ) : ℤ))) := by
  intro c
  induction c with
  | zero =>
    intro j
    rw [show diagChain 0 ((j : ℤ), (j : ℤ)) = [((j : ℤ), (j : ℤ))] from rfl]
    simp [List.range_succ]
  | succ n ih =>
    intro j
    rw [show diagChain (n + 1) ((j : ℤ), (j : ℤ))
        = ((j : ℤ), (j : ℤ)) :: diagChain n ((j : ℤ) + 1, (j : ℤ) + 1) from rfl,
      show (((j : ℤ) + 1, (j : ℤ) + 1) : ℤ × ℤ)
        = (((j + 1 : ℕ) : ℤ), ((j + 1 : ℕ) : ℤ)) from by push_cast; rfl,
      ih (j + 1)]
    conv_rhs => rw [List.range_succ_eq_map, List.map_cons, List.map_map]
    rw [show ((fun t : ℕ => (((j + t : ℕ) : ℤ), ((j + t : ℕ) : ℤ))) ∘ Nat.succ)
        = (fun t : ℕ => (((j + 1 + t : ℕ) : ℤ), ((j + 1 + t : ℕ) : ℤ))) from by
      funext t
      simp only [Function.comp_apply]
      rw [show j + Nat.succ t = j + 1 + t from by omega]]
    norm_num

lemma pathCost_diagPath (k : ℕ) : pathCost (diagPath k) = (k : ℝ) * Real.sqrt 2 := by
  have hd : diagPath k = diagChain k ((0 : ℤ), (0 : ℤ)) := by
    rw [show (((0 : ℤ), (0 : ℤ)) : ℤ × ℤ) = (((0 : ℕ) : ℤ), ((0 : ℕ) : ℤ)) from by norm_num,
      diagChain_range k 0]
    unfold diagPath
    rw [show (fun t : ℕ => (((0 + t : ℕ) : ℤ), ((0 + t : ℕ) : ℤ)))
        = (fun j : ℕ => ((j : ℤ), (j : ℤ))) from by
      funext t
      rw [Nat.zero_add]]
  rw [hd, pathCost_diagChain]

/-- C2: on the fully open n×n grid, `a_star` from `(0,0)` to `(n-1,n-1)` returns a
path containing exactly `n` cells — the pure diagonal — whose cost under the edge-cost
model (1 per orthogonal step, √2 per diagonal step) is `(n-1)·√2`, and this cost is
optimal: every path from `(0,0)` to `(n-1,n-1)` whose consecutive steps are valid
(8-adjacent, walkable, no corner cutting, as `stepOK` states) costs at least as much. -/
theorem c2_open_grid_diagonal (n : ℕ) (h : 1 ≤ n) :
    ∃ p, a_star (openMap n) ((0 : ℤ), (0 : ℤ)) ((n : ℤ) - 1, (n : ℤ) - 1) = some p ∧
      p.length = n ∧
      pathCost p = ((n : ℝ) - 1) * Real.sqrt 2 ∧
      ∀ q, q.head? = some ((0 : ℤ), (0 : ℤ)) →
        q.getLast? = some ((n : ℤ) - 1, (n : ℤ) - 1) →
        List.Chain' (stepOK (openMap n)) q →
        pathCost p ≤ pathCost q := by
  obtain ⟨k, rfl⟩ : ∃ k, n = k + 1 := ⟨n - 1, by omega⟩
  rw [show ((k + 1 : ℕ) : ℤ) - 1 = (k : ℤ) from by push_cast; ring]
  by_cases hk : 1 ≤ k
  · refine ⟨diagPath k, astar_open_eval k hk, ?_, ?_, ?_⟩
    · rw [diagPath_length]
    · rw [pathCost_diagPath]
      push_cast
      ring
    · intro q hhead hlast hch
      rw [pathCost_diagPath]
      obtain ⟨q0, t, rfl⟩ : ∃ q0 t, q = q0 :: t := by
        cases q with
        | nil => exact absurd hhead (by simp)
        | cons a t => exact ⟨a, t, rfl⟩
      have hq0 : q0 = ((0 : ℤ), (0 : ℤ)) := by
        rw [List.head?_cons] at hhead
        exact Option.some.inj hhead
      subst hq0
      have hL : t.getLastD ((0 : ℤ), (0 : ℤ)) = ((k : ℤ), (k : ℤ)) :=
        getLast_cons_eq t _ _ hlast
      have hchain : List.Chain (stepOK (openMap (k + 1))) ((0 : ℤ), (0 : ℤ)) t := hch
      have hlow := pathCost_ge_diag (openMap (k + 1)) t ((0 : ℤ), (0 : ℤ)) hchain
      rw [hL] at hlow
      dsimp only at hlow
      have key : Real.sqrt 2 / 2
          * (|((k : ℤ) : ℝ) - ((0 : ℤ) : ℝ)| + |((k : ℤ) : ℝ) - ((0 : ℤ) : ℝ)|)
          = (k : ℝ) * Real.sqrt 2 := by
        rw [show ((k : ℤ) : ℝ) - ((0 : ℤ) : ℝ) = (k : ℝ) from by push_cast; ring,
          abs_of_nonneg (by positivity : (0 : ℝ) ≤ (k : ℝ))]
        ring
      rw [← key]
      exact hlow
  · obtain rfl : k = 0 := by omega
    refine ⟨[((0 : ℤ), (0 : ℤ))], ?_, rfl, ?_, ?_⟩
    · exact astar_unit_eval
    · rw [show pathCost [((0 : ℤ), (0 : ℤ))] = 0 from rfl]
      push_cast
      ring
    · intro q _ _ _
      rw [show pathCost [((0 : ℤ), (0 : ℤ))] = 0 from rfl]
      exact pathCost_nonneg q

/-- C2 (witness): at n = 1 the claim is discharged concretely — the search on the
1×1 open grid returns the single-cell diagonal path. -/
theorem c2_open_grid_diagonal_witness :
    1 ≤ 1 ∧
      (∃ p, a_star (openMap 1) ((0 : ℤ), (0 : ℤ)) (((1 : ℕ) : ℤ) - 1, ((1 : ℕ) : ℤ) - 1)
          = some p ∧
        p.length = 1 ∧
        pathCost p = (((1 : ℕ) : ℝ) - 1) * Real.sqrt 2 ∧
        ∀ q, q.head? = some ((0 : ℤ), (0 : ℤ)) →
          q.getLast? = some (((1 : ℕ) : ℤ) - 1, ((1 : ℕ) : ℤ) - 1) →
          List.Chain' (stepOK (openMap 1)) q →
          pathCost p ≤ pathCost q) :=
  ⟨le_refl 1, c2_open_grid_diagonal 1 (le_refl 1)⟩

end ReachySim
